import Mathlib

/-!
# CETRAQ daily register: a shallow embedding of `REGISTRO CETRAQ.jsx`

The development follows `src/components/REGISTRO CETRAQ.jsx`.

* JavaScript strings are Lean strings; the relational operators on strings compare
  UTF-16 code units, as ECMAScript does.
* A JavaScript object used as a map (`fixedGoalsStatus`, `historyMap`) is an association
  list; a well-formed object has pairwise distinct keys.
* A `Date` is its time value, an integer number of milliseconds since the epoch.  The host
  time zone is a parameter (`TimeZone`).  `TimeClip` (the limit of about 273,000 years
  either side of 1970) is not modelled.
* JavaScript numbers that hold counts are natural numbers; the percentages are exact
  rationals (IEEE rounding is not modelled).
* `new Date()` is read once per call: the current instant `now` is a parameter.
* The document store is outside the file.  A handler returns the writes it issues
  (`Outcome`); the collection is a list of documents; `setDoc` with `{ merge: true }` and
  the delivery of a snapshot are modelled on one document, by the contract of the store
  (`setDocMerge`) and by the callback the file passes to `onSnapshot` (`snapshotDay`).
-/

namespace Cetraq

/-! ## JavaScript values and strings -/

/-- The JavaScript values a stored field can hold. -/
inductive JSVal where
  | bool (b : Bool)
  | num (n : Int)
  | str (s : String)
  | null
  deriving DecidableEq, Repr

/-- ToBoolean: the truthiness test of `cond ? a : b`, `!!v` and `filter(s => s)`. -/
def JSVal.truthy : JSVal → Bool
  | .bool b => b
  | .num n => n != 0
  | .str s => s != ""
  | .null => false

/-- Strict equality with the boolean true: `s === true`. -/
def JSVal.isTrue (v : JSVal) : Bool := v == JSVal.bool true

/-- UTF-16 code units of one character. -/
def utf16Units (c : Char) : List Nat :=
  if c.toNat < 65536 then [c.toNat]
  else [55296 + (c.toNat - 65536) / 1024, 56320 + (c.toNat - 65536) % 1024]

/-- UTF-16 code units of a string. -/
def codeUnits (s : String) : List Nat := (s.toList.map utf16Units).flatten

/-- Lexicographic comparison of code-unit sequences (a proper initial segment is smaller). -/
def lexLt : List Nat → List Nat → Bool
  | [], [] => false
  | [], _ :: _ => true
  | _ :: _, [] => false
  | a :: as, b :: bs => a < b || (a == b && lexLt as bs)

/-- JavaScript `a < b` on strings. -/
def jsStrLt (a b : String) : Bool := lexLt (codeUnits a) (codeUnits b)

/-- JavaScript `a <= b` on strings, which ECMAScript evaluates as the negation of `b < a`. -/
def jsStrLe (a b : String) : Bool := !jsStrLt b a

/-- JavaScript `a > b` on strings, which ECMAScript evaluates as `b < a`. -/
def jsStrGt (a b : String) : Bool := jsStrLt b a

/-- Property read `obj[key]` on an object used as a map; `none` is `undefined`. -/
def objGet {α : Type} (obj : List (String × α)) (key : String) : Option α :=
  match obj with
  | [] => none
  | (k, v) :: rest => if k = key then some v else objGet rest key

/-- Property write `obj[key] = v` on an object used as a map. -/
def objSet {α : Type} (obj : List (String × α)) (key : String) (v : α) : List (String × α) :=
  match obj with
  | [] => [(key, v)]
  | (k, w) :: rest => if k = key then (k, v) :: rest else (k, w) :: objSet rest key v

/-- The values of an object: `Object.values(obj)`. -/
def objectValues {α : Type} (obj : List (String × α)) : List α := obj.map Prod.snd

/-- The keys of an object: `Object.keys(obj)`. -/
def objectKeys {α : Type} (obj : List (String × α)) : List String := obj.map Prod.fst

/-! ## Dates -/

/-- Milliseconds per day. -/
def msPerDay : Int := 86400000

/-- ECMAScript `Day(t)`, the day number of a time value (floor division). -/
def Day (t : Int) : Int := t / msPerDay

/-- ECMAScript `TimeWithinDay(t)`. -/
def TimeWithinDay (t : Int) : Int := t % msPerDay

/-- Year of the 400-year era and day of that year, for a day of the era in 0..146096;
eras and years start on 1 March.  The day is placed in its century (36524 days, the last
one has 36525), its four-year cycle (1461 days) and its year (365 days, the last of a
cycle has 366). -/
def yearOfEra (doe : Int) : Int × Int :=
  let cen := min (doe / 36524) 3
  let doc := doe - 36524 * cen
  let cyc := doc / 1461
  let docy := doc % 1461
  let yr := min (docy / 365) 3
  (100 * cen + 4 * cyc + yr, docy - 365 * yr)

/-- Year, month (1..12) and day of month of a day number in the proleptic Gregorian
calendar: ECMAScript `YearFromTime`, `MonthFromTime` + 1 and `DateFromTime`. -/
def civilFromDays (n : Int) : Int × Int × Int :=
  let z := n + 719468
  let era := z / 146097
  let yd := yearOfEra (z % 146097)
  let mp := (5 * yd.2 + 2) / 153
  let d := yd.2 - (153 * mp + 2) / 5 + 1
  let m := if mp < 10 then mp + 3 else mp - 9
  (yd.1 + era * 400 + (if m ≤ 2 then 1 else 0), m, d)

/-- Day number of the given year, month (1..12) and day of month. -/
def daysFromCivil (y m d : Int) : Int :=
  let y1 := if m ≤ 2 then y - 1 else y
  let era := y1 / 400
  let yoe := y1 % 400
  let doy := (153 * (if m > 2 then m - 3 else m + 9) + 2) / 5 + d - 1
  let doe := yoe * 365 + yoe / 4 - yoe / 100 + doy
  era * 146097 + doe - 719468

/-- ECMAScript `MakeDay(year, month, date)` for a month index in 0..11. -/
def MakeDay (year month date : Int) : Int := daysFromCivil year (month + 1) 1 + date - 1

/-- The decimal digit character of `n % 10`. -/
def digitChar (n : Int) : Char := Char.ofNat (48 + (n % 10).toNat)

/-- Two decimal digits. -/
def pad2 (n : Int) : String := String.mk [digitChar (n / 10), digitChar n]

/-- The last `w` decimal digits of `a`, most significant first. -/
def decimalDigits : Nat → Nat → List Char
  | 0, _ => []
  | w + 1, a => decimalDigits w (a / 10) ++ [digitChar (a % 10 : Nat)]

/-- The year of `toISOString`: four digits for 0..9999, otherwise a sign and six digits.
Years of seven digits and more lie outside the range of `Date`; they are written with all
their digits. -/
def isoYear (y : Int) : String :=
  if 0 ≤ y ∧ y ≤ 9999 then
    String.mk [digitChar (y / 1000), digitChar (y / 100), digitChar (y / 10), digitChar y]
  else
    String.mk ((if y < 0 then '-' else '+')
      :: decimalDigits (max 6 (Nat.log 10 y.natAbs + 1)) y.natAbs)

/-- The date part `YYYY-MM-DD` of `toISOString` for a day number. -/
def isoDate (n : Int) : String :=
  let c := civilFromDays n
  isoYear c.1 ++ "-" ++ pad2 c.2.1 ++ "-" ++ pad2 c.2.2

/-- Source `getDateString`: `date.toISOString().split('T')[0]`, the UTC calendar date. -/
def getDateString (date : Int) : String := isoDate (Day date)

/-- Source `getTodayDateString`: `new Date().toISOString().split('T')[0]`. -/
def getTodayDateString (now : Int) : String := isoDate (Day now)

/-- The host time zone as ECMAScript reads it (`LocalTZA`): the offset of local time from
UTC, in milliseconds, in force at a UTC instant, and the offset used to interpret a local
time value. -/
structure TimeZone where
  offsetAtUTC : Int → Int
  offsetAtLocal : Int → Int

/-- A zone whose offset never changes. -/
def TimeZone.fixed (offsetMs : Int) : TimeZone :=
  ⟨fun _ => offsetMs, fun _ => offsetMs⟩

/-- ECMAScript `LocalTime(t)`. -/
def LocalTime (tz : TimeZone) (t : Int) : Int := t + tz.offsetAtUTC t

/-- ECMAScript `UTC(t)`. -/
def UTC (tz : TimeZone) (t : Int) : Int := t - tz.offsetAtLocal t

/-- `Date.prototype.getDate`: the day of the month in local time. -/
def getDate (tz : TimeZone) (t : Int) : Int := (civilFromDays (Day (LocalTime tz t))).2.2

/-- `Date.prototype.setDate(dt)`: replaces the day of the month in local time and returns
the new time value. -/
def setDate (tz : TimeZone) (t dt : Int) : Int :=
  let tl := LocalTime tz t
  let c := civilFromDays (Day tl)
  UTC tz (MakeDay c.1 (c.2.1 - 1) dt * msPerDay + TimeWithinDay tl)

/-- Source `getPreviousDateString` inside `calculateStreak`:
`prev = new Date(date); prev.setDate(date.getDate() - 1); return getDateString(prev)`. -/
def getPreviousDateString (tz : TimeZone) (date : Int) : String :=
  getDateString (setDate tz date (getDate tz date - 1))

/-! ## Data model -/

/-- One entry of the static catalog `FIXED_DAILY_GOALS`. -/
structure FixedGoal where
  id : String
  text : String
  timeHint : String

/-- Source `FIXED_DAILY_GOALS`: the eight fixed daily goals, in catalog order. -/
def FIXED_DAILY_GOALS : List FixedGoal :=
  [⟨"salida_casa", "Salida de Casa", "06:00 - 07:00 AM"⟩,
   ⟨"entrada_trabajo", "Entrada al Trabajo", "07:00 - 08:00 AM"⟩,
   ⟨"salida_trabajo", "Salida del Trabajo", "17:00 - 18:00 PM"⟩,
   ⟨"entrada_grupo", "Entrada al Grupo/Reunión", "18:00 - 20:15 PM"⟩,
   ⟨"salida_grupo", "Salida del Grupo/Reunión", "Después de las 20:15 PM"⟩,
   ⟨"llegada_casa", "Llegada a Casa", "Aproximadamente 21:00 hs"⟩,
   ⟨"pastilla_21hs", "Medicamento / Suplemento", "Después de Llegar a Casa"⟩,
   ⟨"llamada_fin_dia", "Llamada al Final del Día", "Último chequeo antes de dormir"⟩]

/-- The goal ids of the catalog: `FIXED_DAILY_GOALS.map(g => g.id)`. -/
def goalIds : List String := FIXED_DAILY_GOALS.map FixedGoal.id

/-- One element of the history array built by `fetchHistory`: the stored document with
`id`, `dateString`, `hasRelapsed`, `hasCommunicatedWithRehab` and `isLocked` overwritten.
`checkedIn` is read only through ToBoolean and is kept as that boolean; a missing
`fixedGoalsStatus`, `emotionalStatus` or `notes` is `none`. -/
structure DailyRecord where
  id : String := ""
  userId : String := ""
  dateString : String
  checkedIn : Bool := false
  fixedGoalsStatus : Option (List (String × JSVal)) := none
  emotionalStatus : Option String := none
  hasRelapsed : Bool := false
  hasCommunicatedWithRehab : Bool := false
  notes : Option String := none
  isLocked : Bool := false
  deriving DecidableEq, Repr

/-- The state of the selected day held by `App` (the `useState` cells). -/
structure DayState where
  hasCheckedIn : Bool := false
  fixedGoalsStatus : List (String × JSVal) := []
  emotionalStatus : Option String := none
  hasRelapsed : Bool := false
  hasCommunicatedWithRehab : Bool := false
  notes : String := ""
  isLocked : Bool := false
  deriving DecidableEq, Repr

/-- A goal map whose keys are pairwise distinct (as in every JavaScript object) and are
all ids of the catalog (as in every map written by `handleToggleFixedGoal` and
`generateSampleData`). -/
def CatalogKeyed (goals : List (String × JSVal)) : Prop :=
  (objectKeys goals).Nodup ∧ ∀ k ∈ objectKeys goals, k ∈ goalIds

/-! ## Progress of the selected day -/

/-- Source `totalFixedGoals`. -/
def totalFixedGoals : Nat := FIXED_DAILY_GOALS.length

/-- Source `completedFixedGoals`:
`Object.values(fixedGoalsStatus).filter(status => status === true).length`. -/
def completedFixedGoals (s : DayState) : Nat :=
  ((objectValues s.fixedGoalsStatus).filter JSVal.isTrue).length

/-- Source `totalProgressItems`. -/
def totalProgressItems : Nat := totalFixedGoals + 1

/-- Source `completedProgressItems`. -/
def completedProgressItems (s : DayState) : Nat :=
  completedFixedGoals s + (if s.hasCheckedIn then 1 else 0)

/-- Source `progressPercent`:
`totalProgressItems > 0 ? (completedProgressItems / totalProgressItems) * 100 : 0`. -/
def progressPercent (s : DayState) : ℚ :=
  if totalProgressItems > 0 then
    ((completedProgressItems s : ℚ) / (totalProgressItems : ℚ)) * 100
  else 0

/-! ## Streak -/

/-- Source `totalCompleted` in `calculateStreak`: `(item.checkedIn ? 1 : 0) +
Object.values(item.fixedGoalsStatus || {}).filter(s => s === true).length`. -/
def totalCompleted (item : DailyRecord) : Nat :=
  (if item.checkedIn then 1 else 0)
    + ((objectValues (item.fixedGoalsStatus.getD [])).filter JSVal.isTrue).length

/-- The comparator of `sort((a, b) => a.dateString.localeCompare(b.dateString))`, with the
locale comparison taken as the code-unit order.  The sort is stable, and the sorted array
is only folded into a map, so the order matters only among records with one and the same
`dateString`, which every stable sort leaves in place. -/
def dateAscending (a b : DailyRecord) : Prop := jsStrLe a.dateString b.dateString = true

instance : DecidableRel dateAscending := fun a b =>
  inferInstanceAs (Decidable (jsStrLe a.dateString b.dateString = true))

/-- The first step of `sortedDays`:
`fetchedHistory.filter(item => item.dateString <= getDateString(new Date()))`, the records
not after today. -/
def pastRecords (now : Int) (fetchedHistory : List DailyRecord) : List DailyRecord :=
  fetchedHistory.filter (fun item => jsStrLe item.dateString (getDateString now))

/-- Source `sortedDays`: the records not after today, in ascending date order. -/
def sortedDays (now : Int) (fetchedHistory : List DailyRecord) : List DailyRecord :=
  (pastRecords now fetchedHistory).insertionSort dateAscending

/-- Source `historyMap` in `calculateStreak`:
`sortedDays.reduce((acc, item) => { acc[item.dateString] = item; return acc; }, {})`. -/
def streakHistoryMap (days : List DailyRecord) : List (String × DailyRecord) :=
  days.foldl (fun acc item => objSet acc item.dateString item) []

/-- The day number of `getPreviousDateString(new Date(currentDateStr))` when
`currentDateStr` is the ISO date of day number `cur`. -/
def previousDay (tz : TimeZone) (cur : Int) : Int :=
  Day (setDate tz (cur * msPerDay) (getDate tz (cur * msPerDay) - 1))

/-- The `while (true)` loop of `calculateStreak`, run for at most `fuel` iterations;
`none` when the iterations are used up.  The loop variable is the day number `cur` of
`currentDateStr`: the source keeps the string `isoDate cur` and re-reads it with
`new Date(currentDateStr)`, which is UTC midnight of that day, `cur * msPerDay`.  The next
day number `next` is the day of `getPreviousDateString(new Date(currentDateStr))`. -/
def streakLoop (tz : TimeZone) (now : Int) (historyMap : List (String × DailyRecord)) :
    Nat → Int → Nat → Option Nat
  | 0, _, _ => none
  | fuel + 1, cur, streak =>
    let currentDateStr := isoDate cur
    let next := previousDay tz cur
    match objGet historyMap currentDateStr with
    | none =>
      if currentDateStr = getDateString now then streakLoop tz now historyMap fuel next streak
      else some streak
    | some item =>
      if totalCompleted item ≠ FIXED_DAILY_GOALS.length + 1 then some streak
      else streakLoop tz now historyMap fuel next (streak + 1)

/-- Source `calculateStreak`.  The loop is given `sortedDays.length + 2` iterations.  A
run that ends never comes back to a day, it passes at most one day without a record
(today) and otherwise only days with a 9/9 record, so it ends within that many
iterations (`calculateStreak_of_loop`); `none` stands for a run that does not end.  In a
zone with a constant offset the result is never `none` (`calculateStreak_fixed`). -/
def calculateStreak (tz : TimeZone) (now : Int) (fetchedHistory : List DailyRecord) :
    Option Nat :=
  if fetchedHistory.length = 0 then some 0
  else
    let days := sortedDays now fetchedHistory
    if days.length = 0 then some 0
    else streakLoop tz now (streakHistoryMap days) (days.length + 2) (Day now) 0

/-! ## Calendar -/

/-- One value of the calendar's `historyMap`. -/
structure CalendarCell where
  color : String
  percentage : ℚ
  risk : Option String
  rehab : Bool
  completed : Nat
  relapsed : Bool
  deriving DecidableEq

/-- Source `completed` in `ComplianceCalendar.historyMap`. -/
def calendarCompleted (item : DailyRecord) : Nat :=
  (if item.checkedIn then 1 else 0)
    + ((objectValues (item.fixedGoalsStatus.getD [])).filter JSVal.isTrue).length

/-- Source `percentage` in `ComplianceCalendar.historyMap`:
`totalItems > 0 ? (completed / totalItems) * 100 : 0`. -/
def calendarPercentage (totalItems : Nat) (item : DailyRecord) : ℚ :=
  if totalItems > 0 then ((calendarCompleted item : ℚ) / (totalItems : ℚ)) * 100 else 0

/-- Colour class of a relapse day. -/
def colorRelapse : String := "bg-red-600 text-white"

/-- Colour class of a 9/9 day. -/
def colorFullSuccess : String := "bg-green-500 text-white"

/-- Colour class of an acceptable day. -/
def colorAcceptable : String := "bg-lime-200 text-gray-800"

/-- Colour class of a critical-failure day. -/
def colorCriticalFailure : String := "bg-gray-400 text-white"

/-- Colour class of a future day. -/
def colorFuture : String := "bg-gray-100 text-gray-400 border border-gray-200"

/-- Source `colorClass` in `ComplianceCalendar.historyMap`. -/
def colorClass (totalItems : Nat) (now : Int) (item : DailyRecord) : String :=
  if jsStrLe item.dateString (getTodayDateString now) then
    if item.hasRelapsed then colorRelapse
    else if calendarPercentage totalItems item = 100 then colorFullSuccess
    else if calendarCompleted item ≥ 5 then colorAcceptable
    else colorCriticalFailure
  else colorFuture

/-- The value stored under `item.dateString` by the reducer of
`ComplianceCalendar.historyMap`. -/
def calendarCell (totalItems : Nat) (now : Int) (item : DailyRecord) : CalendarCell :=
  ⟨colorClass totalItems now item, calendarPercentage totalItems item, item.emotionalStatus,
    item.hasCommunicatedWithRehab, calendarCompleted item, item.hasRelapsed⟩

/-- Source `historyMap` in `ComplianceCalendar`: the history folded into a map by date. -/
def calendarHistoryMap (totalItems : Nat) (now : Int) (historyData : List DailyRecord) :
    List (String × CalendarCell) :=
  historyData.foldl (fun acc item => objSet acc item.dateString (calendarCell totalItems now item))
    []

/-- One element of the array of `getCalendarDays`; the fields a filler element does not
have (`dayNum`, `dateStr`, `data`) are `none`. -/
structure CalendarDay where
  key : String
  dayNum : Option Int
  dateStr : Option String
  currentMonth : Bool
  data : Option CalendarCell
  isToday : Bool

/-- `new Date(year, month, date)` for a month index in 0..11 and a year that is not in
0..99: the instant at which the local clock shows 00:00 of that day. -/
def localMidnight (tz : TimeZone) (year month date : Int) : Int :=
  UTC tz (MakeDay year month date * msPerDay)

/-- The element that `getCalendarDays` pushes for the day `i` of the displayed month:
`dateStr = getDateString(new Date(year, month, i))` and `data = historyMap[dateStr]`. -/
def calendarDay (tz : TimeZone) (now : Int) (historyMap : List (String × CalendarCell))
    (year month i : Int) : CalendarDay :=
  let dateStr := getDateString (localMidnight tz year month i)
  { key := dateStr
    dayNum := some i
    dateStr := some dateStr
    currentMonth := true
    data := objGet historyMap dateStr
    isToday := dateStr == getTodayDateString now }

/-- Colour class of a day of the displayed month without an entry in the map. -/
def colorUnrecorded : String := "bg-gray-100"

/-- Colour class of a filler element. -/
def colorOutsideMonth : String := "bg-transparent text-gray-400"

/-- The colour part of the cell's `className`:
`day.currentMonth ? data ? data.color : 'bg-gray-100' : 'bg-transparent text-gray-400'`. -/
def cellColorClass (day : CalendarDay) : String :=
  if day.currentMonth then
    match day.data with
    | some data => data.color
    | none => colorUnrecorded
  else colorOutsideMonth

/-! ## Notions for stating the streak walk -/

/-- The loop of `calculateStreak` goes on after the day `cur`: the day has no entry and is
today, or its entry is 9/9. -/
def continuesAt (now : Int) (historyMap : List (String × DailyRecord)) (cur : Int) : Prop :=
  (objGet historyMap (isoDate cur) = none ∧ isoDate cur = getDateString now)
    ∨ ∃ item, objGet historyMap (isoDate cur) = some item ∧ totalCompleted item = 9

/-- Some record of the list is dated on the day with number `n`. -/
def hasRecordOn (records : List DailyRecord) (n : Int) : Prop :=
  ∃ r ∈ records, r.dateString = isoDate n

instance (records : List DailyRecord) (n : Int) : Decidable (hasRecordOn records n) :=
  inferInstanceAs (Decidable (∃ r ∈ records, r.dateString = isoDate n))

/-- Some record of the list is dated on the day with number `n` and is 9/9. -/
def fullOn (records : List DailyRecord) (n : Int) : Prop :=
  ∃ r ∈ records, r.dateString = isoDate n ∧ totalCompleted r = 9

instance (records : List DailyRecord) (n : Int) : Decidable (fullOn records n) :=
  inferInstanceAs (Decidable (∃ r ∈ records, r.dateString = isoDate n ∧ totalCompleted r = 9))

/-- The day at which the streak walk starts: today when today has a record, otherwise
yesterday. -/
def streakStart (now : Int) (records : List DailyRecord) : Int :=
  if hasRecordOn records (Day now) then Day now else Day now - 1

/-! ## History listing -/

/-- The double-quote character. -/
def quoteChar : Char := Char.ofNat 34

/-- The line-feed character. -/
def lineFeed : Char := Char.ofNat 10

/-- The pattern is an initial segment of the text. -/
def startsWithChars : List Char → List Char → Bool
  | _, [] => true
  | [], _ :: _ => false
  | c :: cs, p :: ps => c == p && startsWithChars cs ps

/-- The text with the first occurrence of the pattern taken out. -/
def removeFirstChars (pat : List Char) : List Char → List Char
  | [] => []
  | c :: cs =>
    if startsWithChars (c :: cs) pat then (c :: cs).drop pat.length
    else c :: removeFirstChars pat cs

/-- JavaScript `s.replace(pat, '')` with a string pattern: only the first occurrence goes. -/
def removeFirst (s pat : String) : String := String.mk (removeFirstChars pat.data s.data)

/-- One document of the collection `daily_status`: its id and its stored fields
(`doc.data()`); a stored document without a `userId` field has `userId = ""`, which no
signed-in user id equals. -/
structure StoredDoc where
  id : String
  data : DailyRecord
  deriving DecidableEq, Repr

/-- The element that `fetchHistory` builds from a document: `id`, the stored fields,
`dateString: doc.id.replace(userId + '-', '')` and the three flags through `!!`. -/
def fetchedItem (userId : String) (doc : StoredDoc) : DailyRecord :=
  { doc.data with
    id := doc.id
    dateString := removeFirst doc.id (userId ++ "-")
    hasRelapsed := doc.data.hasRelapsed
    hasCommunicatedWithRehab := doc.data.hasCommunicatedWithRehab
    isLocked := doc.data.isLocked }

/-- The order of `sort((a, b) => b.dateString.localeCompare(a.dateString))`: `a` may stand
before `b` when the comparator is not positive.  The comparison of the locale is a
parameter. -/
def dateDescending (localeCompare : String → String → Int) (a b : DailyRecord) : Prop :=
  localeCompare b.dateString a.dateString ≤ 0

instance (localeCompare : String → String → Int) : DecidableRel (dateDescending localeCompare) :=
  fun a b => inferInstanceAs (Decidable (localeCompare b.dateString a.dateString ≤ 0))

/-- What a locale comparison guarantees: any two strings are comparable and the order is
transitive. -/
def IsCollation (localeCompare : String → String → Int) : Prop :=
  (∀ x y, localeCompare x y ≤ 0 ∨ localeCompare y x ≤ 0)
    ∧ ∀ x y z, localeCompare x y ≤ 0 → localeCompare y z ≤ 0 → localeCompare x z ≤ 0

/-- The comparison by UTF-16 code units, as a comparator. -/
def codeUnitCompare (a b : String) : Int :=
  if jsStrLt a b then -1 else if jsStrLt b a then 1 else 0

/-- Source `fetchHistory`, the list it puts in `history`: every document of the
collection mapped to an item, filtered by `item.userId === userId`, sorted (stably) by
date, descending. -/
def fetchHistory (localeCompare : String → String → Int) (userId : String)
    (docs : List StoredDoc) : List DailyRecord :=
  (((docs.map (fetchedItem userId)).filter (fun item => item.userId = userId)).insertionSort
    (dateDescending localeCompare))

/-- JavaScript `s.startsWith(pat)`. -/
def jsStartsWith (s pat : String) : Bool := startsWithChars s.data pat.data

/-- Source `clearSampleData`, the collection it leaves when the batch is committed: every
document whose id starts with the user id and a hyphen is deleted; without a database
handle or a user id nothing happens. -/
def clearSampleData (db : Bool) (userId : Option String) (docs : List StoredDoc) :
    List StoredDoc :=
  match userId with
  | some u =>
    if db && u != "" then docs.filter (fun doc => !jsStartsWith doc.id (u ++ "-")) else docs
  | none => docs

/-! ## CSV export -/

/-- `Array.prototype.join(sep)` on an array of strings. -/
def jsJoin (sep : String) : List String → String
  | [] => ""
  | [a] => a
  | a :: b :: rest => a ++ sep ++ jsJoin sep (b :: rest)

/-- Source `headers` in `exportToCSV`. -/
def csvHeaders : List String :=
  ["Fecha", "Check_In_Apoyo", "Emotional_Status", "Has_Relapsed", "Rehab_Communication",
    "Is_Locked", "Notes"] ++ FIXED_DAILY_GOALS.map FixedGoal.id

/-- The two tokens of a boolean column: `cond ? 'SI' : 'NO'`. -/
def siNo (b : Bool) : String := if b then "SI" else "NO"

/-- The emotional-status column: `item.emotionalStatus || 'NULO'` (the empty string is
falsy). -/
def csvEmotionalStatus (item : DailyRecord) : String :=
  match item.emotionalStatus with
  | some s => if s = "" then "NULO" else s
  | none => "NULO"

/-- The replacement `.replace(/"/g, '""')` on the characters of a string. -/
def doubleQuotes : List Char → List Char
  | [] => []
  | c :: rest =>
    if c = quoteChar then quoteChar :: quoteChar :: doubleQuotes rest
    else c :: doubleQuotes rest

/-- The notes column: the notes (`item.notes || ''`) with the quotes doubled, between two
quotes. -/
def csvNotes (item : DailyRecord) : String :=
  String.mk (quoteChar :: (doubleQuotes (item.notes.getD "").data ++ [quoteChar]))

/-- The truthiness of `item.fixedGoalsStatus?.[goalId]`. -/
def goalTruthy (item : DailyRecord) (goalId : String) : Bool :=
  match item.fixedGoalsStatus with
  | some goals =>
    match objGet goals goalId with
    | some v => v.truthy
    | none => false
  | none => false

/-- Source `row` in `exportToCSV`: the seven leading columns and one column per goal of
the catalog. -/
def csvRow (item : DailyRecord) : List String :=
  [item.dateString, siNo item.checkedIn, csvEmotionalStatus item, siNo item.hasRelapsed,
    siNo item.hasCommunicatedWithRehab, siNo item.isLocked, csvNotes item]
    ++ FIXED_DAILY_GOALS.map (fun goal => siNo (goalTruthy item goal.id))

/-- The line of one record: `row.join(',')`. -/
def csvLine (item : DailyRecord) : String := jsJoin "," (csvRow item)

/-- Source `csvContent`: the lines of the records joined by line feeds. -/
def csvContent (historyData : List DailyRecord) : String :=
  jsJoin (String.mk [lineFeed]) (historyData.map csvLine)

/-- Source `exportToCSV`, the text of the file; `none` when the history is empty and
nothing is exported. -/
def exportToCSV (historyData : List DailyRecord) : Option String :=
  if historyData.length = 0 then none
  else some (jsJoin "," csvHeaders ++ String.mk [lineFeed] ++ csvContent historyData)

/-- The number of line feeds in a text. -/
def lineFeeds (text : String) : Nat := text.data.count lineFeed

/-- The number of lines of a text, `text.split('\n').length`. -/
def lineCount (text : String) : Nat := lineFeeds text + 1

/-- The first line of a text: what stands before the first line feed. -/
def firstLine (text : String) : String := String.mk (text.data.takeWhile (fun c => c != lineFeed))

/-- The line feeds in the three columns of a record that are free text: the date, the
emotional status and the notes. -/
def fieldLineFeeds (item : DailyRecord) : Nat :=
  lineFeeds item.dateString + lineFeeds (csvEmotionalStatus item)
    + lineFeeds (item.notes.getD "")

/-- Reading a quoted CSV field, step two: every doubled quote becomes one quote. -/
def collapseQuotes : List Char → List Char
  | [] => []
  | [c] => [c]
  | c :: d :: rest =>
    if c = quoteChar ∧ d = quoteChar then quoteChar :: collapseQuotes rest
    else c :: collapseQuotes (d :: rest)

/-- Reading a quoted CSV field: the outer quotes are stripped and the doubled quotes
collapsed. -/
def readQuotedField (field : String) : String :=
  String.mk (collapseQuotes (field.data.drop 1).dropLast)

/-- Reading a CSV line, character by character: a comma outside double quotes ends the
column, every double quote switches between outside and inside quotes and stays in the
column.  `inQuotes` is the side, `cur` the column read so far. -/
def splitColumns : Bool → List Char → List Char → List (List Char)
  | _, cur, [] => [cur]
  | inQuotes, cur, c :: rest =>
    if c = quoteChar then splitColumns (!inQuotes) (cur ++ [c]) rest
    else if c = ',' ∧ inQuotes = false then cur :: splitColumns false [] rest
    else splitColumns inQuotes (cur ++ [c]) rest

/-- The columns of a CSV line. -/
def readColumns (line : String) : List String :=
  (splitColumns false [] line.data).map String.mk

/-- The side (outside or inside quotes) after the text of one column, from a given side;
`none` when the text holds a comma outside quotes. -/
def scanColumn : Bool → List Char → Option Bool
  | inQuotes, [] => some inQuotes
  | inQuotes, c :: rest =>
    if c = quoteChar then scanColumn (!inQuotes) rest
    else if c = ',' ∧ inQuotes = false then none
    else scanColumn inQuotes rest

/-- A text without comma and without double quote. -/
def plainText (s : String) : Prop := ∀ c ∈ s.data, c ≠ quoteChar ∧ c ≠ ','

instance (s : String) : Decidable (plainText s) :=
  inferInstanceAs (Decidable (∀ c ∈ s.data, c ≠ quoteChar ∧ c ≠ ','))

/-- Source `fixedCompleted` in the list of the latest records:
`Object.values(item.fixedGoalsStatus || {}).filter(s => s).length`, the truthy values. -/
def recentFixedCompleted (item : DailyRecord) : Nat :=
  ((objectValues (item.fixedGoalsStatus.getD [])).filter JSVal.truthy).length

/-- Source `totalCompleted` in the list of the latest records:
`fixedCompleted + (item.checkedIn ? 1 : 0)`. -/
def recentTotalCompleted (item : DailyRecord) : Nat :=
  recentFixedCompleted item + (if item.checkedIn then 1 else 0)

/-- ToBoolean of a property read that may be `undefined` (`none`). -/
def optionTruthy : Option JSVal → Bool
  | some v => v.truthy
  | none => false

/-- The goal columns of the CSV row of a record: the columns after the seven leading
ones. -/
def csvGoalColumns (item : DailyRecord) : List String := (csvRow item).drop 7

/-- The completed count read from the CSV row of a record: 1 when the check-in column
(the second one) is `SI`, plus the number of `SI` among the goal columns. -/
def csvCompleted (item : DailyRecord) : Nat :=
  (if (csvRow item)[1]? = some "SI" then 1 else 0) + (csvGoalColumns item).count "SI"

/-! ## Compliance per goal -/

/-- One step of the `forEach` in `complianceData`, on the pair
`(completedCount, totalCount)`. -/
def complianceStep (goalId : String) (acc : Nat × Nat) (item : DailyRecord) : Nat × Nat :=
  match item.fixedGoalsStatus with
  | some goals =>
    match objGet goals goalId with
    | some v => (if v.isTrue then acc.1 + 1 else acc.1, acc.2 + 1)
    | none => acc
  | none => acc

/-- The counters `(completedCount, totalCount)` of a goal after the `forEach`. -/
def complianceCounts (goalId : String) (historyData : List DailyRecord) : Nat × Nat :=
  historyData.foldl (complianceStep goalId) (0, 0)

/-- Source `compliancePercent`: `totalCount > 0 ? (completedCount / totalCount) * 100 : 0`. -/
def compliancePercent (goalId : String) (historyData : List DailyRecord) : ℚ :=
  if (complianceCounts goalId historyData).2 > 0 then
    (((complianceCounts goalId historyData).1 : ℚ) / ((complianceCounts goalId historyData).2 : ℚ))
      * 100
  else 0

/-- The record holds a value for the goal. -/
def goalPresent (goalId : String) (item : DailyRecord) : Bool :=
  match item.fixedGoalsStatus with
  | some goals => (objGet goals goalId).isSome
  | none => false

/-- The record holds the value `true` for the goal. -/
def goalIsTrue (goalId : String) (item : DailyRecord) : Bool :=
  match item.fixedGoalsStatus with
  | some goals => objGet goals goalId == some (JSVal.bool true)
  | none => false

/-! ## Calendar badges -/

/-- The condition of the alert icon:
`data.risk === 'ALTO' || data.risk === 'CRITICO' || data.relapsed`. -/
def showRiskBadge (data : CalendarCell) : Bool :=
  data.risk == some "ALTO" || data.risk == some "CRITICO" || data.relapsed

/-- The condition of the phone icon: `data.rehab`. -/
def showRehabBadge (data : CalendarCell) : Bool := data.rehab

/-- The condition of the check icon: `data.percentage === 100`. -/
def showSuccessBadge (data : CalendarCell) : Bool := decide (data.percentage = 100)

/-! ## Interaction layer -/

/-- A value of a field in the object passed to `setDoc`. -/
inductive PatchValue where
  | val (v : JSVal)
  | goals (m : List (String × JSVal))
  | serverTimestamp
  deriving DecidableEq, Repr

/-- One call `setDoc(doc(db, collection, docId), patch, { merge })`. -/
structure StoreWrite where
  collection : String
  docId : String
  patch : List (String × PatchValue)
  merge : Bool
  deriving DecidableEq, Repr

/-- What the handlers of `App` read and set: the database handle (present or not), the
application id, the signed-in user id (`none` is `null`), the selected date, the state of
the selected day and the error message. -/
structure AppState where
  db : Bool := true
  appId : String := "default-app-id"
  userId : Option String := none
  selectedDate : String
  day : DayState := {}
  error : Option String := none
  deriving DecidableEq, Repr

/-- The result of a handler: the state it leaves and the store writes it issued. -/
structure Outcome where
  state : AppState
  writes : List StoreWrite
  deriving DecidableEq, Repr

/-- The user id when `!db || !userId || !selectedDate` is false, otherwise `none`. -/
def sessionUser (s : AppState) : Option String :=
  match s.userId with
  | some u => if s.db && u != "" && s.selectedDate != "" then some u else none
  | none => none

/-- Source `isFutureDate`: `selectedDate > getDateString(new Date())`. -/
def isFutureDate (now : Int) (s : AppState) : Bool :=
  jsStrGt s.selectedDate (getDateString now)

/-- Source `isControlDisabled`: `isLocked || isFutureDate`. -/
def isControlDisabled (now : Int) (s : AppState) : Bool :=
  s.day.isLocked || isFutureDate now s

/-- The collection path of `getDailyStatusDocRef`. -/
def dailyStatusCollection (appId : String) : String :=
  "/artifacts/" ++ appId ++ "/public/data/daily_status"

/-- The document id of `getDailyStatusDocRef`: the user id, a hyphen, the date. -/
def dailyStatusDocId (userId dateString : String) : String := userId ++ "-" ++ dateString

/-- The merge write that every handler issues: the changed field followed by `userId`,
`timestamp` and `dateString`. -/
def mergeWrite (s : AppState) (userId : String) (field : String) (value : PatchValue) :
    StoreWrite :=
  { collection := dailyStatusCollection s.appId
    docId := dailyStatusDocId userId s.selectedDate
    patch := [(field, value), ("userId", PatchValue.val (JSVal.str userId)),
      ("timestamp", PatchValue.serverTimestamp),
      ("dateString", PatchValue.val (JSVal.str s.selectedDate))]
    merge := true }

/-- The state after `await setDoc(...)`: unchanged when the write succeeds, with the error
message of the `catch` when it fails. -/
def afterWrite (writeOk : Bool) (message : String) (s : AppState) : AppState :=
  if writeOk then s else { s with error := some message }

/-- Source `handleDailyCheckIn`. -/
def handleDailyCheckIn (now : Int) (writeOk : Bool) (s : AppState) : Outcome :=
  match sessionUser s with
  | none => ⟨s, []⟩
  | some userId =>
    if s.day.isLocked || isFutureDate now s then ⟨s, []⟩
    else
      let newStatus := !s.day.hasCheckedIn
      ⟨afterWrite writeOk "No se pudo actualizar el estado del Check-In." s,
        [mergeWrite s userId "checkedIn" (PatchValue.val (JSVal.bool newStatus))]⟩

/-- Source `handleToggleFixedGoal`. -/
def handleToggleFixedGoal (now : Int) (writeOk : Bool) (goalId : String) (s : AppState) :
    Outcome :=
  match sessionUser s with
  | none => ⟨s, []⟩
  | some userId =>
    if s.day.isLocked || isFutureDate now s then ⟨s, []⟩
    else
      let newStatus := !(match objGet s.day.fixedGoalsStatus goalId with
        | some v => v.truthy
        | none => false)
      ⟨afterWrite writeOk "No se pudo actualizar el estado de la meta fija." s,
        [mergeWrite s userId "fixedGoalsStatus"
          (PatchValue.goals (objSet s.day.fixedGoalsStatus goalId (JSVal.bool newStatus)))]⟩

/-- Source `handleSetEmotionalStatus`. -/
def handleSetEmotionalStatus (now : Int) (writeOk : Bool) (statusValue : String)
    (s : AppState) : Outcome :=
  match sessionUser s with
  | none => ⟨s, []⟩
  | some userId =>
    if s.day.isLocked || isFutureDate now s then ⟨s, []⟩
    else
      let newStatus :=
        if s.day.emotionalStatus = some statusValue then JSVal.null else JSVal.str statusValue
      ⟨afterWrite writeOk "No se pudo actualizar el estado emocional/riesgo." s,
        [mergeWrite s userId "emotionalStatus" (PatchValue.val newStatus)]⟩

/-- Source `handleToggleRelapse`. -/
def handleToggleRelapse (now : Int) (writeOk : Bool) (s : AppState) : Outcome :=
  match sessionUser s with
  | none => ⟨s, []⟩
  | some userId =>
    if s.day.isLocked || isFutureDate now s then ⟨s, []⟩
    else
      let newStatus := !s.day.hasRelapsed
      ⟨afterWrite writeOk "No se pudo actualizar el estado de recaída." s,
        [mergeWrite s userId "hasRelapsed" (PatchValue.val (JSVal.bool newStatus))]⟩

/-- Source `handleToggleRehabCommunication`. -/
def handleToggleRehabCommunication (now : Int) (writeOk : Bool) (s : AppState) : Outcome :=
  match sessionUser s with
  | none => ⟨s, []⟩
  | some userId =>
    if s.day.isLocked || isFutureDate now s then ⟨s, []⟩
    else
      let newStatus := !s.day.hasCommunicatedWithRehab
      ⟨afterWrite writeOk "No se pudo actualizar el estado de comunicación con rehab." s,
        [mergeWrite s userId "hasCommunicatedWithRehab"
          (PatchValue.val (JSVal.bool newStatus))]⟩

/-- Source `handleUpdateNotes`, with `newNotes = e.target.value`: past the guard it sets
the local notes before the write. -/
def handleUpdateNotes (now : Int) (writeOk : Bool) (newNotes : String) (s : AppState) :
    Outcome :=
  match sessionUser s with
  | none => ⟨s, []⟩
  | some userId =>
    if s.day.isLocked || isFutureDate now s then ⟨s, []⟩
    else
      let s1 : AppState := { s with day := { s.day with notes := newNotes } }
      ⟨afterWrite writeOk "No se pudieron actualizar las notas." s1,
        [mergeWrite s userId "notes" (PatchValue.val (JSVal.str newNotes))]⟩

/-- The message that `handleToggleLock` sets for a future date. -/
def futureLockMessage : String :=
  "No se puede bloquear un día futuro. Selecciona la fecha actual o pasada."

/-- Source `handleToggleLock`: it does not test `isLocked` nor `isFutureDate`, it compares
the selected date with today itself. -/
def handleToggleLock (now : Int) (writeOk : Bool) (s : AppState) : Outcome :=
  match sessionUser s with
  | none => ⟨s, []⟩
  | some userId =>
    if jsStrGt s.selectedDate (getDateString now) then
      ⟨{ s with error := some futureLockMessage }, []⟩
    else
      let newLockStatus := !s.day.isLocked
      ⟨afterWrite writeOk "No se pudo actualizar el estado de bloqueo." s,
        [mergeWrite s userId "isLocked" (PatchValue.val (JSVal.bool newLockStatus))]⟩

/-! ## The store: merge writes and snapshots -/

/-- The fields of a stored document, `doc.data()`. -/
abbrev Fields := List (String × PatchValue)

/-- The value the store keeps for a written value: the sentinel `serverTimestamp()` is
replaced by the time of the server, every other value is kept. -/
def storedValue (serverTime : Int) : PatchValue → PatchValue
  | PatchValue.serverTimestamp => PatchValue.val (JSVal.num serverTime)
  | v => v

/-- The store's contract for one field of `setDoc(ref, data, { merge: true })`: the field
of the document is replaced by the written value; a written map is merged, key by key,
into a stored map. -/
def mergeField (serverTime : Int) (doc : Fields) (field : String) (value : PatchValue) :
    Fields :=
  match value, objGet doc field with
  | PatchValue.goals m, some (PatchValue.goals m0) =>
    objSet doc field (PatchValue.goals (m.foldl (fun acc kv => objSet acc kv.1 kv.2) m0))
  | v, _ => objSet doc field (storedValue serverTime v)

/-- The store's contract for `setDoc(ref, data, { merge: true })` on a document that may
not exist yet (`none`): the written fields are merged in, the other fields stay. -/
def setDocMerge (serverTime : Int) (doc : Option Fields) (patch : List (String × PatchValue)) :
    Fields :=
  patch.foldl (fun acc kv => mergeField serverTime acc kv.1 kv.2) (doc.getD [])

/-- ToBoolean of a field read from a snapshot: `!!data.field`; a missing field is
`undefined`, a map is an object. -/
def fieldTruthy : Option PatchValue → Bool
  | some (PatchValue.val v) => v.truthy
  | some (PatchValue.goals _) => true
  | some PatchValue.serverTimestamp => true
  | none => false

/-- The callback of `onSnapshot` on the state of the selected day: with a document, the
seven cells are set from its fields (`!!data.checkedIn`, `data.fixedGoalsStatus || {}`,
`data.emotionalStatus || null`, ..., `data.notes || ''`); without one (`none`) they stay.
A stored `fixedGoalsStatus` that is not a map is read as the empty map, a stored
`emotionalStatus` or `notes` that is not a string as unset. -/
def snapshotDay (prev : DayState) : Option Fields → DayState
  | none => prev
  | some data =>
    { hasCheckedIn := fieldTruthy (objGet data "checkedIn")
      fixedGoalsStatus :=
        match objGet data "fixedGoalsStatus" with
        | some (PatchValue.goals m) => m
        | _ => []
      emotionalStatus :=
        match objGet data "emotionalStatus" with
        | some (PatchValue.val (JSVal.str v)) => if v = "" then none else some v
        | _ => none
      hasRelapsed := fieldTruthy (objGet data "hasRelapsed")
      hasCommunicatedWithRehab := fieldTruthy (objGet data "hasCommunicatedWithRehab")
      notes :=
        match objGet data "notes" with
        | some (PatchValue.val (JSVal.str v)) => v
        | _ => ""
      isLocked := fieldTruthy (objGet data "isLocked") }

/-- One round of the interaction: the writes of a handler reach the document of the
selected day one after the other, and the subscription delivers the document to the state
of the selected day. -/
def deliver (serverTime : Int) (doc : Option Fields) (o : Outcome) : AppState × Option Fields :=
  let doc1 := o.writes.foldl (fun d w => some (setDocMerge serverTime d w.patch)) doc
  ({ o.state with day := snapshotDay o.state.day doc1 }, doc1)

/-! ## Notions for stating the later claims -/

/-- The record with `hasRelapsed` set to false and every other field kept. -/
def clearRelapse (r : DailyRecord) : DailyRecord := { r with hasRelapsed := false }

/-- Two records that agree on every field but `hasRelapsed`. -/
def agreeExceptRelapse (a b : DailyRecord) : Prop :=
  { a with hasRelapsed := b.hasRelapsed } = b

instance (a b : DailyRecord) : Decidable (agreeExceptRelapse a b) :=
  inferInstanceAs (Decidable ({ a with hasRelapsed := b.hasRelapsed } = b))

/-- The same risk value selected twice, each write delivered before the next selection:
the state and the stored document after the second round.  The selections happen at the
instants `now1` and `now2`, the store stamps the writes with `t1` and `t2`. -/
def selectRiskTwice (now1 now2 t1 t2 : Int) (statusValue : String) (s : AppState)
    (doc : Option Fields) : AppState × Option Fields :=
  let first := deliver t1 doc (handleSetEmotionalStatus now1 true statusValue s)
  deliver t2 first.2 (handleSetEmotionalStatus now2 true statusValue first.1)

/-- The truthiness of `fixedGoalsStatus[goalId]` in the state of the selected day. -/
def stateGoalTruthy (day : DayState) (goalId : String) : Bool :=
  match objGet day.fixedGoalsStatus goalId with
  | some v => v.truthy
  | none => false

/-- A document as the application writes it for a user and a date: the id of
`getDailyStatusDocRef` and the fields `userId` and `dateString` of the written object. -/
def WrittenFor (userId : String) (doc : StoredDoc) : Prop :=
  doc.data.userId = userId ∧ doc.id = dailyStatusDocId userId doc.data.dateString

instance (userId : String) (doc : StoredDoc) : Decidable (WrittenFor userId doc) :=
  inferInstanceAs (Decidable
    (doc.data.userId = userId ∧ doc.id = dailyStatusDocId userId doc.data.dateString))

/-- The date a local clock shows at an instant, as `YYYY-MM-DD`. -/
def localDateString (tz : TimeZone) (t : Int) : String := isoDate (Day (LocalTime tz t))

/-! ## Sample environments and records -/

/-- Europe/Madrid around the end of summer time on 2025-10-26: UTC+2 before
01:00:00 UTC (03:00 local), UTC+1 from then on.  A local time before 03:00 of that day,
also one that the clock shows twice, is read with the offset before the change. -/
def europeMadridAutumn2025 : TimeZone :=
  ⟨fun t => if t < 1761440400000 then 7200000 else 3600000,
   fun tl => if tl < 1761440400000 + 7200000 then 7200000 else 3600000⟩

/-- A goal map with every catalog goal set to true. -/
def allGoalsDone : List (String × JSVal) := goalIds.map (fun g => (g, JSVal.bool true))

/-- A record with check-in and all eight goals done (9/9). -/
def fullDay (date : String) : DailyRecord :=
  { dateString := date, checkedIn := true, fixedGoalsStatus := some allGoalsDone }

/-- A record with check-in, all eight catalog goals and one goal outside the catalog done. -/
def tenPointDay (date : String) : DailyRecord :=
  { dateString := date, checkedIn := true,
    fixedGoalsStatus := some (allGoalsDone ++ [("meta_anterior", JSVal.bool true)]) }

/-- A record with check-in and exactly five of the eight goals done. -/
def sixPointDay (date : String) : DailyRecord :=
  { dateString := date, checkedIn := true,
    fixedGoalsStatus := some
      [("salida_casa", JSVal.bool true), ("entrada_trabajo", JSVal.bool true),
       ("salida_trabajo", JSVal.bool true), ("entrada_grupo", JSVal.bool true),
       ("salida_grupo", JSVal.bool true), ("llegada_casa", JSVal.bool false),
       ("pastilla_21hs", JSVal.bool false), ("llamada_fin_dia", JSVal.bool false)] }

/-- A 9/9 record that is also marked as a relapse. -/
def relapsedFullDay (date : String) : DailyRecord :=
  { dateString := date, checkedIn := true, fixedGoalsStatus := some allGoalsDone,
    hasRelapsed := true }

/-- The instant 2025-10-27T10:00:00Z. -/
def sampleNow : Int := 1761523200000 + 36000000

/-- A 9/9 record whose notes hold two lines. -/
def twoLineNotesDay (date : String) : DailyRecord :=
  { dateString := date, checkedIn := true, fixedGoalsStatus := some allGoalsDone,
    notes := some ("Llamada a las 21 hs." ++ String.mk [lineFeed] ++ "Todo en orden.") }

/-- A record with status ALTO whose notes hold commas and a quoted word. -/
def commaNotesDay (date : String) : DailyRecord :=
  { dateString := date, checkedIn := true, emotionalStatus := some "ALTO",
    notes := some ("Dijo " ++ String.mk [quoteChar] ++ "bien, tranquilo" ++ String.mk [quoteChar]
      ++ ", sin novedad") }

/-- A record whose notes are the word ok between double quotes. -/
def quotedNotesDay (date : String) : DailyRecord :=
  { dateString := date, notes := some (String.mk [quoteChar, 'o', 'k', quoteChar]) }

/-- A collection with two documents of the user `sup-1`, the older one first, and one
document of the user `sup-2`. -/
def sampleDocs : List StoredDoc :=
  [{ id := "sup-1-2025-10-26", data := { sixPointDay "2025-10-26" with userId := "sup-1" } },
   { id := "sup-2-2025-10-27", data := { fullDay "2025-10-27" with userId := "sup-2" } },
   { id := "sup-1-2025-10-27", data := { fullDay "2025-10-27" with userId := "sup-1" } }]

/-- A state with a database handle and the signed-in user `sup-1`. -/
def signedInState (date : String) (day : DayState) : AppState :=
  { userId := some "sup-1", selectedDate := date, day := day }

/-- A state with a database handle and no signed-in user yet. -/
def signedOutState (date : String) (day : DayState) : AppState :=
  { userId := none, selectedDate := date, day := day }

/-- A state with the signed-in user `sup-1` and a cleared date picker. -/
def noDateState (day : DayState) : AppState :=
  { userId := some "sup-1", selectedDate := "", day := day }

/-- The instant 2025-10-28T01:30:00Z, which is 22:30 of 2025-10-27 in a zone three hours
behind UTC. -/
def lateEvening : Int := 1761523200000 + 86400000 + 5400000

/-- Pacific/Apia around the change of side of the date line at the end of 2011: UTC-10
before 2011-12-30T10:00:00Z, UTC+14 from then on, so that the local clock went from the
end of 29 December to the start of 31 December.  A local time before that start, also one
of the skipped 30 December, is read with the offset before the change. -/
def pacificApia2011 : TimeZone :=
  ⟨fun t => if t < 1325239200000 then -36000000 else 50400000,
   fun tl => if tl < 1325239200000 + 50400000 then -36000000 else 50400000⟩

/-- The instant 2011-12-31T12:00:00Z. -/
def apiaNow : Int := 1325289600000 + 43200000

/-! ## Basic facts -/

theorem goalIds_length : goalIds.length = 8 := by decide

theorem totalProgressItems_eq : totalProgressItems = 9 := by decide

theorem jsStrGt_eq_not_jsStrLe (a b : String) : jsStrGt a b = !jsStrLe a b := by
  simp [jsStrGt, jsStrLe]

/-- A map with pairwise distinct catalog keys holds at most eight values equal to true. -/
theorem trueCount_le_eight (goals : List (String × JSVal)) (h : CatalogKeyed goals) :
    ((objectValues goals).filter JSVal.isTrue).length ≤ 8 := by
  have h1 : ((objectValues goals).filter JSVal.isTrue).length ≤ (objectValues goals).length :=
    List.length_filter_le _ _
  have h2 : (objectValues goals).length = (objectKeys goals).length := by
    simp [objectValues, objectKeys]
  have h3 : (objectKeys goals).length ≤ goalIds.length :=
    (List.Nodup.subperm h.1 (fun k hk => h.2 k hk)).length_le
  rw [goalIds_length] at h3
  omega

theorem calendarPercentage_nine (item : DailyRecord) :
    calendarPercentage 9 item = 100 * (calendarCompleted item : ℚ) / 9 := by
  simp only [calendarPercentage]
  norm_num
  ring

theorem calendarPercentage_eq_hundred_iff (item : DailyRecord) :
    calendarPercentage 9 item = 100 ↔ calendarCompleted item = 9 := by
  rw [calendarPercentage_nine]
  constructor
  · intro h
    have h9 : (calendarCompleted item : ℚ) = 9 := by linarith
    exact_mod_cast h9
  · intro h
    rw [h]
    norm_num

theorem completed_le_nine_aux (item : DailyRecord)
    (h : CatalogKeyed (item.fixedGoalsStatus.getD [])) : calendarCompleted item ≤ 9 := by
  have h1 := trueCount_le_eight _ h
  unfold calendarCompleted
  split <;> omega

/-! ## Completed count and progress (C3, C4) -/

/-- C3, as stated, fails: a record with check-in, the eight catalog goals and a ninth goal
key outside the catalog, all true, has completed count 10, in the calendar and in the
streak computation; the same map as selected-day state gives 10 completed progress
items. -/
theorem completed_above_nine :
    ¬ (calendarCompleted (tenPointDay "2025-10-27") ≤ 9)
      ∧ calendarCompleted (tenPointDay "2025-10-27") = 10
      ∧ totalCompleted (tenPointDay "2025-10-27") = 10
      ∧ (objectKeys ((tenPointDay "2025-10-27").fixedGoalsStatus.getD [])).Nodup
      ∧ completedProgressItems
          { hasCheckedIn := true,
            fixedGoalsStatus := allGoalsDone ++ [("meta_anterior", JSVal.bool true)] } = 10 := by
  decide

/-- C3, amended: for every record and every selected-day state whose goal map has
pairwise distinct keys that are all ids of the eight-goal catalog, the completed count
`(checkedIn ? 1 : 0) + #(values === true)` lies in 0..9, in the calendar, in the streak
computation and in the progress calculation. -/
theorem completed_le_nine (item : DailyRecord) (s : DayState)
    (hitem : CatalogKeyed (item.fixedGoalsStatus.getD []))
    (hs : CatalogKeyed s.fixedGoalsStatus) :
    (0 ≤ calendarCompleted item ∧ calendarCompleted item ≤ 9)
      ∧ (0 ≤ totalCompleted item ∧ totalCompleted item ≤ 9)
      ∧ (0 ≤ completedProgressItems s ∧ completedProgressItems s ≤ 9) := by
  have h1 := trueCount_le_eight _ hitem
  have h2 := trueCount_le_eight _ hs
  refine ⟨⟨Nat.zero_le _, ?_⟩, ⟨Nat.zero_le _, ?_⟩, ⟨Nat.zero_le _, ?_⟩⟩
  · unfold calendarCompleted
    split <;> omega
  · unfold totalCompleted
    split <;> omega
  · unfold completedProgressItems completedFixedGoals
    split <;> omega

/-- C3, amended, at a record with check-in and five goals done and at a state with all
goals done. -/
theorem completed_le_nine_witness :
    CatalogKeyed ((sixPointDay "2025-10-27").fixedGoalsStatus.getD [])
      ∧ CatalogKeyed ({ fixedGoalsStatus := allGoalsDone, hasCheckedIn := true } : DayState).fixedGoalsStatus
      ∧ calendarCompleted (sixPointDay "2025-10-27") = 6
      ∧ ((0 ≤ calendarCompleted (sixPointDay "2025-10-27")
            ∧ calendarCompleted (sixPointDay "2025-10-27") ≤ 9)
          ∧ (0 ≤ totalCompleted (sixPointDay "2025-10-27")
            ∧ totalCompleted (sixPointDay "2025-10-27") ≤ 9)
          ∧ (0 ≤ completedProgressItems { fixedGoalsStatus := allGoalsDone, hasCheckedIn := true }
            ∧ completedProgressItems { fixedGoalsStatus := allGoalsDone, hasCheckedIn := true }
              ≤ 9)) :=
  ⟨by unfold CatalogKeyed; decide, by unfold CatalogKeyed; decide, by decide,
    completed_le_nine (sixPointDay "2025-10-27")
      { fixedGoalsStatus := allGoalsDone, hasCheckedIn := true }
      (by unfold CatalogKeyed; decide) (by unfold CatalogKeyed; decide)⟩

/-- C4: the progress calculation uses total = 9 (eight fixed goals and the check-in) and,
for every selected-day state, percent = 100 * completed / 9; percent is 100 exactly when
completed = 9 and 0 exactly when completed = 0. -/
theorem progressPercent_spec (s : DayState) :
    totalFixedGoals = 8 ∧ totalProgressItems = 9
      ∧ progressPercent s = 100 * (completedProgressItems s : ℚ) / 9
      ∧ (progressPercent s = 100 ↔ completedProgressItems s = 9)
      ∧ (progressPercent s = 0 ↔ completedProgressItems s = 0) := by
  have hp : progressPercent s = 100 * (completedProgressItems s : ℚ) / 9 := by
    simp only [progressPercent, totalProgressItems_eq]
    norm_num
    ring
  refine ⟨by decide, by decide, hp, ?_, ?_⟩
  · rw [hp]
    constructor
    · intro h
      have h9 : (completedProgressItems s : ℚ) = 9 := by linarith
      exact_mod_cast h9
    · intro h
      rw [h]
      norm_num
  · rw [hp]
    constructor
    · intro h
      have h0 : (completedProgressItems s : ℚ) = 0 := by linarith
      exact_mod_cast h0
    · intro h
      rw [h]
      norm_num

/-! ## Calendar categories (C5, C6, C7) -/

theorem colorClass_of_past (totalItems : Nat) (now : Int) (item : DailyRecord)
    (hpast : jsStrLe item.dateString (getTodayDateString now) = true) :
    colorClass totalItems now item =
      if item.hasRelapsed then colorRelapse
      else if calendarPercentage totalItems item = 100 then colorFullSuccess
      else if calendarCompleted item ≥ 5 then colorAcceptable
      else colorCriticalFailure := by
  simp [colorClass, hpast]

/-- C5: a record dated on or before today with `hasRelapsed` true gets the relapse colour
(red) whatever its completed count and the total are; it does not get the full-success
colour, nor any of the other categories. -/
theorem relapse_overrides (totalItems : Nat) (now : Int) (item : DailyRecord)
    (hpast : jsStrLe item.dateString (getTodayDateString now) = true)
    (hrel : item.hasRelapsed = true) :
    colorClass totalItems now item = colorRelapse
      ∧ colorClass totalItems now item ≠ colorFullSuccess
      ∧ colorClass totalItems now item ≠ colorAcceptable
      ∧ colorClass totalItems now item ≠ colorCriticalFailure
      ∧ colorClass totalItems now item ≠ colorFuture := by
  have h : colorClass totalItems now item = colorRelapse := by
    rw [colorClass_of_past totalItems now item hpast]
    simp [hrel]
  rw [h]
  exact ⟨rfl, by decide, by decide, by decide, by decide⟩

/-- C5 at a 9/9 record of yesterday marked as a relapse. -/
theorem relapse_overrides_witness :
    calendarCompleted (relapsedFullDay "2025-10-26") = 9
      ∧ colorClass totalProgressItems sampleNow (relapsedFullDay "2025-10-26") = colorRelapse
      ∧ colorClass totalProgressItems sampleNow (relapsedFullDay "2025-10-26")
          ≠ colorFullSuccess :=
  ⟨by decide,
    (relapse_overrides totalProgressItems sampleNow (relapsedFullDay "2025-10-26")
      (by decide) (by decide)).1,
    (relapse_overrides totalProgressItems sampleNow (relapsedFullDay "2025-10-26")
      (by decide) (by decide)).2.1⟩

/-- C6, as stated, fails: a record dated today, not relapsed, with completed count 10 (a
ninth goal key outside the catalog) is coloured acceptable although its count is not in
5..8. -/
theorem acceptable_outside_five_to_eight :
    jsStrLe (tenPointDay "2025-10-27").dateString (getTodayDateString sampleNow) = true
      ∧ (tenPointDay "2025-10-27").hasRelapsed = false
      ∧ colorClass totalProgressItems sampleNow (tenPointDay "2025-10-27") = colorAcceptable
      ∧ ¬ (5 ≤ calendarCompleted (tenPointDay "2025-10-27")
            ∧ calendarCompleted (tenPointDay "2025-10-27") ≤ 8) := by
  refine ⟨by decide, by decide, ?_, by decide⟩
  rw [colorClass_of_past _ _ _ (by decide), totalProgressItems_eq,
    if_neg (by decide), if_neg (by rw [calendarPercentage_eq_hundred_iff]; decide),
    if_pos (by decide)]

/-- C6, amended: for every record dated on or before today and not relapsed, with the
total of 9 that `App` passes, the colour is full-success iff completed = 9, acceptable iff
completed is at least 5 and is not 9, and critical-failure iff completed is at most 4;
when the goal keys are distinct catalog ids, acceptable is exactly 5 <= completed <= 8;
check-in with exactly five goals true gives completed = 6 and acceptable. -/
theorem color_by_completed (now : Int) (item : DailyRecord)
    (hpast : jsStrLe item.dateString (getTodayDateString now) = true)
    (hrel : item.hasRelapsed = false) :
    (colorClass totalProgressItems now item = colorFullSuccess ↔ calendarCompleted item = 9)
      ∧ (colorClass totalProgressItems now item = colorAcceptable ↔
          5 ≤ calendarCompleted item ∧ calendarCompleted item ≠ 9)
      ∧ (colorClass totalProgressItems now item = colorCriticalFailure ↔
          calendarCompleted item ≤ 4)
      ∧ (CatalogKeyed (item.fixedGoalsStatus.getD []) →
          (colorClass totalProgressItems now item = colorAcceptable ↔
            5 ≤ calendarCompleted item ∧ calendarCompleted item ≤ 8))
      ∧ (item.checkedIn = true →
          ((objectValues (item.fixedGoalsStatus.getD [])).filter JSVal.isTrue).length = 5 →
          calendarCompleted item = 6
            ∧ colorClass totalProgressItems now item = colorAcceptable) := by
  have hcol : colorClass totalProgressItems now item =
      if calendarCompleted item = 9 then colorFullSuccess
      else if calendarCompleted item ≥ 5 then colorAcceptable
      else colorCriticalFailure := by
    rw [colorClass_of_past _ _ _ hpast, totalProgressItems_eq]
    simp only [hrel, Bool.false_eq_true, if_false, calendarPercentage_eq_hundred_iff]
  have hfa : colorFullSuccess ≠ colorAcceptable := by decide
  have hfc : colorFullSuccess ≠ colorCriticalFailure := by decide
  have hac : colorAcceptable ≠ colorCriticalFailure := by decide
  have key : (colorClass totalProgressItems now item = colorFullSuccess ↔
        calendarCompleted item = 9)
      ∧ (colorClass totalProgressItems now item = colorAcceptable ↔
          5 ≤ calendarCompleted item ∧ calendarCompleted item ≠ 9)
      ∧ (colorClass totalProgressItems now item = colorCriticalFailure ↔
          calendarCompleted item ≤ 4) := by
    rw [hcol]
    by_cases h9 : calendarCompleted item = 9
    · simp [h9, hfa, hfc]
    · by_cases h5 : calendarCompleted item ≥ 5
      · rw [if_neg h9, if_pos h5]
        refine ⟨⟨fun h => absurd h.symm hfa, fun h => absurd h h9⟩,
          ⟨fun _ => ⟨h5, h9⟩, fun _ => rfl⟩, ⟨fun h => absurd h hac, fun h => ?_⟩⟩
        omega
      · rw [if_neg h9, if_neg h5]
        refine ⟨⟨fun h => absurd h.symm hfc, fun h => absurd h h9⟩,
          ⟨fun h => absurd h.symm hac, fun h => absurd h.1 h5⟩, ⟨fun _ => ?_, fun _ => rfl⟩⟩
        omega
  refine ⟨key.1, key.2.1, key.2.2, ?_, ?_⟩
  · intro hk
    have h9 := (completed_le_nine_aux item hk)
    rw [key.2.1]
    constructor
    · rintro ⟨h5, hne⟩
      exact ⟨h5, by omega⟩
    · rintro ⟨h5, h8⟩
      exact ⟨h5, by omega⟩
  · intro hc h5
    have h6 : calendarCompleted item = 6 := by
      simp [calendarCompleted, hc, h5]
    refine ⟨h6, ?_⟩
    rw [key.2.1, h6]
    decide

/-- C6, amended, at the example of the claim: check-in and five goals done today. -/
theorem color_by_completed_witness :
    calendarCompleted (sixPointDay "2025-10-27") = 6
      ∧ colorClass totalProgressItems sampleNow (sixPointDay "2025-10-27") = colorAcceptable :=
  (color_by_completed sampleNow (sixPointDay "2025-10-27") (by decide) (by decide)).2.2.2.2
    (by decide) (by decide)

/-- C7: a record whose `dateString` is strictly after today gets the future colour,
whatever its content (also with `hasRelapsed` true or completed = 9) and whatever the
total: the future check comes before every other category. -/
theorem future_first (totalItems : Nat) (now : Int) (item : DailyRecord)
    (hfut : jsStrGt item.dateString (getTodayDateString now) = true) :
    colorClass totalItems now item = colorFuture
      ∧ colorClass totalItems now item ≠ colorRelapse
      ∧ colorClass totalItems now item ≠ colorFullSuccess
      ∧ colorClass totalItems now item ≠ colorAcceptable
      ∧ colorClass totalItems now item ≠ colorCriticalFailure := by
  have hle : jsStrLe item.dateString (getTodayDateString now) = false := by
    rw [jsStrGt_eq_not_jsStrLe] at hfut
    simpa using hfut
  have h : colorClass totalItems now item = colorFuture := by
    simp [colorClass, hle]
  rw [h]
  exact ⟨rfl, by decide, by decide, by decide, by decide⟩

/-- C7 at a 9/9 record of tomorrow marked as a relapse. -/
theorem future_first_witness :
    jsStrGt (relapsedFullDay "2025-10-28").dateString (getTodayDateString sampleNow) = true
      ∧ (relapsedFullDay "2025-10-28").hasRelapsed = true
      ∧ calendarCompleted (relapsedFullDay "2025-10-28") = 9
      ∧ colorClass totalProgressItems sampleNow (relapsedFullDay "2025-10-28") = colorFuture :=
  ⟨by decide, by decide, by decide,
    (future_first totalProgressItems sampleNow (relapsedFullDay "2025-10-28") (by decide)).1⟩

/-! ## Streak: records after today and the empty history (C8, C10) -/

theorem sortedDays_filter (now : Int) (h : List DailyRecord) :
    sortedDays now (h.filter (fun r => !jsStrGt r.dateString (getDateString now)))
      = sortedDays now h := by
  have hp : (fun r : DailyRecord => !jsStrGt r.dateString (getDateString now))
      = (fun item : DailyRecord => jsStrLe item.dateString (getDateString now)) := rfl
  simp only [sortedDays, pastRecords, hp, List.filter_filter, Bool.and_self]

theorem sortedDays_length (now : Int) (h : List DailyRecord) :
    (sortedDays now h).length
      = (h.filter (fun r => !jsStrGt r.dateString (getDateString now))).length := by
  have hp : (fun r : DailyRecord => !jsStrGt r.dateString (getDateString now))
      = (fun item : DailyRecord => jsStrLe item.dateString (getDateString now)) := rfl
  simp only [sortedDays, pastRecords, hp, List.length_insertionSort]

/-- C8: records dated strictly after today are excluded from the streak: for every zone,
instant and history, `calculateStreak` gives the same result as on the history with every
record whose `dateString > today` removed. -/
theorem streak_ignores_future (tz : TimeZone) (now : Int) (h : List DailyRecord) :
    calculateStreak tz now h
      = calculateStreak tz now
          (h.filter (fun r => !jsStrGt r.dateString (getDateString now))) := by
  unfold calculateStreak
  simp only [sortedDays_filter]
  by_cases h0 : h.length = 0
  · have hnil : h = [] := List.length_eq_zero.mp h0
    subst hnil
    rfl
  · rw [if_neg h0]
    by_cases hd : (sortedDays now h).length = 0
    · rw [if_pos hd, if_pos (by rw [← sortedDays_length]; exact hd)]
    · rw [if_neg hd, if_neg (by rw [← sortedDays_length]; exact hd)]

/-- C10: `calculateStreak` returns 0 for the empty history, and for every history all of
whose records are dated after today. -/
theorem streak_zero_of_no_past (tz : TimeZone) (now : Int) (h : List DailyRecord)
    (hfut : ∀ r ∈ h, jsStrGt r.dateString (getDateString now) = true) :
    calculateStreak tz now [] = some 0 ∧ calculateStreak tz now h = some 0 := by
  refine ⟨rfl, ?_⟩
  unfold calculateStreak
  by_cases h0 : h.length = 0
  · rw [if_pos h0]
  · rw [if_neg h0]
    have hd : (sortedDays now h).length = 0 := by
      rw [sortedDays_length, List.length_eq_zero, List.filter_eq_nil_iff]
      intro r hr
      simp [hfut r hr]
    rw [if_pos hd]

/-- C10 at a history of two records after today. -/
theorem streak_zero_of_no_past_witness :
    (∀ r ∈ [fullDay "2025-10-28", fullDay "2025-11-02"],
        jsStrGt r.dateString (getDateString sampleNow) = true)
      ∧ calculateStreak (TimeZone.fixed 0) sampleNow [] = some 0
      ∧ calculateStreak (TimeZone.fixed 0) sampleNow
          [fullDay "2025-10-28", fullDay "2025-11-02"] = some 0 :=
  ⟨by decide,
    streak_zero_of_no_past (TimeZone.fixed 0) sampleNow
      [fullDay "2025-10-28", fullDay "2025-11-02"] (by decide)⟩

/-! ## Calendar arithmetic -/

theorem yearOfEra_spec (doe : Int) (h0 : 0 ≤ doe) (h1 : doe < 146097) :
    0 ≤ (yearOfEra doe).1 ∧ (yearOfEra doe).1 ≤ 399
      ∧ 0 ≤ (yearOfEra doe).2 ∧ (yearOfEra doe).2 ≤ 365
      ∧ (yearOfEra doe).1 * 365 + (yearOfEra doe).1 / 4 - (yearOfEra doe).1 / 100
          + (yearOfEra doe).2 = doe := by
  simp only [yearOfEra]
  obtain ⟨cen, hcen⟩ : ∃ cen, cen = min (doe / 36524) 3 := ⟨_, rfl⟩
  rw [← hcen]
  have hc : 0 ≤ cen ∧ cen ≤ 3 ∧ 0 ≤ doe - 36524 * cen ∧ doe - 36524 * cen ≤ 36524 := by omega
  clear hcen
  obtain ⟨doc, hdoc⟩ : ∃ doc, doc = doe - 36524 * cen := ⟨_, rfl⟩
  rw [← hdoc]
  rw [← hdoc] at hc
  obtain ⟨cyc, hcyc⟩ : ∃ cyc, cyc = doc / 1461 := ⟨_, rfl⟩
  obtain ⟨docy, hdocy⟩ : ∃ docy, docy = doc % 1461 := ⟨_, rfl⟩
  rw [← hcyc, ← hdocy]
  have hq : 0 ≤ cyc ∧ cyc ≤ 24 ∧ 0 ≤ docy ∧ docy ≤ 1460 ∧ doc = 1461 * cyc + docy := by omega
  clear hcyc hdocy
  obtain ⟨yr, hyr⟩ : ∃ yr, yr = min (docy / 365) 3 := ⟨_, rfl⟩
  rw [← hyr]
  have hy : 0 ≤ yr ∧ yr ≤ 3 ∧ 0 ≤ docy - 365 * yr ∧ docy - 365 * yr ≤ 365 := by omega
  clear hyr
  refine ⟨by omega, by omega, by omega, by omega, ?_⟩
  have e4 : (100 * cen + 4 * cyc + yr) / 4 = 25 * cen + cyc := by omega
  have e100 : (100 * cen + 4 * cyc + yr) / 100 = cen := by omega
  rw [e4, e100]
  omega

/-- The day number of the calendar date of a day number is that day number. -/
theorem daysFromCivil_civilFromDays (n : Int) :
    daysFromCivil (civilFromDays n).1 (civilFromDays n).2.1 (civilFromDays n).2.2 = n := by
  have hs := yearOfEra_spec ((n + 719468) % 146097) (Int.emod_nonneg _ (by norm_num))
    (Int.emod_lt_of_pos _ (by norm_num))
  simp only [daysFromCivil, civilFromDays]
  obtain ⟨yoe, hyoe⟩ : ∃ yoe, yoe = (yearOfEra ((n + 719468) % 146097)).1 := ⟨_, rfl⟩
  obtain ⟨doy, hdoy⟩ : ∃ doy, doy = (yearOfEra ((n + 719468) % 146097)).2 := ⟨_, rfl⟩
  rw [← hyoe, ← hdoy] at hs ⊢
  clear hyoe hdoy
  obtain ⟨h1, h2, h3, h4, h5⟩ := hs
  obtain ⟨y4, hy4⟩ : ∃ y4, y4 = yoe / 4 := ⟨_, rfl⟩
  obtain ⟨y100, hy100⟩ : ∃ y100, y100 = yoe / 100 := ⟨_, rfl⟩
  rw [← hy4, ← hy100] at h5
  obtain ⟨mp, hmp⟩ : ∃ mp, mp = (5 * doy + 2) / 153 := ⟨_, rfl⟩
  rw [← hmp]
  have hm : 0 ≤ mp ∧ mp ≤ 11 := by omega
  clear hmp
  have hz : n + 719468 = 146097 * ((n + 719468) / 146097) + (n + 719468) % 146097 :=
    (Int.ediv_add_emod _ _).symm
  obtain ⟨era, hera⟩ : ∃ era, era = (n + 719468) / 146097 := ⟨_, rfl⟩
  rw [← hera] at hz ⊢
  clear hera
  have e1 : (yoe + era * 400 + 0) / 400 = era := by omega
  have e2 : (yoe + era * 400 + 0) % 400 = yoe := by omega
  have e3 : (yoe + era * 400 + 1 - 1) / 400 = era := by omega
  have e4 : (yoe + era * 400 + 1 - 1) % 400 = yoe := by omega
  split_ifs
  all_goals first
    | omega
    | (rw [e1, e2, ← hy4, ← hy100]; omega)
    | (rw [e3, e4, ← hy4, ← hy100]; omega)

theorem civilFromDays_injective (a b : Int) (h : civilFromDays a = civilFromDays b) : a = b := by
  rw [← daysFromCivil_civilFromDays a, ← daysFromCivil_civilFromDays b, h]

/-- Month and day of month are in range. -/
theorem civilFromDays_range (n : Int) :
    1 ≤ (civilFromDays n).2.1 ∧ (civilFromDays n).2.1 ≤ 12
      ∧ 1 ≤ (civilFromDays n).2.2 ∧ (civilFromDays n).2.2 ≤ 31 := by
  have hs := yearOfEra_spec ((n + 719468) % 146097) (Int.emod_nonneg _ (by norm_num))
    (Int.emod_lt_of_pos _ (by norm_num))
  simp only [civilFromDays]
  obtain ⟨doy, hdoy⟩ : ∃ doy, doy = (yearOfEra ((n + 719468) % 146097)).2 := ⟨_, rfl⟩
  rw [← hdoy] at hs ⊢
  obtain ⟨-, -, h3, h4, -⟩ := hs
  split_ifs <;> omega

/-- `MakeDay` with the year and month of a day and its day of month less one is the day
before. -/
theorem MakeDay_previous (n : Int) :
    MakeDay (civilFromDays n).1 ((civilFromDays n).2.1 - 1) ((civilFromDays n).2.2 - 1)
      = n - 1 := by
  have h := daysFromCivil_civilFromDays n
  simp only [MakeDay, daysFromCivil] at h ⊢
  rw [Int.sub_add_cancel]
  omega

/-- In every zone, `setDate(getDate() - 1)` is the local time one day earlier, read back
as UTC. -/
theorem setDate_previous (tz : TimeZone) (t : Int) :
    setDate tz t (getDate tz t - 1) = UTC tz (LocalTime tz t - msPerDay) := by
  simp only [setDate, getDate, MakeDay_previous]
  congr 1
  simp only [Day, TimeWithinDay, msPerDay]
  omega

/-- In a zone with a constant offset the step of the streak walk goes to the day before. -/
theorem previous_day_fixed (offsetMs cur : Int) :
    previousDay (TimeZone.fixed offsetMs) cur = cur - 1 := by
  unfold previousDay
  rw [setDate_previous]
  simp only [UTC, LocalTime, TimeZone.fixed, Day, msPerDay]
  omega

/-! ## The ISO date of a day number determines the day -/

theorem digitChar_toNat (k : Int) : (digitChar k).toNat = 48 + (k % 10).toNat := by
  unfold digitChar
  have hj : (k % 10).toNat < 10 := by omega
  generalize (k % 10).toNat = j at hj
  interval_cases j <;> rfl

theorem digitChar_inj (a b : Int) (h : digitChar a = digitChar b) : a % 10 = b % 10 := by
  have h1 := congrArg Char.toNat h
  rw [digitChar_toNat, digitChar_toNat] at h1
  omega

theorem digitChar_ne_minus (a : Int) : digitChar a ≠ '-' := by
  intro h
  have h1 := congrArg Char.toNat h
  rw [digitChar_toNat] at h1
  have h2 : ('-' : Char).toNat = 45 := rfl
  omega

theorem digitChar_ne_plus (a : Int) : digitChar a ≠ '+' := by
  intro h
  have h1 := congrArg Char.toNat h
  rw [digitChar_toNat] at h1
  have h2 : ('+' : Char).toNat = 43 := rfl
  omega

theorem decimalDigits_length (w a : Nat) : (decimalDigits w a).length = w := by
  induction w generalizing a with
  | zero => rfl
  | succ w ih => simp [decimalDigits, ih]

theorem decimalDigits_inj (w : Nat) (a b : Nat) (ha : a < 10 ^ w) (hb : b < 10 ^ w)
    (h : decimalDigits w a = decimalDigits w b) : a = b := by
  induction w generalizing a b with
  | zero =>
    simp at ha hb
    omega
  | succ w ih =>
    simp only [decimalDigits] at h
    have hl : (decimalDigits w (a / 10)).length = (decimalDigits w (b / 10)).length := by
      rw [decimalDigits_length, decimalDigits_length]
    obtain ⟨h1, h2⟩ := List.append_inj h hl
    have h3 := digitChar_inj _ _ (List.singleton_inj.mp h2)
    have h4 := ih (a / 10) (b / 10) (by rw [pow_succ] at ha; omega) (by rw [pow_succ] at hb; omega) h1
    omega

theorem yearWidth_spec (a : Nat) : a < 10 ^ (max 6 (Nat.log 10 a + 1)) := by
  have h1 : a < 10 ^ (Nat.log 10 a + 1) := Nat.lt_pow_succ_log_self (by norm_num) a
  exact lt_of_lt_of_le h1 (Nat.pow_le_pow_right (by norm_num) (le_max_right _ _))

theorem isoYear_inj (y z : Int) (h : isoYear y = isoYear z) : y = z := by
  unfold isoYear at h
  by_cases hy : 0 ≤ y ∧ y ≤ 9999 <;> by_cases hz : 0 ≤ z ∧ z ≤ 9999
  · rw [if_pos hy, if_pos hz] at h
    simp only [String.ext_iff, List.cons.injEq, and_true] at h
    obtain ⟨h1, h2, h3, h4⟩ := h
    have e1 := digitChar_inj _ _ h1
    have e2 := digitChar_inj _ _ h2
    have e3 := digitChar_inj _ _ h3
    have e4 := digitChar_inj _ _ h4
    omega
  · rw [if_pos hy, if_neg hz] at h
    simp only [String.ext_iff, List.cons.injEq] at h
    exfalso
    split_ifs at h
    · exact digitChar_ne_minus _ h.1
    · exact digitChar_ne_plus _ h.1
  · rw [if_neg hy, if_pos hz] at h
    simp only [String.ext_iff, List.cons.injEq] at h
    exfalso
    split_ifs at h
    · exact digitChar_ne_minus _ h.1.symm
    · exact digitChar_ne_plus _ h.1.symm
  · rw [if_neg hy, if_neg hz] at h
    simp only [String.ext_iff, List.cons.injEq] at h
    obtain ⟨hs, hd⟩ := h
    have hw : max 6 (Nat.log 10 y.natAbs + 1) = max 6 (Nat.log 10 z.natAbs + 1) := by
      have := congrArg List.length hd
      rwa [decimalDigits_length, decimalDigits_length] at this
    rw [hw] at hd
    have ha := decimalDigits_inj _ _ _ (hw ▸ yearWidth_spec y.natAbs) (yearWidth_spec z.natAbs) hd
    split_ifs at hs with s1 s2 s2
    · omega
    · exact absurd hs (by decide)
    · exact absurd hs (by decide)
    · omega

theorem pad2_inj (a b : Int) (ha : 0 ≤ a ∧ a ≤ 99) (hb : 0 ≤ b ∧ b ≤ 99)
    (h : pad2 a = pad2 b) : a = b := by
  simp only [pad2, String.ext_iff, List.cons.injEq, and_true] at h
  have e1 := digitChar_inj _ _ h.1
  have e2 := digitChar_inj _ _ h.2
  omega

theorem pad2_length (a : Int) : (pad2 a).data.length = 2 := rfl

/-- Two day numbers with the same ISO date are equal. -/
theorem isoDate_injective (a b : Int) (h : isoDate a = isoDate b) : a = b := by
  have ra := civilFromDays_range a
  have rb := civilFromDays_range b
  apply civilFromDays_injective
  simp only [isoDate] at h
  rw [String.ext_iff] at h
  simp only [String.data_append] at h
  have hlen := congrArg List.length h
  simp only [List.length_append, pad2_length] at hlen
  have hy : (isoYear (civilFromDays a).1).data.length = (isoYear (civilFromDays b).1).data.length := by
    omega
  simp only [List.append_assoc] at h
  obtain ⟨h1, h2⟩ := List.append_inj h hy
  have hdash : ("-" : String).data.length = ("-" : String).data.length := rfl
  obtain ⟨-, h3⟩ := List.append_inj h2 hdash
  obtain ⟨h4, h5⟩ := List.append_inj h3 (by rw [pad2_length, pad2_length])
  obtain ⟨-, h6⟩ := List.append_inj h5 hdash
  have ey := isoYear_inj _ _ (String.ext_iff.mpr h1)
  have em := pad2_inj _ _ (by omega) (by omega) (String.ext_iff.mpr h4)
  have ed := pad2_inj _ _ (by omega) (by omega) (String.ext_iff.mpr h6)
  exact Prod.ext ey (Prod.ext em ed)

theorem lexLt_irrefl (l : List Nat) : lexLt l l = false := by
  induction l with
  | nil => rfl
  | cons a rest ih => simp [lexLt, ih]

theorem jsStrLt_irrefl (a : String) : jsStrLt a a = false := lexLt_irrefl _

/-! ## Objects used as maps -/

theorem objGet_objSet {α : Type} (obj : List (String × α)) (k : String) (v : α) (key : String) :
    objGet (objSet obj k v) key = if k = key then some v else objGet obj key := by
  induction obj with
  | nil => simp [objSet, objGet]
  | cons p rest ih =>
    obtain ⟨k0, v0⟩ := p
    simp only [objSet]
    by_cases h0 : k0 = k
    · subst h0
      simp only [if_true, objGet]
      by_cases h1 : k0 = key <;> simp [h1]
    · simp only [if_neg h0, objGet, ih]
      by_cases h1 : k0 = key
      · have h2 : ¬ k = key := fun e => h0 (h1.trans e.symm)
        simp [h1, h2]
      · simp [h1]

theorem objSet_length {α : Type} (obj : List (String × α)) (k : String) (v : α) :
    (objSet obj k v).length ≤ obj.length + 1 := by
  induction obj with
  | nil => simp [objSet]
  | cons p rest ih =>
    obtain ⟨k0, v0⟩ := p
    simp only [objSet]
    split <;> simp only [List.length_cons] <;> omega

theorem objGet_mem_keys {α : Type} (obj : List (String × α)) (key : String) (v : α)
    (h : objGet obj key = some v) : key ∈ objectKeys obj := by
  induction obj with
  | nil => simp [objGet] at h
  | cons p rest ih =>
    obtain ⟨k0, v0⟩ := p
    simp only [objGet] at h
    by_cases h0 : k0 = key
    · simp [objectKeys, h0]
    · rw [if_neg h0] at h
      have := ih h
      simp only [objectKeys, List.map_cons, List.mem_cons] at this ⊢
      exact Or.inr this

theorem foldl_objSet_length (l : List DailyRecord) (acc : List (String × DailyRecord)) :
    (l.foldl (fun acc item => objSet acc item.dateString item) acc).length
      ≤ acc.length + l.length := by
  induction l generalizing acc with
  | nil => simp
  | cons r rest ih =>
    simp only [List.foldl_cons, List.length_cons]
    have h1 := ih (objSet acc r.dateString r)
    have h2 := objSet_length acc r.dateString r
    omega

theorem objGet_foldl_some (l : List DailyRecord) (acc : List (String × DailyRecord))
    (key : String) (item : DailyRecord)
    (h : objGet (l.foldl (fun acc item => objSet acc item.dateString item) acc) key = some item) :
    (item ∈ l ∧ item.dateString = key) ∨ objGet acc key = some item := by
  induction l generalizing acc with
  | nil => exact Or.inr h
  | cons r rest ih =>
    simp only [List.foldl_cons] at h
    rcases ih _ h with h1 | h1
    · exact Or.inl ⟨List.mem_cons_of_mem _ h1.1, h1.2⟩
    · rw [objGet_objSet] at h1
      by_cases hk : r.dateString = key
      · rw [if_pos hk] at h1
        have e : r = item := Option.some.inj h1
        subst e
        exact Or.inl ⟨List.mem_cons_self _ _, hk⟩
      · rw [if_neg hk] at h1
        exact Or.inr h1

theorem objGet_foldl_isSome (l : List DailyRecord) (acc : List (String × DailyRecord))
    (key : String)
    (h : (∃ r ∈ l, r.dateString = key) ∨ (objGet acc key).isSome = true) :
    (objGet (l.foldl (fun acc item => objSet acc item.dateString item) acc) key).isSome
      = true := by
  induction l generalizing acc with
  | nil =>
    rcases h with ⟨r, hr, -⟩ | h
    · simp at hr
    · exact h
  | cons r rest ih =>
    simp only [List.foldl_cons]
    apply ih
    rcases h with ⟨x, hx, hxk⟩ | h
    · rcases List.mem_cons.mp hx with e | hx
      · subst e
        right
        rw [objGet_objSet, if_pos hxk]
        rfl
      · exact Or.inl ⟨x, hx, hxk⟩
    · right
      rw [objGet_objSet]
      split
      · rfl
      · exact h

/-- With pairwise distinct dates, the streak's `historyMap` holds under a key exactly the
record of the list with that date. -/
theorem objGet_streakHistoryMap (days : List DailyRecord)
    (hd : (days.map DailyRecord.dateString).Nodup) (key : String) (item : DailyRecord) :
    objGet (streakHistoryMap days) key = some item ↔ item ∈ days ∧ item.dateString = key := by
  constructor
  · intro h
    rcases objGet_foldl_some days [] key item h with h1 | h1
    · exact h1
    · simp [objGet] at h1
  · rintro ⟨hm, hk⟩
    have hs := objGet_foldl_isSome days [] key (Or.inl ⟨item, hm, hk⟩)
    obtain ⟨other, ho⟩ := Option.isSome_iff_exists.mp hs
    rcases objGet_foldl_some days [] key other ho with h1 | h1
    · have e : other = item :=
        List.inj_on_of_nodup_map hd h1.1 hm (h1.2.trans hk.symm)
      rw [← e]
      exact ho
    · simp [objGet] at h1

theorem mem_sortedDays (now : Int) (h : List DailyRecord) (r : DailyRecord) :
    r ∈ sortedDays now h ↔ r ∈ pastRecords now h :=
  (List.perm_insertionSort _ _).mem_iff

theorem sortedDays_nodup (now : Int) (h : List DailyRecord)
    (hd : (h.map DailyRecord.dateString).Nodup) :
    ((sortedDays now h).map DailyRecord.dateString).Nodup := by
  have hp : ((sortedDays now h).map DailyRecord.dateString).Perm
      ((pastRecords now h).map DailyRecord.dateString) :=
    (List.perm_insertionSort _ _).map _
  rw [hp.nodup_iff]
  exact hd.sublist ((List.filter_sublist _).map _)

/-! ## The streak walk in a zone with a constant offset -/

/-- One run of the loop in a zone with a constant offset: from day `cur`, with 9/9 entries
for the `k` days ending at `cur` and none for the day before them, the loop returns the
streak plus `k`, given `k + 1` iterations. -/
theorem streakLoop_fixed (offsetMs now : Int) (historyMap : List (String × DailyRecord))
    (k : Nat) : ∀ (cur : Int) (fuel streak : Nat),
    (∀ i : Nat, i < k → ∃ item, objGet historyMap (isoDate (cur - i)) = some item
        ∧ totalCompleted item = 9) →
    (¬ ∃ item, objGet historyMap (isoDate (cur - k)) = some item ∧ totalCompleted item = 9) →
    (objGet historyMap (isoDate (cur - k)) = none → cur - k ≠ Day now) →
    k + 1 ≤ fuel →
    streakLoop (TimeZone.fixed offsetMs) now historyMap fuel cur streak = some (streak + k) := by
  induction k with
  | zero =>
    intro cur fuel streak _ hstop hnone hfuel
    obtain ⟨f, rfl⟩ : ∃ f, fuel = f + 1 := ⟨fuel - 1, by omega⟩
    simp only [Nat.cast_zero, sub_zero] at hstop hnone
    simp only [streakLoop]
    cases hget : objGet historyMap (isoDate cur) with
    | none =>
      have hne : isoDate cur ≠ getDateString now := fun e =>
        hnone hget (isoDate_injective _ _ e)
      simp [hne]
    | some item =>
      have hc : totalCompleted item ≠ 9 := fun e => hstop ⟨item, hget, e⟩
      have h9 : FIXED_DAILY_GOALS.length + 1 = 9 := rfl
      simp [h9, hc]
  | succ k ih =>
    intro cur fuel streak hfull hstop hnone hfuel
    obtain ⟨f, rfl⟩ : ∃ f, fuel = f + 1 := ⟨fuel - 1, by omega⟩
    obtain ⟨item, hget, hc⟩ := hfull 0 (Nat.succ_pos k)
    simp only [Nat.cast_zero, sub_zero] at hget
    have h9 : FIXED_DAILY_GOALS.length + 1 = 9 := rfl
    have hshift : ∀ j : Nat, cur - 1 - (j : Int) = cur - ((j + 1 : Nat) : Int) := by
      intro j
      push_cast
      ring
    simp only [streakLoop, hget, h9, hc, ne_eq, not_true_eq_false, if_false,
      previous_day_fixed]
    rw [ih (cur - 1) f (streak + 1)
      (fun i hi => by rw [hshift]; exact hfull (i + 1) (Nat.succ_lt_succ hi))
      (by rw [hshift]; exact hstop)
      (by rw [hshift]; exact hnone)
      (by omega)]
    congr 1
    omega

/-- A run of days with entries in the map is no longer than the map. -/
theorem run_le_length (historyMap : List (String × DailyRecord)) (cur : Int) (k : Nat)
    (hfull : ∀ i : Nat, i < k → ∃ item, objGet historyMap (isoDate (cur - i)) = some item
        ∧ totalCompleted item = 9) :
    k ≤ historyMap.length := by
  have hinj : Function.Injective (fun i : Nat => isoDate (cur - i)) := by
    intro i j hij
    have := isoDate_injective _ _ hij
    omega
  have hnd : ((List.range k).map (fun i : Nat => isoDate (cur - i))).Nodup :=
    (List.nodup_range k).map hinj
  have hsub : (List.range k).map (fun i : Nat => isoDate (cur - i)) ⊆ objectKeys historyMap := by
    intro key hkey
    obtain ⟨i, hi, rfl⟩ := List.mem_map.mp hkey
    obtain ⟨item, hget, -⟩ := hfull i (List.mem_range.mp hi)
    exact objGet_mem_keys _ _ _ hget
  have hle := (hnd.subperm hsub).length_le
  simpa [objectKeys] using hle

/-- From every day there is a first day, going back, without a 9/9 entry in the map; it
is at most as far back as the map is long. -/
theorem exists_run (historyMap : List (String × DailyRecord)) (cur : Int) :
    ∃ k : Nat, k ≤ historyMap.length
      ∧ (∀ i : Nat, i < k → ∃ item, objGet historyMap (isoDate (cur - i)) = some item
          ∧ totalCompleted item = 9)
      ∧ ¬ ∃ item, objGet historyMap (isoDate (cur - k)) = some item
          ∧ totalCompleted item = 9 := by
  have hex : ∃ k : Nat, ¬ ∃ item, objGet historyMap (isoDate (cur - k)) = some item
      ∧ totalCompleted item = 9 := by
    by_contra hall
    have hall2 : ∀ k : Nat, ∃ item, objGet historyMap (isoDate (cur - k)) = some item
        ∧ totalCompleted item = 9 := fun k => by
      by_contra hk
      exact hall ⟨k, hk⟩
    have := run_le_length historyMap cur (historyMap.length + 1) (fun i _ => hall2 i)
    omega
  classical
  refine ⟨Nat.find hex, ?_, ?_, Nat.find_spec hex⟩
  · exact run_le_length historyMap cur _ (fun i hi => by
      by_contra hk
      exact Nat.find_min hex hi hk)
  · intro i hi
    by_contra hk
    exact Nat.find_min hex hi hk

theorem fullOn_iff_objGet (now : Int) (h : List DailyRecord)
    (hd : (h.map DailyRecord.dateString).Nodup) (n : Int) :
    (∃ item, objGet (streakHistoryMap (sortedDays now h)) (isoDate n) = some item
        ∧ totalCompleted item = 9) ↔ fullOn (pastRecords now h) n := by
  constructor
  · rintro ⟨item, hget, hc⟩
    rw [objGet_streakHistoryMap _ (sortedDays_nodup now h hd), mem_sortedDays] at hget
    exact ⟨item, hget.1, hget.2, hc⟩
  · rintro ⟨item, hm, hk, hc⟩
    refine ⟨item, ?_, hc⟩
    rw [objGet_streakHistoryMap _ (sortedDays_nodup now h hd), mem_sortedDays]
    exact ⟨hm, hk⟩

theorem hasRecordOn_iff_objGet (now : Int) (h : List DailyRecord)
    (hd : (h.map DailyRecord.dateString).Nodup) (n : Int) :
    (∃ item, objGet (streakHistoryMap (sortedDays now h)) (isoDate n) = some item)
      ↔ hasRecordOn (pastRecords now h) n := by
  constructor
  · rintro ⟨item, hget⟩
    rw [objGet_streakHistoryMap _ (sortedDays_nodup now h hd), mem_sortedDays] at hget
    exact ⟨item, hget.1, hget.2⟩
  · rintro ⟨item, hm, hk⟩
    refine ⟨item, ?_⟩
    rw [objGet_streakHistoryMap _ (sortedDays_nodup now h hd), mem_sortedDays]
    exact ⟨hm, hk⟩

theorem streakLoop_succ (tz : TimeZone) (now : Int) (historyMap : List (String × DailyRecord))
    (fuel : Nat) (cur : Int) (streak : Nat) :
    streakLoop tz now historyMap (fuel + 1) cur streak =
      match objGet historyMap (isoDate cur) with
      | none =>
        if isoDate cur = getDateString now then
          streakLoop tz now historyMap fuel (previousDay tz cur) streak
        else some streak
      | some item =>
        if totalCompleted item ≠ FIXED_DAILY_GOALS.length + 1 then some streak
        else streakLoop tz now historyMap fuel (previousDay tz cur) (streak + 1) :=
  rfl

theorem not_fullOn_nil (n : Int) : ¬ fullOn [] n := by
  rintro ⟨r, hr, -⟩
  simp at hr

/-- The backward walk in a zone with a constant offset: for every history with pairwise
distinct dates, `calculateStreak` returns the number `k` of consecutive days, ending at
today (at yesterday when today has no record), that have a 9/9 record among the records
not after today; the day before them has no such record. -/
theorem calculateStreak_fixed (offsetMs now : Int) (h : List DailyRecord)
    (hd : (h.map DailyRecord.dateString).Nodup) :
    ∃ k : Nat, calculateStreak (TimeZone.fixed offsetMs) now h = some k
      ∧ (∀ i : Nat, i < k →
          fullOn (pastRecords now h) (streakStart now (pastRecords now h) - i))
      ∧ ¬ fullOn (pastRecords now h) (streakStart now (pastRecords now h) - k) := by
  unfold calculateStreak
  by_cases h0 : h.length = 0
  · have hnil : h = [] := List.length_eq_zero.mp h0
    subst hnil
    exact ⟨0, rfl, fun i hi => absurd hi (Nat.not_lt_zero i), not_fullOn_nil _⟩
  rw [if_neg h0]
  by_cases hdl : (sortedDays now h).length = 0
  · rw [if_pos hdl]
    have hp : pastRecords now h = [] := by
      have : (pastRecords now h).length = 0 := by
        rw [← hdl, sortedDays, List.length_insertionSort]
      exact List.length_eq_zero.mp this
    rw [hp]
    exact ⟨0, rfl, fun i hi => absurd hi (Nat.not_lt_zero i), not_fullOn_nil _⟩
  rw [if_neg hdl]
  have hlen : (streakHistoryMap (sortedDays now h)).length ≤ (sortedDays now h).length := by
    have := foldl_objSet_length (sortedDays now h) []
    simpa [streakHistoryMap] using this
  obtain ⟨k, hk, hfull, hstop⟩ :=
    exists_run (streakHistoryMap (sortedDays now h)) (streakStart now (pastRecords now h))
  refine ⟨k, ?_, fun i hi => (fullOn_iff_objGet now h hd _).mp (hfull i hi),
    fun hf => hstop ((fullOn_iff_objGet now h hd _).mpr hf)⟩
  by_cases hrec : hasRecordOn (pastRecords now h) (Day now)
  · have hstart : streakStart now (pastRecords now h) = Day now := by
      simp [streakStart, hrec]
    rw [hstart] at hfull hstop
    obtain ⟨item0, hget0⟩ := (hasRecordOn_iff_objGet now h hd _).mpr hrec
    have := streakLoop_fixed offsetMs now _ k (Day now) ((sortedDays now h).length + 2) 0
      hfull hstop
      (fun hnone => by
        intro e
        have hk0 : k = 0 := by omega
        subst hk0
        simp only [Nat.cast_zero, sub_zero] at hnone
        rw [hget0] at hnone
        exact absurd hnone (by simp))
      (by omega)
    simpa using this
  · have hstart : streakStart now (pastRecords now h) = Day now - 1 := by
      simp [streakStart, hrec]
    rw [hstart] at hfull hstop
    have hnone0 : objGet (streakHistoryMap (sortedDays now h)) (isoDate (Day now)) = none := by
      cases hg : objGet (streakHistoryMap (sortedDays now h)) (isoDate (Day now)) with
      | none => rfl
      | some item => exact absurd ((hasRecordOn_iff_objGet now h hd _).mp ⟨item, hg⟩) hrec
    have hrun := streakLoop_fixed offsetMs now _ k (Day now - 1)
      ((sortedDays now h).length + 1) 0 hfull hstop (fun _ => by omega) (by omega)
    have hstep : streakLoop (TimeZone.fixed offsetMs) now (streakHistoryMap (sortedDays now h))
        ((sortedDays now h).length + 2) (Day now) 0
        = streakLoop (TimeZone.fixed offsetMs) now (streakHistoryMap (sortedDays now h))
            ((sortedDays now h).length + 1) (Day now - 1) 0 := by
      rw [show (sortedDays now h).length + 2 = ((sortedDays now h).length + 1) + 1 from rfl,
        streakLoop_succ, hnone0]
      simp only []
      have hT : isoDate (Day now) = getDateString now := rfl
      rw [if_pos hT, previous_day_fixed]
    rw [hstep, hrun]
    simp

/-- In every zone, a recorded today that is not 9/9 gives 0 (dates pairwise distinct). -/
theorem calculateStreak_incomplete_today (tz : TimeZone) (now : Int) (h : List DailyRecord)
    (hd : (h.map DailyRecord.dateString).Nodup) (r : DailyRecord) (hr : r ∈ h)
    (hdate : r.dateString = getDateString now) (hc : totalCompleted r ≠ 9) :
    calculateStreak tz now h = some 0 := by
  have hpast : r ∈ pastRecords now h := by
    refine List.mem_filter.mpr ⟨hr, ?_⟩
    rw [hdate]
    simp [jsStrLe, jsStrLt_irrefl]
  have hsorted : r ∈ sortedDays now h := (mem_sortedDays now h r).mpr hpast
  have hget : objGet (streakHistoryMap (sortedDays now h)) (isoDate (Day now)) = some r :=
    (objGet_streakHistoryMap _ (sortedDays_nodup now h hd) _ _).mpr ⟨hsorted, hdate⟩
  unfold calculateStreak
  rw [if_neg (by intro e; rw [List.length_eq_zero.mp e] at hr; simp at hr),
    if_neg (by intro e; rw [List.length_eq_zero.mp e] at hsorted; simp at hsorted),
    show (sortedDays now h).length + 2 = ((sortedDays now h).length + 1) + 1 from rfl,
    streakLoop_succ, hget]
  have h9 : FIXED_DAILY_GOALS.length + 1 = 9 := rfl
  simp [h9, hc]

/-- In a zone with a constant offset, a record `j` days before today that is not 9/9
bounds the streak by `j` (dates pairwise distinct). -/
theorem calculateStreak_fixed_le (offsetMs now : Int) (h : List DailyRecord)
    (hd : (h.map DailyRecord.dateString).Nodup) (r : DailyRecord) (j : Nat)
    (hr : r ∈ pastRecords now h) (hdate : r.dateString = isoDate (Day now - j))
    (hc : totalCompleted r ≠ 9) :
    ∃ k : Nat, calculateStreak (TimeZone.fixed offsetMs) now h = some k ∧ k ≤ j := by
  obtain ⟨k, hk, hfull, -⟩ := calculateStreak_fixed offsetMs now h hd
  refine ⟨k, hk, ?_⟩
  have hpd : ((pastRecords now h).map DailyRecord.dateString).Nodup :=
    hd.sublist ((List.filter_sublist _).map _)
  have hnot : ¬ fullOn (pastRecords now h) (Day now - j) := by
    rintro ⟨x, hx, hxd, hxc⟩
    have e : x = r := List.inj_on_of_nodup_map hpd hx hr (hxd.trans hdate.symm)
    exact hc (e ▸ hxc)
  by_contra hlt
  have hjk : j < k := by omega
  by_cases hrec : hasRecordOn (pastRecords now h) (Day now)
  · have hstart : streakStart now (pastRecords now h) = Day now := by
      simp [streakStart, hrec]
    rw [hstart] at hfull
    exact hnot (hfull j hjk)
  · have hstart : streakStart now (pastRecords now h) = Day now - 1 := by
      simp [streakStart, hrec]
    rw [hstart] at hfull
    have hj0 : j ≠ 0 := by
      intro e
      subst e
      exact hrec ⟨r, hr, by simpa using hdate⟩
    have := hfull (j - 1) (by omega)
    have e : Day now - 1 - ((j - 1 : Nat) : Int) = Day now - j := by omega
    rw [e] at this
    exact hnot this

/-! ## The iterations given to the streak loop are enough in every zone -/

theorem streakLoop_of_continues (tz : TimeZone) (now : Int)
    (historyMap : List (String × DailyRecord)) (fuel : Nat) (cur : Int) (streak : Nat)
    (hc : continuesAt now historyMap cur) :
    ∃ s, streakLoop tz now historyMap (fuel + 1) cur streak
      = streakLoop tz now historyMap fuel (previousDay tz cur) s := by
  rw [streakLoop_succ]
  have h9 : FIXED_DAILY_GOALS.length + 1 = 9 := rfl
  rcases hc with ⟨hn, ht⟩ | ⟨item, hs, hc9⟩
  · exact ⟨streak, by rw [hn]; simp only []; rw [if_pos ht]⟩
  · exact ⟨streak + 1, by rw [hs]; simp only []; rw [h9, if_neg (by simpa using hc9)]⟩

theorem streakLoop_of_not_continues (tz : TimeZone) (now : Int)
    (historyMap : List (String × DailyRecord)) (fuel : Nat) (cur : Int) (streak : Nat)
    (hc : ¬ continuesAt now historyMap cur) :
    streakLoop tz now historyMap (fuel + 1) cur streak = some streak := by
  rw [streakLoop_succ]
  have h9 : FIXED_DAILY_GOALS.length + 1 = 9 := rfl
  cases hget : objGet historyMap (isoDate cur) with
  | none =>
    simp only []
    rw [if_neg (fun ht => hc (Or.inl ⟨hget, ht⟩))]
  | some item =>
    simp only []
    rw [h9, if_pos (fun e => hc (Or.inr ⟨item, hget, e⟩))]

/-- A run that returns has a first day at which the loop does not go on. -/
theorem streakLoop_stops (tz : TimeZone) (now : Int) (historyMap : List (String × DailyRecord))
    (fuel : Nat) : ∀ (cur : Int) (streak k : Nat),
    streakLoop tz now historyMap fuel cur streak = some k →
    ∃ m : Nat, m < fuel ∧ (∀ i : Nat, i < m → continuesAt now historyMap ((previousDay tz)^[i] cur))
      ∧ ¬ continuesAt now historyMap ((previousDay tz)^[m] cur) := by
  induction fuel with
  | zero =>
    intro cur streak k h
    simp [streakLoop] at h
  | succ fuel ih =>
    intro cur streak k h
    by_cases hc : continuesAt now historyMap cur
    · obtain ⟨s, hs⟩ := streakLoop_of_continues tz now historyMap fuel cur streak hc
      rw [hs] at h
      obtain ⟨m, hm, hgo, hstop⟩ := ih _ _ _ h
      refine ⟨m + 1, by omega, ?_, ?_⟩
      · intro i hi
        cases i with
        | zero => exact hc
        | succ i =>
          rw [Function.iterate_succ_apply]
          exact hgo i (by omega)
      · rw [Function.iterate_succ_apply]
        exact hstop
    · exact ⟨0, by omega, fun i hi => absurd hi (Nat.not_lt_zero i), hc⟩

/-- Up to the first day at which the loop does not go on, the result does not depend on
the number of iterations given. -/
theorem streakLoop_fuel_irrelevant (tz : TimeZone) (now : Int)
    (historyMap : List (String × DailyRecord)) (m : Nat) :
    ∀ (cur : Int) (streak fuel1 fuel2 : Nat),
    (∀ i : Nat, i < m → continuesAt now historyMap ((previousDay tz)^[i] cur)) →
    ¬ continuesAt now historyMap ((previousDay tz)^[m] cur) →
    m < fuel1 → m < fuel2 →
    streakLoop tz now historyMap fuel1 cur streak
      = streakLoop tz now historyMap fuel2 cur streak := by
  induction m with
  | zero =>
    intro cur streak fuel1 fuel2 _ hstop h1 h2
    obtain ⟨f1, rfl⟩ : ∃ f, fuel1 = f + 1 := ⟨fuel1 - 1, by omega⟩
    obtain ⟨f2, rfl⟩ : ∃ f, fuel2 = f + 1 := ⟨fuel2 - 1, by omega⟩
    have hstop0 : ¬ continuesAt now historyMap cur := hstop
    rw [streakLoop_of_not_continues _ _ _ _ _ _ hstop0,
      streakLoop_of_not_continues _ _ _ _ _ _ hstop0]
  | succ m ih =>
    intro cur streak fuel1 fuel2 hgo hstop h1 h2
    obtain ⟨f1, rfl⟩ : ∃ f, fuel1 = f + 1 := ⟨fuel1 - 1, by omega⟩
    obtain ⟨f2, rfl⟩ : ∃ f, fuel2 = f + 1 := ⟨fuel2 - 1, by omega⟩
    have hc : continuesAt now historyMap cur := hgo 0 (Nat.succ_pos m)
    have h9 : FIXED_DAILY_GOALS.length + 1 = 9 := rfl
    have hgo2 : ∀ i : Nat, i < m →
        continuesAt now historyMap ((previousDay tz)^[i] (previousDay tz cur)) := fun i hi => by
      rw [← Function.iterate_succ_apply]
      exact hgo (i + 1) (by omega)
    have hstop2 : ¬ continuesAt now historyMap ((previousDay tz)^[m] (previousDay tz cur)) := by
      rw [← Function.iterate_succ_apply]
      exact hstop
    rw [streakLoop_succ, streakLoop_succ]
    rcases hc with ⟨hn, ht⟩ | ⟨item, hs, hc9⟩
    · rw [hn]
      simp only []
      rw [if_pos ht, if_pos ht]
      exact ih _ _ _ _ hgo2 hstop2 (by omega) (by omega)
    · rw [hs]
      simp only []
      rw [h9, if_neg (by simpa using hc9), if_neg (by simpa using hc9)]
      exact ih _ _ _ _ hgo2 hstop2 (by omega) (by omega)

/-- A run that stops never comes back to a day, so it stops within one day more than the
map has entries. -/
theorem stop_index_le (tz : TimeZone) (now : Int) (historyMap : List (String × DailyRecord))
    (cur : Int) (m : Nat)
    (hgo : ∀ i : Nat, i < m → continuesAt now historyMap ((previousDay tz)^[i] cur))
    (hstop : ¬ continuesAt now historyMap ((previousDay tz)^[m] cur)) :
    m ≤ historyMap.length + 1 := by
  have hper : ∀ i d : Nat, (previousDay tz)^[i] cur = (previousDay tz)^[i + d] cur →
      ∀ t : Nat, (previousDay tz)^[i + t] cur = (previousDay tz)^[i + d + t] cur := by
    intro i d he t
    rw [Nat.add_comm i t, Nat.add_comm (i + d) t, Function.iterate_add_apply,
      Function.iterate_add_apply, he]
  have hinj : ∀ i ∈ List.range m, ∀ j ∈ List.range m,
      isoDate ((previousDay tz)^[i] cur) = isoDate ((previousDay tz)^[j] cur) → i = j := by
    have key : ∀ i j : Nat, i < j → j < m →
        (previousDay tz)^[i] cur ≠ (previousDay tz)^[j] cur := by
      intro i j hij hjm he
      obtain ⟨d, rfl⟩ : ∃ d, j = i + d := ⟨j - i, by omega⟩
      have hall : ∀ n : Nat, i ≤ n → continuesAt now historyMap ((previousDay tz)^[n] cur) := by
        intro n
        induction n using Nat.strong_induction_on with
        | _ n ihn =>
          intro hin
          by_cases hn : n < i + d
          · exact hgo n (by omega)
          · have e := hper i d he (n - (i + d))
            have e1 : i + d + (n - (i + d)) = n := by omega
            rw [e1] at e
            rw [← e]
            exact ihn (i + (n - (i + d))) (by omega) (by omega)
      exact hstop (hall m (by omega))
    intro i hi j hj he
    have he2 := isoDate_injective _ _ he
    rcases Nat.lt_trichotomy i j with hlt | heq | hgt
    · exact absurd he2 (key i j hlt (List.mem_range.mp hj))
    · exact heq
    · exact absurd he2.symm (key j i hgt (List.mem_range.mp hi))
  have hnd : ((List.range m).map (fun i => isoDate ((previousDay tz)^[i] cur))).Nodup :=
    List.Nodup.map_on hinj (List.nodup_range m)
  have hsub : (List.range m).map (fun i => isoDate ((previousDay tz)^[i] cur))
      ⊆ getDateString now :: objectKeys historyMap := by
    intro key hkey
    obtain ⟨i, hi, rfl⟩ := List.mem_map.mp hkey
    rcases hgo i (List.mem_range.mp hi) with ⟨-, ht⟩ | ⟨item, hs, -⟩
    · rw [ht]
      exact List.mem_cons_self _ _
    · exact List.mem_cons_of_mem _ (objGet_mem_keys _ _ _ hs)
  have hle := (hnd.subperm hsub).length_le
  simpa [objectKeys] using hle

/-- In every zone: when the loop returns a number for some number of iterations, it
returns that number for every number of iterations above the size of the map plus one. -/
theorem streakLoop_enough (tz : TimeZone) (now : Int) (historyMap : List (String × DailyRecord))
    (fuel fuel2 : Nat) (cur : Int) (streak k : Nat)
    (h : streakLoop tz now historyMap fuel cur streak = some k)
    (h2 : historyMap.length + 2 ≤ fuel2) :
    streakLoop tz now historyMap fuel2 cur streak = some k := by
  obtain ⟨m, hm, hgo, hstop⟩ := streakLoop_stops tz now historyMap fuel cur streak k h
  have hle := stop_index_le tz now historyMap cur m hgo hstop
  rw [← h]
  exact streakLoop_fuel_irrelevant tz now historyMap m cur streak fuel2 fuel hgo hstop
    (by omega) hm

/-- In every zone: `calculateStreak` returns what its loop returns with any number of
iterations, so `none` stands for a loop that never stops. -/
theorem calculateStreak_of_loop (tz : TimeZone) (now : Int) (h : List DailyRecord)
    (fuel k : Nat) (hne : (sortedDays now h).length ≠ 0)
    (hloop : streakLoop tz now (streakHistoryMap (sortedDays now h)) fuel (Day now) 0 = some k) :
    calculateStreak tz now h = some k := by
  have hlen : (streakHistoryMap (sortedDays now h)).length ≤ (sortedDays now h).length := by
    have := foldl_objSet_length (sortedDays now h) []
    simpa [streakHistoryMap] using this
  have h0 : h.length ≠ 0 := by
    intro e
    rw [List.length_eq_zero.mp e] at hne
    exact hne rfl
  unfold calculateStreak
  rw [if_neg h0]
  simp only []
  rw [if_neg hne]
  exact streakLoop_enough tz now _ fuel _ _ _ _ hloop (by omega)

/-! ## Streak: the step to the previous day across a change of offset (C1, C2, C9)

`getPreviousDateString` takes the day of the month and sets it in local time, and reads
the result back in UTC (`setDate_previous`).  With a constant offset that is the day
before (`previous_day_fixed`) and the walk is the one described (`calculateStreak_fixed`,
`calculateStreak_fixed_le`).  Where the local offset shrinks between the two days (the end
of summer time), the step from UTC midnight lands 25 hours earlier, on the day before
yesterday. -/

/-- In Europe/Madrid the day before 2025-10-27 is computed as 2025-10-25; with a constant
offset it is 2025-10-26. -/
theorem previous_day_at_end_of_summer_time :
    getPreviousDateString europeMadridAutumn2025 (Day sampleNow * msPerDay) = "2025-10-25"
      ∧ isoDate (previousDay europeMadridAutumn2025 (Day sampleNow)) = "2025-10-25"
      ∧ getPreviousDateString (TimeZone.fixed 3600000) (Day sampleNow * msPerDay)
          = "2025-10-26" := by
  decide

/-- C1 at a failing input: in Europe/Madrid on 2025-10-27, with 9/9 records for 10-27 and
10-25 and no record for 10-26, the walk counts 2 days; one day, 10-27, is the only
consecutive 9/9 day ending today, and a zone with a constant offset returns 1. -/
theorem streak_counts_across_missing_day :
    getDateString sampleNow = "2025-10-27"
      ∧ isoDate (Day sampleNow - 1) = "2025-10-26"
      ∧ (∀ r ∈ [fullDay "2025-10-27", fullDay "2025-10-25"], r.dateString ≠ "2025-10-26")
      ∧ calculateStreak europeMadridAutumn2025 sampleNow
          [fullDay "2025-10-27", fullDay "2025-10-25"] = some 2
      ∧ calculateStreak (TimeZone.fixed 3600000) sampleNow
          [fullDay "2025-10-27", fullDay "2025-10-25"] = some 1 := by
  decide

/-- C2 at a failing input: in Europe/Madrid on 2025-10-27, with no record for today nor
for yesterday (10-26) and a 9/9 record for 10-25, the result is 1, although no 9/9 day
ends at yesterday; a zone with a constant offset returns 0. -/
theorem streak_starts_before_yesterday :
    getDateString sampleNow = "2025-10-27"
      ∧ isoDate (Day sampleNow - 1) = "2025-10-26"
      ∧ (∀ r ∈ [fullDay "2025-10-25"],
          r.dateString ≠ "2025-10-27" ∧ r.dateString ≠ "2025-10-26")
      ∧ calculateStreak europeMadridAutumn2025 sampleNow [fullDay "2025-10-25"] = some 1
      ∧ calculateStreak (TimeZone.fixed 3600000) sampleNow [fullDay "2025-10-25"]
          = some 0 := by
  decide

/-- C9 at a failing input: in Europe/Madrid on 2025-10-27, with a record for 10-26 (one
day before today) whose completed count is 0 and 9/9 records for 10-27, 10-25 and 10-24,
the result is 3, above the one day after 10-26; a zone with a constant offset returns
1. -/
theorem streak_passes_incomplete_day :
    getDateString sampleNow = "2025-10-27"
      ∧ jsStrLe "2025-10-26" (getDateString sampleNow) = true
      ∧ totalCompleted { dateString := "2025-10-26" } = 0
      ∧ calculateStreak europeMadridAutumn2025 sampleNow
          [fullDay "2025-10-27", { dateString := "2025-10-26" }, fullDay "2025-10-25",
            fullDay "2025-10-24"] = some 3
      ∧ calculateStreak (TimeZone.fixed 3600000) sampleNow
          [fullDay "2025-10-27", { dateString := "2025-10-26" }, fullDay "2025-10-25",
            fullDay "2025-10-24"] = some 1 := by
  decide

/-! ## Relapse and the streak (C11) -/

theorem totalCompleted_clearRelapse (r : DailyRecord) :
    totalCompleted (clearRelapse r) = totalCompleted r := rfl

theorem pastRecords_map_clearRelapse (now : Int) (h : List DailyRecord) :
    pastRecords now (h.map clearRelapse) = (pastRecords now h).map clearRelapse := by
  simp only [pastRecords, List.filter_map]
  rfl

theorem sortedDays_map_clearRelapse (now : Int) (h : List DailyRecord) :
    sortedDays now (h.map clearRelapse) = (sortedDays now h).map clearRelapse := by
  simp only [sortedDays, pastRecords_map_clearRelapse]
  exact (List.map_insertionSort dateAscending dateAscending clearRelapse _
    (fun a _ b _ => Iff.rfl)).symm

theorem objSet_map_clearRelapse (acc : List (String × DailyRecord)) (k : String)
    (v : DailyRecord) :
    objSet (acc.map (fun p => (p.1, clearRelapse p.2))) k (clearRelapse v)
      = (objSet acc k v).map (fun p => (p.1, clearRelapse p.2)) := by
  induction acc with
  | nil => rfl
  | cons p rest ih =>
    obtain ⟨k0, v0⟩ := p
    simp only [List.map_cons, objSet]
    by_cases h0 : k0 = k
    · simp [h0]
    · simp [h0, ih]

theorem foldl_objSet_map_clearRelapse (l : List DailyRecord) (acc : List (String × DailyRecord)) :
    (l.map clearRelapse).foldl (fun acc item => objSet acc item.dateString item)
        (acc.map (fun p => (p.1, clearRelapse p.2)))
      = (l.foldl (fun acc item => objSet acc item.dateString item) acc).map
          (fun p => (p.1, clearRelapse p.2)) := by
  induction l generalizing acc with
  | nil => rfl
  | cons r rest ih =>
    simp only [List.map_cons, List.foldl_cons]
    have hk : (clearRelapse r).dateString = r.dateString := rfl
    rw [hk, objSet_map_clearRelapse, ih]

theorem streakHistoryMap_map_clearRelapse (l : List DailyRecord) :
    streakHistoryMap (l.map clearRelapse)
      = (streakHistoryMap l).map (fun p => (p.1, clearRelapse p.2)) :=
  foldl_objSet_map_clearRelapse l []

theorem objGet_map_clearRelapse (m : List (String × DailyRecord)) (key : String) :
    objGet (m.map (fun p => (p.1, clearRelapse p.2))) key
      = (objGet m key).map clearRelapse := by
  induction m with
  | nil => rfl
  | cons p rest ih =>
    obtain ⟨k0, v0⟩ := p
    simp only [List.map_cons, objGet]
    by_cases h0 : k0 = key
    · simp [h0]
    · simp [h0, ih]

theorem streakLoop_map_clearRelapse (tz : TimeZone) (now : Int)
    (m : List (String × DailyRecord)) (fuel : Nat) : ∀ (cur : Int) (streak : Nat),
    streakLoop tz now (m.map (fun p => (p.1, clearRelapse p.2))) fuel cur streak
      = streakLoop tz now m fuel cur streak := by
  induction fuel with
  | zero => intro cur streak; rfl
  | succ fuel ih =>
    intro cur streak
    rw [streakLoop_succ, streakLoop_succ, objGet_map_clearRelapse]
    cases objGet m (isoDate cur) with
    | none => simp only [Option.map_none', ih]
    | some item => simp only [Option.map_some', ih, totalCompleted_clearRelapse]

/-- In every zone the streak of a history is the streak of the history with every
`hasRelapsed` set to false. -/
theorem calculateStreak_map_clearRelapse (tz : TimeZone) (now : Int) (h : List DailyRecord) :
    calculateStreak tz now (h.map clearRelapse) = calculateStreak tz now h := by
  unfold calculateStreak
  simp only [sortedDays_map_clearRelapse, streakHistoryMap_map_clearRelapse,
    streakLoop_map_clearRelapse, List.length_map]

theorem map_clearRelapse_eq_of_agree (h1 h2 : List DailyRecord)
    (hagree : List.Forall₂ agreeExceptRelapse h1 h2) :
    h1.map clearRelapse = h2.map clearRelapse := by
  induction hagree with
  | nil => rfl
  | cons hab _ ih =>
    rename_i a b l1 l2
    simp only [List.map_cons, ih]
    congr 1
    unfold agreeExceptRelapse at hab
    rw [← hab]
    rfl

/-- C11: relapse does not by itself break the streak: in every zone and at every instant,
two histories that differ only in the `hasRelapsed` values of their records (same length,
and record by record the same fields apart from `hasRelapsed`) get the same result from
`calculateStreak`. -/
theorem streak_ignores_relapse (tz : TimeZone) (now : Int) (h1 h2 : List DailyRecord)
    (hagree : List.Forall₂ agreeExceptRelapse h1 h2) :
    calculateStreak tz now h1 = calculateStreak tz now h2 := by
  rw [← calculateStreak_map_clearRelapse tz now h1, ← calculateStreak_map_clearRelapse tz now h2,
    map_clearRelapse_eq_of_agree h1 h2 hagree]

/-- C11 at two 9/9 days, relapsed in one history and not in the other: the streak is 2 in
both. -/
theorem streak_ignores_relapse_witness :
    List.Forall₂ agreeExceptRelapse
        [fullDay "2025-10-27", fullDay "2025-10-26"]
        [relapsedFullDay "2025-10-27", relapsedFullDay "2025-10-26"]
      ∧ calculateStreak (TimeZone.fixed 0) sampleNow [fullDay "2025-10-27", fullDay "2025-10-26"]
          = some 2
      ∧ calculateStreak (TimeZone.fixed 0) sampleNow [fullDay "2025-10-27", fullDay "2025-10-26"]
          = calculateStreak (TimeZone.fixed 0) sampleNow
              [relapsedFullDay "2025-10-27", relapsedFullDay "2025-10-26"] :=
  ⟨List.Forall₂.cons (by decide) (List.Forall₂.cons (by decide) List.Forall₂.nil), by decide,
    streak_ignores_relapse (TimeZone.fixed 0) sampleNow _ _
      (List.Forall₂.cons (by decide) (List.Forall₂.cons (by decide) List.Forall₂.nil))⟩

/-! ## The two gates of the handlers (C12, C13) -/

/-- C12: each of the six content handlers (check-in, goal, risk, relapse, rehab
communication, notes) returns the state unchanged and issues no store write when
`isLocked` is true or the selected date is after today, whatever its argument and
whatever the store would answer. -/
theorem gated_handlers_do_nothing (now : Int) (writeOk : Bool)
    (goalId statusValue newNotes : String) (s : AppState)
    (hgate : s.day.isLocked = true ∨ jsStrGt s.selectedDate (getDateString now) = true) :
    handleDailyCheckIn now writeOk s = ⟨s, []⟩
      ∧ handleToggleFixedGoal now writeOk goalId s = ⟨s, []⟩
      ∧ handleSetEmotionalStatus now writeOk statusValue s = ⟨s, []⟩
      ∧ handleToggleRelapse now writeOk s = ⟨s, []⟩
      ∧ handleToggleRehabCommunication now writeOk s = ⟨s, []⟩
      ∧ handleUpdateNotes now writeOk newNotes s = ⟨s, []⟩ := by
  have hg : (s.day.isLocked || isFutureDate now s) = true := by
    rcases hgate with h | h
    · simp [h]
    · simp [isFutureDate, h]
  refine ⟨?_, ?_, ?_, ?_, ?_, ?_⟩
  · unfold handleDailyCheckIn
    cases sessionUser s with
    | none => rfl
    | some u => simp only [hg, if_true]
  · unfold handleToggleFixedGoal
    cases sessionUser s with
    | none => rfl
    | some u => simp only [hg, if_true]
  · unfold handleSetEmotionalStatus
    cases sessionUser s with
    | none => rfl
    | some u => simp only [hg, if_true]
  · unfold handleToggleRelapse
    cases sessionUser s with
    | none => rfl
    | some u => simp only [hg, if_true]
  · unfold handleToggleRehabCommunication
    cases sessionUser s with
    | none => rfl
    | some u => simp only [hg, if_true]
  · unfold handleUpdateNotes
    cases sessionUser s with
    | none => rfl
    | some u => simp only [hg, if_true]

/-- C12 at a signed-in state whose day is locked, on today's date. -/
theorem gated_handlers_do_nothing_witness :
    sessionUser (signedInState "2025-10-27" { isLocked := true }) = some "sup-1"
      ∧ isFutureDate sampleNow (signedInState "2025-10-27" { isLocked := true }) = false
      ∧ handleDailyCheckIn sampleNow true (signedInState "2025-10-27" { isLocked := true })
          = ⟨signedInState "2025-10-27" { isLocked := true }, []⟩
      ∧ handleUpdateNotes sampleNow true "nota" (signedInState "2025-10-27" { isLocked := true })
          = ⟨signedInState "2025-10-27" { isLocked := true }, []⟩ :=
  ⟨by decide, by decide,
    (gated_handlers_do_nothing sampleNow true "salida_casa" "ALTO" "nota"
      (signedInState "2025-10-27" { isLocked := true }) (Or.inl (by decide))).1,
    (gated_handlers_do_nothing sampleNow true "salida_casa" "ALTO" "nota"
      (signedInState "2025-10-27" { isLocked := true }) (Or.inl (by decide))).2.2.2.2.2⟩

/-- C13, as stated, fails: before a user is signed in, `handleToggleLock` on tomorrow's
date sets no error message, and on today's date it issues no write. -/
theorem toggle_lock_without_session :
    jsStrGt (signedOutState "2025-10-28" {}).selectedDate (getDateString sampleNow) = true
      ∧ (handleToggleLock sampleNow true (signedOutState "2025-10-28" {})).state.error = none
      ∧ jsStrGt (signedOutState "2025-10-27" {}).selectedDate (getDateString sampleNow) = false
      ∧ (handleToggleLock sampleNow true (signedOutState "2025-10-27" {})).writes = [] := by
  decide

/-- The guard `!db || !userId || !selectedDate` holds exactly when the database handle is
missing, no user is signed in (`null` or an empty id) or the selected date is empty. -/
theorem sessionUser_eq_none_iff (s : AppState) :
    sessionUser s = none
      ↔ s.db = false ∨ s.userId = none ∨ s.userId = some "" ∨ s.selectedDate = "" := by
  unfold sessionUser
  cases hu : s.userId with
  | none => simp
  | some u =>
    cases hdb : s.db with
    | false => simp
    | true =>
      by_cases h1 : u = ""
      · simp [h1]
      · by_cases h2 : s.selectedDate = ""
        · simp [h2]
        · simp [h1, h2]

/-- C13, amended: without a database handle, a signed-in user or a selected date,
`handleToggleLock` returns at once: no write, no error message, the state as it was, for
every date.  With them, on a date strictly after today it issues no store write and sets
the error message, whatever `isLocked` is; on a date on or before today it issues exactly
one merge write, to the document of the user and date, with `isLocked` set to the negation
of the current `isLocked`; the state changes only by the error message of a failed
write. -/
theorem toggle_lock_spec (now : Int) (writeOk : Bool) (s : AppState) :
    ((s.db = false ∨ s.userId = none ∨ s.userId = some "" ∨ s.selectedDate = "") →
        handleToggleLock now writeOk s = ⟨s, []⟩)
      ∧ (sessionUser s = none
          ↔ s.db = false ∨ s.userId = none ∨ s.userId = some "" ∨ s.selectedDate = "")
      ∧ ∀ userId : String, sessionUser s = some userId →
        (jsStrGt s.selectedDate (getDateString now) = true →
          handleToggleLock now writeOk s = ⟨{ s with error := some futureLockMessage }, []⟩)
        ∧ (jsStrGt s.selectedDate (getDateString now) = false →
          (handleToggleLock now writeOk s).writes
              = [mergeWrite s userId "isLocked"
                  (PatchValue.val (JSVal.bool (!s.day.isLocked)))]
            ∧ (handleToggleLock now true s).state = s
            ∧ (handleToggleLock now writeOk s).state.day = s.day) := by
  refine ⟨?_, sessionUser_eq_none_iff s, ?_⟩
  · intro hmissing
    have hnone := (sessionUser_eq_none_iff s).mpr hmissing
    simp only [handleToggleLock, hnone]
  · intro userId hsession
    constructor
    · intro hfut
      simp only [handleToggleLock, hsession, hfut, if_true]
    · intro hpast
      simp only [handleToggleLock, hsession, hpast, Bool.false_eq_true, if_false, afterWrite,
        if_true, true_and]
      cases writeOk <;> simp

/-- C13, amended, at a signed-in state: tomorrow, locked or not, gives the message and no
write; today gives one write that locks the day; without a database handle, and before a
user is signed in, tomorrow gives neither a write nor a message. -/
theorem toggle_lock_spec_witness :
    handleToggleLock sampleNow true (signedInState "2025-10-28" { isLocked := true })
        = ⟨{ signedInState "2025-10-28" { isLocked := true } with
              error := some futureLockMessage }, []⟩
      ∧ handleToggleLock sampleNow true (signedInState "2025-10-28" { isLocked := false })
        = ⟨{ signedInState "2025-10-28" { isLocked := false } with
              error := some futureLockMessage }, []⟩
      ∧ (handleToggleLock sampleNow true (signedInState "2025-10-27" {})).writes
        = [{ collection := "/artifacts/default-app-id/public/data/daily_status",
             docId := "sup-1-2025-10-27",
             patch := [("isLocked", PatchValue.val (JSVal.bool true)),
               ("userId", PatchValue.val (JSVal.str "sup-1")),
               ("timestamp", PatchValue.serverTimestamp),
               ("dateString", PatchValue.val (JSVal.str "2025-10-27"))],
             merge := true }]
      ∧ handleToggleLock sampleNow true
          { db := false, userId := some "sup-1", selectedDate := "2025-10-28" }
        = ⟨{ db := false, userId := some "sup-1", selectedDate := "2025-10-28" }, []⟩
      ∧ handleToggleLock sampleNow true (signedOutState "2025-10-28" {})
        = ⟨signedOutState "2025-10-28" {}, []⟩ :=
  ⟨((toggle_lock_spec sampleNow true (signedInState "2025-10-28" { isLocked := true })).2.2
      "sup-1" (by decide)).1 (by decide),
    ((toggle_lock_spec sampleNow true (signedInState "2025-10-28" { isLocked := false })).2.2
      "sup-1" (by decide)).1 (by decide),
    (((toggle_lock_spec sampleNow true (signedInState "2025-10-27" {})).2.2 "sup-1"
      (by decide)).2 (by decide)).1,
    (toggle_lock_spec sampleNow true
      { db := false, userId := some "sup-1", selectedDate := "2025-10-28" }).1 (Or.inl rfl),
    (toggle_lock_spec sampleNow true (signedOutState "2025-10-28" {})).1 (Or.inr (Or.inl rfl))⟩

/-! ## CSV export: lines (C14) -/

theorem lineFeeds_append (a b : String) : lineFeeds (a ++ b) = lineFeeds a + lineFeeds b := by
  simp [lineFeeds, String.data_append, List.count_append]

theorem lineFeeds_jsJoin (sep : String) (l : List String) :
    lineFeeds (jsJoin sep l) = (l.map lineFeeds).sum + (l.length - 1) * lineFeeds sep := by
  induction l with
  | nil => simp [jsJoin, lineFeeds]
  | cons a rest ih =>
    cases rest with
    | nil => simp [jsJoin]
    | cons b rest2 =>
      simp only [jsJoin, lineFeeds_append, ih, List.map_cons, List.sum_cons, List.length_cons]
      simp only [Nat.add_sub_cancel]
      ring

theorem count_lineFeed_doubleQuotes (l : List Char) :
    (doubleQuotes l).count lineFeed = l.count lineFeed := by
  induction l with
  | nil => rfl
  | cons c rest ih =>
    simp only [doubleQuotes]
    by_cases hc : c = quoteChar
    · have hq : quoteChar ≠ lineFeed := by decide
      subst hc
      simp [List.count_cons, ih, hq]
    · simp [hc, List.count_cons, ih]

theorem lineFeeds_csvNotes (item : DailyRecord) :
    lineFeeds (csvNotes item) = lineFeeds (item.notes.getD "") := by
  have hq : quoteChar ≠ lineFeed := by decide
  simp [lineFeeds, csvNotes, List.count_cons, List.count_append, count_lineFeed_doubleQuotes, hq]

theorem lineFeeds_siNo (b : Bool) : lineFeeds (siNo b) = 0 := by
  cases b <;> decide

theorem lineFeeds_csvLine (item : DailyRecord) :
    lineFeeds (csvLine item) = fieldLineFeeds item := by
  have hc : lineFeeds "," = 0 := by decide
  simp only [csvLine, lineFeeds_jsJoin, hc, Nat.mul_zero, Nat.add_zero, csvRow, FIXED_DAILY_GOALS,
    List.map_cons, List.map_nil, List.cons_append, List.nil_append, List.sum_cons, List.sum_nil,
    lineFeeds_siNo, lineFeeds_csvNotes, fieldLineFeeds]
  omega

theorem lineFeeds_csvContent (h : List DailyRecord) :
    lineFeeds (csvContent h) = (h.map fieldLineFeeds).sum + (h.length - 1) := by
  have hl : lineFeeds (String.mk [lineFeed]) = 1 := by decide
  have hf : lineFeeds ∘ csvLine = fieldLineFeeds := funext lineFeeds_csvLine
  simp only [csvContent, lineFeeds_jsJoin, hl, Nat.mul_one, List.map_map, List.length_map, hf]

theorem lineCount_three (a b c : String) :
    lineCount (a ++ b ++ c) = lineFeeds a + lineFeeds b + lineFeeds c + 1 := by
  simp only [lineCount, lineFeeds_append]

theorem exportToCSV_cons (item : DailyRecord) (rest : List DailyRecord) :
    exportToCSV (item :: rest)
      = some (jsJoin "," csvHeaders ++ String.mk [lineFeed] ++ csvContent (item :: rest)) := by
  unfold exportToCSV
  rw [if_neg (by rw [List.length_cons]; exact Nat.succ_ne_zero _)]

/-- The number of lines of the export of a history that is not empty. -/
theorem exportToCSV_lineCount (item : DailyRecord) (rest : List DailyRecord) :
    (exportToCSV (item :: rest)).map lineCount
      = some (rest.length + 2 + ((item :: rest).map fieldLineFeeds).sum) := by
  have hhead : lineFeeds (jsJoin "," csvHeaders) = 0 := by decide
  have hl : lineFeeds (String.mk [lineFeed]) = 1 := by decide
  have h3 := lineCount_three (jsJoin "," csvHeaders) (String.mk [lineFeed])
    (csvContent (item :: rest))
  have hc := lineFeeds_csvContent (item :: rest)
  rw [exportToCSV_cons, Option.map_some']
  refine congrArg some ?_
  rw [h3, hc, hhead, hl, List.length_cons]
  omega

/-- C14, as stated, fails: one record whose notes hold a line feed is exported as a text
of three lines, not two. -/
theorem csv_lines_with_line_feed_in_notes :
    (exportToCSV [twoLineNotesDay "2025-10-27"]).map lineCount = some 3
      ∧ [twoLineNotesDay "2025-10-27"].length = 1 := by
  refine ⟨?_, rfl⟩
  rw [exportToCSV_lineCount]
  decide

/-- C14, amended: the export of a history of N >= 1 records is a text of N + 1 lines plus
one line for every line feed in the date, the emotional status or the notes of a record;
it has exactly N + 1 lines when none of these fields of any record holds a line feed. -/
theorem csv_line_count (h : List DailyRecord) (hne : h ≠ []) :
    ∃ csv, exportToCSV h = some csv
      ∧ lineCount csv = h.length + 1 + (h.map fieldLineFeeds).sum
      ∧ ((∀ item ∈ h, fieldLineFeeds item = 0) → lineCount csv = h.length + 1) := by
  obtain ⟨item, rest, rfl⟩ := List.exists_cons_of_ne_nil hne
  have hmap := exportToCSV_lineCount item rest
  have hsome := exportToCSV_cons item rest
  rw [hsome, Option.map_some', Option.some.injEq] at hmap
  have hcount : lineCount (jsJoin "," csvHeaders ++ String.mk [lineFeed]
      ++ csvContent (item :: rest))
      = (item :: rest).length + 1 + ((item :: rest).map fieldLineFeeds).sum := by
    rw [hmap, List.length_cons]
  refine ⟨_, hsome, hcount, ?_⟩
  intro hzero
  rw [hcount]
  have hsum : ((item :: rest).map fieldLineFeeds).sum = 0 := by
    apply List.sum_eq_zero
    intro n hn
    obtain ⟨item, hitem, rfl⟩ := List.mem_map.mp hn
    exact hzero item hitem
  omega

/-- C14, amended, at a history of two records without line feeds: three lines. -/
theorem csv_line_count_witness :
    [fullDay "2025-10-27", sixPointDay "2025-10-26"] ≠ []
      ∧ (∀ item ∈ [fullDay "2025-10-27", sixPointDay "2025-10-26"], fieldLineFeeds item = 0)
      ∧ ∃ csv, exportToCSV [fullDay "2025-10-27", sixPointDay "2025-10-26"] = some csv
          ∧ lineCount csv = 2 + 1 + ([fullDay "2025-10-27", sixPointDay "2025-10-26"].map
              fieldLineFeeds).sum
          ∧ ((∀ item ∈ [fullDay "2025-10-27", sixPointDay "2025-10-26"],
              fieldLineFeeds item = 0) → lineCount csv = 2 + 1) :=
  ⟨by decide, by decide,
    csv_line_count [fullDay "2025-10-27", sixPointDay "2025-10-26"] (by decide)⟩

/-! ## CSV export: notes, tokens and columns (C15, C16, C17) -/

theorem doubleQuotes_eq_nil (l : List Char) (h : doubleQuotes l = []) : l = [] := by
  cases l with
  | nil => rfl
  | cons c rest =>
    simp only [doubleQuotes] at h
    split at h <;> simp at h

theorem collapseQuotes_doubleQuotes (l : List Char) : collapseQuotes (doubleQuotes l) = l := by
  induction l with
  | nil => rfl
  | cons c rest ih =>
    simp only [doubleQuotes]
    by_cases hc : c = quoteChar
    · rw [if_pos hc, collapseQuotes, if_pos ⟨rfl, rfl⟩, ih, hc]
    · rw [if_neg hc]
      cases hd : doubleQuotes rest with
      | nil =>
        rw [doubleQuotes_eq_nil rest hd]
        rfl
      | cons d more =>
        rw [collapseQuotes, if_neg (fun h => hc h.1), ← hd, ih]

/-- The doubling of quotes written with `flatMap`: every quote becomes two, every other
character stays. -/
theorem doubleQuotes_eq_flatMap (l : List Char) :
    doubleQuotes l = l.flatMap (fun c => if c = quoteChar then [quoteChar, quoteChar] else [c]) := by
  induction l with
  | nil => rfl
  | cons c rest ih =>
    simp only [doubleQuotes, List.flatMap_cons, ih]
    split <;> rfl

/-- C15: the notes column of every row is the notes of the record (the empty string when
absent) with every double quote doubled, between two double quotes; stripping the outer
quotes and collapsing the doubled quotes gives back the notes, so records with different
notes have different notes columns. -/
theorem notes_column_roundtrip (item : DailyRecord) :
    (csvRow item)[6]? = some (csvNotes item)
      ∧ (csvNotes item).data
          = [quoteChar]
            ++ (item.notes.getD "").data.flatMap
                (fun c => if c = quoteChar then [quoteChar, quoteChar] else [c])
            ++ [quoteChar]
      ∧ readQuotedField (csvNotes item) = item.notes.getD ""
      ∧ ∀ other : DailyRecord, csvNotes item = csvNotes other →
          item.notes.getD "" = other.notes.getD "" := by
  have hread : ∀ r : DailyRecord, readQuotedField (csvNotes r) = r.notes.getD "" := by
    intro r
    simp only [readQuotedField, csvNotes, List.drop_succ_cons, List.drop_zero,
      List.dropLast_concat, collapseQuotes_doubleQuotes]
  refine ⟨rfl, ?_, hread item, ?_⟩
  · simp only [csvNotes, doubleQuotes_eq_flatMap, List.singleton_append, List.cons_append,
      List.nil_append]
  · intro other h
    rw [← hread item, ← hread other, h]

/-- C16: in every row the check-in, relapse, rehab-communication and lock columns and the
eight goal columns hold `SI` or `NO`, `SI` exactly when the field is true (for a goal:
when the stored value is truthy, which for a boolean value is the value `true`; a goal
without a stored value gives `NO`); the emotional-status column holds the status of the
record, or `NULO` when the status is missing or empty. -/
theorem row_tokens (item : DailyRecord) :
    ((csvRow item)[1]? = some (siNo item.checkedIn)
        ∧ (csvRow item)[3]? = some (siNo item.hasRelapsed)
        ∧ (csvRow item)[4]? = some (siNo item.hasCommunicatedWithRehab)
        ∧ (csvRow item)[5]? = some (siNo item.isLocked)
        ∧ ∀ i : Nat, ∀ goal, FIXED_DAILY_GOALS[i]? = some goal →
            (csvRow item)[7 + i]? = some (siNo (goalTruthy item goal.id)))
      ∧ (∀ b : Bool, (siNo b = "SI" ∨ siNo b = "NO") ∧ (siNo b = "SI" ↔ b = true))
      ∧ (∀ goalId : String,
          (goalTruthy item goalId = true ↔
            ∃ goals v, item.fixedGoalsStatus = some goals ∧ objGet goals goalId = some v
              ∧ v.truthy = true)
          ∧ ∀ goals b, item.fixedGoalsStatus = some goals →
              objGet goals goalId = some (JSVal.bool b) →
              (siNo (goalTruthy item goalId) = "SI" ↔ b = true))
      ∧ (csvRow item)[2]? = some (csvEmotionalStatus item)
      ∧ (∀ status : String, item.emotionalStatus = some status → status ≠ "" →
          csvEmotionalStatus item = status)
      ∧ (item.emotionalStatus = none ∨ item.emotionalStatus = some "" →
          csvEmotionalStatus item = "NULO") := by
  have hsi : ∀ b : Bool, (siNo b = "SI" ∨ siNo b = "NO") ∧ (siNo b = "SI" ↔ b = true) := by
    intro b
    cases b <;> decide
  refine ⟨⟨rfl, rfl, rfl, rfl, ?_⟩, hsi, ?_, rfl, ?_, ?_⟩
  · intro i goal hgoal
    have hrow : csvRow item
        = [item.dateString, siNo item.checkedIn, csvEmotionalStatus item, siNo item.hasRelapsed,
            siNo item.hasCommunicatedWithRehab, siNo item.isLocked, csvNotes item]
          ++ FIXED_DAILY_GOALS.map (fun goal => siNo (goalTruthy item goal.id)) := rfl
    rw [hrow, List.getElem?_append_right (by simp)]
    simp only [List.length_cons, List.length_nil, Nat.zero_add, Nat.reduceAdd,
      Nat.add_sub_cancel_left, List.getElem?_map, hgoal, Option.map_some']
  · intro goalId
    constructor
    · unfold goalTruthy
      cases hg : item.fixedGoalsStatus with
      | none => simp
      | some goals =>
        cases hv : objGet goals goalId with
        | none => simp [hv]
        | some v => simp [hv]
    · intro goals b hgoals hget
      rw [(hsi _).2]
      unfold goalTruthy
      rw [hgoals]
      simp only [hget, JSVal.truthy]
  · intro status hs hne
    simp [csvEmotionalStatus, hs, hne]
  · intro h
    rcases h with h | h <;> simp [csvEmotionalStatus, h]

theorem takeWhile_before_lineFeed (l r : List Char) (hl : l.count lineFeed = 0) :
    (l ++ lineFeed :: r).takeWhile (fun c => c != lineFeed) = l := by
  induction l with
  | nil => simp [List.takeWhile]
  | cons c rest ih =>
    have hc : c ≠ lineFeed := by
      intro e
      rw [e, List.count_cons_self] at hl
      omega
    have hrest : rest.count lineFeed = 0 := by
      rw [List.count_cons_of_ne (Ne.symm hc)] at hl
      exact hl
    have hb : (c != lineFeed) = true := by simpa using hc
    simp only [List.cons_append, List.takeWhile_cons, hb, if_true, ih hrest]

theorem firstLine_append (a b : String) (ha : lineFeeds a = 0) :
    firstLine (a ++ String.mk [lineFeed] ++ b) = a := by
  unfold firstLine
  rw [String.ext_iff]
  simp only [String.data_append, List.append_assoc, List.singleton_append]
  exact takeWhile_before_lineFeed a.data b.data ha

/-- C15 at a record whose notes hold a quoted word. -/
theorem notes_column_roundtrip_witness :
    csvNotes (quotedNotesDay "2025-10-27")
        = String.mk [quoteChar, quoteChar, quoteChar, 'o', 'k', quoteChar, quoteChar, quoteChar]
      ∧ readQuotedField (csvNotes (quotedNotesDay "2025-10-27"))
        = String.mk [quoteChar, 'o', 'k', quoteChar] :=
  ⟨by decide, (notes_column_roundtrip (quotedNotesDay "2025-10-27")).2.2.1⟩

/-- C16 at a record with check-in and five goals done: `SI` for the check-in and the first
goal, `NO` for the relapse and the sixth goal, `NULO` for the missing status. -/
theorem row_tokens_witness :
    (csvRow (sixPointDay "2025-10-27"))[1]? = some "SI"
      ∧ (csvRow (sixPointDay "2025-10-27"))[3]? = some "NO"
      ∧ (csvRow (sixPointDay "2025-10-27"))[7 + 0]? = some "SI"
      ∧ (csvRow (sixPointDay "2025-10-27"))[7 + 5]? = some "NO"
      ∧ csvEmotionalStatus (sixPointDay "2025-10-27") = "NULO" :=
  ⟨(row_tokens (sixPointDay "2025-10-27")).1.1,
    (row_tokens (sixPointDay "2025-10-27")).1.2.1,
    (row_tokens (sixPointDay "2025-10-27")).1.2.2.2.2 0 _ rfl,
    (row_tokens (sixPointDay "2025-10-27")).1.2.2.2.2 5 _ rfl,
    (row_tokens (sixPointDay "2025-10-27")).2.2.2.2.2 (Or.inl rfl)⟩

theorem splitColumns_append (f : List Char) : ∀ (q q2 : Bool) (cur rest : List Char),
    scanColumn q f = some q2 →
    splitColumns q cur (f ++ rest) = splitColumns q2 (cur ++ f) rest := by
  induction f with
  | nil =>
    intro q q2 cur rest h
    simp only [scanColumn, Option.some.injEq] at h
    simp [h]
  | cons c more ih =>
    intro q q2 cur rest h
    rw [scanColumn] at h
    rw [List.cons_append, splitColumns]
    have hcur : cur ++ [c] ++ more = cur ++ c :: more := by simp
    by_cases hq : c = quoteChar
    · rw [if_pos hq] at h
      rw [if_pos hq, ih _ _ _ _ h, hcur]
    · rw [if_neg hq] at h
      by_cases hc : c = ',' ∧ q = false
      · rw [if_pos hc] at h
        exact absurd h (by simp)
      · rw [if_neg hc] at h
        rw [if_neg hq, if_neg hc, ih _ _ _ _ h, hcur]

/-- A line made of columns that each end outside quotes, joined by commas, is read back as
these columns. -/
theorem readColumns_jsJoin (fields : List String) (hne : fields ≠ [])
    (hclosed : ∀ f ∈ fields, scanColumn false f.data = some false) :
    readColumns (jsJoin "," fields) = fields := by
  unfold readColumns
  induction fields with
  | nil => exact absurd rfl hne
  | cons a rest ih =>
    cases rest with
    | nil =>
      have h := splitColumns_append a.data false false [] [] (hclosed a (List.mem_cons_self _ _))
      simp only [List.append_nil, List.nil_append] at h
      simp only [jsJoin, h, splitColumns, List.map_cons, List.map_nil]
    | cons b more =>
      have ha := splitColumns_append a.data false false []
        (',' :: (jsJoin "," (b :: more)).data) (hclosed a (List.mem_cons_self _ _))
      have hrest := ih (by simp) (fun f hf => hclosed f (List.mem_cons_of_mem _ hf))
      have hcomma : ("," : String).data = [','] := rfl
      have hcq : ¬ (',' = quoteChar) := by decide
      rw [List.nil_append] at ha
      simp only [jsJoin, String.data_append, hcomma, List.append_assoc, List.singleton_append,
        ha, splitColumns, if_neg hcq, and_self, if_true, List.map_cons, hrest]

theorem scanColumn_plain (s : String) (h : plainText s) :
    scanColumn false s.data = some false := by
  unfold plainText at h
  generalize s.data = l at h
  induction l with
  | nil => rfl
  | cons c rest ih =>
    have hc := h c (List.mem_cons_self _ _)
    rw [scanColumn, if_neg hc.1, if_neg (fun e : c = ',' ∧ false = false => hc.2 e.1)]
    exact ih (fun d hd => h d (List.mem_cons_of_mem _ hd))

theorem scanColumn_doubleQuotes (l rest : List Char) :
    scanColumn true (doubleQuotes l ++ rest) = scanColumn true rest := by
  induction l with
  | nil => rfl
  | cons c more ih =>
    simp only [doubleQuotes]
    by_cases hq : c = quoteChar
    · simp only [if_pos hq, List.cons_append, scanColumn, if_true, Bool.not_true, Bool.not_false,
        ih]
    · simp only [if_neg hq, List.cons_append, scanColumn]
      rw [if_neg (by simp), ih]

theorem scanColumn_csvNotes (item : DailyRecord) :
    scanColumn false (csvNotes item).data = some false := by
  simp only [csvNotes, scanColumn, if_true, Bool.not_false, scanColumn_doubleQuotes,
    Bool.not_true]

theorem scanColumn_siNo (b : Bool) : scanColumn false (siNo b).data = some false := by
  cases b <;> decide

/-- The line of a record whose date and status are plain text is read back as the columns
of its row. -/
theorem readColumns_csvLine (item : DailyRecord) (hdate : plainText item.dateString)
    (hstatus : plainText (csvEmotionalStatus item)) :
    readColumns (csvLine item) = csvRow item := by
  apply readColumns_jsJoin
  · simp [csvRow]
  · intro f hf
    simp only [csvRow, FIXED_DAILY_GOALS, List.map_cons, List.map_nil, List.cons_append,
      List.nil_append, List.mem_cons, List.mem_nil_iff, or_false] at hf
    rcases hf with h | h | h | h | h | h | h | h | h | h | h | h | h | h | h <;> subst h
    · exact scanColumn_plain _ hdate
    · exact scanColumn_siNo _
    · exact scanColumn_plain _ hstatus
    · exact scanColumn_siNo _
    · exact scanColumn_siNo _
    · exact scanColumn_siNo _
    · exact scanColumn_csvNotes _
    all_goals exact scanColumn_siNo _

/-- C17: the first line of the exported text is the header `Fecha, Check_In_Apoyo,
Emotional_Status, Has_Relapsed, Rehab_Communication, Is_Locked, Notes` followed by the
eight goal ids in catalog order, joined by commas; the header and every row have 15
columns, and column by column the row holds the field that the header names; the line of
a record whose date and status hold neither comma nor quote, read as CSV (commas outside
quotes separate), gives back these 15 columns, whatever the notes are. -/
theorem header_and_columns (item : DailyRecord) (rest : List DailyRecord) :
    (exportToCSV (item :: rest)).map firstLine
        = some ("Fecha,Check_In_Apoyo,Emotional_Status,Has_Relapsed,Rehab_Communication,"
            ++ "Is_Locked,Notes,salida_casa,entrada_trabajo,salida_trabajo,entrada_grupo,"
            ++ "salida_grupo,llegada_casa,pastilla_21hs,llamada_fin_dia")
      ∧ csvHeaders
        = ["Fecha", "Check_In_Apoyo", "Emotional_Status", "Has_Relapsed", "Rehab_Communication",
            "Is_Locked", "Notes"] ++ FIXED_DAILY_GOALS.map FixedGoal.id
      ∧ csvHeaders.length = 15
      ∧ readColumns (jsJoin "," csvHeaders) = csvHeaders
      ∧ (∀ r : DailyRecord, (csvRow r).length = 15)
      ∧ (∀ r : DailyRecord, csvHeaders.zip (csvRow r)
          = [("Fecha", r.dateString), ("Check_In_Apoyo", siNo r.checkedIn),
              ("Emotional_Status", csvEmotionalStatus r), ("Has_Relapsed", siNo r.hasRelapsed),
              ("Rehab_Communication", siNo r.hasCommunicatedWithRehab),
              ("Is_Locked", siNo r.isLocked), ("Notes", csvNotes r)]
            ++ FIXED_DAILY_GOALS.map (fun goal => (goal.id, siNo (goalTruthy r goal.id))))
      ∧ ∀ r : DailyRecord, plainText r.dateString → plainText (csvEmotionalStatus r) →
          readColumns (csvLine r) = csvRow r ∧ (readColumns (csvLine r)).length = 15 := by
  refine ⟨?_, rfl, rfl, ?_, fun r => rfl, fun r => rfl, ?_⟩
  · have hhead : lineFeeds (jsJoin "," csvHeaders) = 0 := by decide
    have hlit : jsJoin "," csvHeaders
        = "Fecha,Check_In_Apoyo,Emotional_Status,Has_Relapsed,Rehab_Communication,"
          ++ "Is_Locked,Notes,salida_casa,entrada_trabajo,salida_trabajo,entrada_grupo,"
          ++ "salida_grupo,llegada_casa,pastilla_21hs,llamada_fin_dia" := by rfl
    rw [exportToCSV_cons, Option.map_some', firstLine_append _ _ hhead, hlit]
  · apply readColumns_jsJoin
    · decide
    · intro f hf
      exact scanColumn_plain f (by revert f hf; decide)
  · intro r hdate hstatus
    have h := readColumns_csvLine r hdate hstatus
    rw [h]
    exact ⟨rfl, rfl⟩

/-- C17 at a record whose notes hold commas and quotes: its line still reads as 15
columns, the seventh being the quoted notes. -/
theorem header_and_columns_witness :
    plainText (commaNotesDay "2025-10-27").dateString
      ∧ plainText (csvEmotionalStatus (commaNotesDay "2025-10-27"))
      ∧ (readColumns (csvLine (commaNotesDay "2025-10-27"))).length = 15
      ∧ (readColumns (csvLine (commaNotesDay "2025-10-27")))[6]?
          = some (csvNotes (commaNotesDay "2025-10-27")) := by
  have h := (header_and_columns (commaNotesDay "2025-10-27") []).2.2.2.2.2.2
    (commaNotesDay "2025-10-27") (by decide) (by decide)
  refine ⟨by decide, by decide, h.2, ?_⟩
  rw [h.1]
  rfl

/-! ## Order of the history and of the CSV rows (C18) -/

theorem lexLt_asymm (a : List Nat) : ∀ b : List Nat, lexLt a b = true → lexLt b a = false := by
  induction a with
  | nil =>
    intro b h
    cases b <;> simp [lexLt] at h ⊢
  | cons x xs ih =>
    intro b h
    cases b with
    | nil => simp [lexLt] at h
    | cons y ys =>
      simp only [lexLt, Bool.or_eq_true, Bool.and_eq_true, decide_eq_true_eq, beq_iff_eq] at h
      simp only [lexLt, Bool.or_eq_false_iff, Bool.and_eq_false_imp, decide_eq_false_iff_not,
        beq_iff_eq]
      rcases h with h | ⟨h1, h2⟩
      · exact ⟨by omega, fun e => by omega⟩
      · exact ⟨by omega, fun _ => ih ys h2⟩

theorem lexLt_cotrans (a : List Nat) :
    ∀ b c : List Nat, lexLt a c = true → lexLt a b = true ∨ lexLt b c = true := by
  induction a with
  | nil =>
    intro b c h
    cases c with
    | nil => simp [lexLt] at h
    | cons z zs =>
      cases b with
      | nil => right; simp [lexLt]
      | cons y ys => left; simp [lexLt]
  | cons x xs ih =>
    intro b c h
    cases c with
    | nil => simp [lexLt] at h
    | cons z zs =>
      cases b with
      | nil => right; simp [lexLt]
      | cons y ys =>
        simp only [lexLt, Bool.or_eq_true, Bool.and_eq_true, decide_eq_true_eq, beq_iff_eq] at h ⊢
        rcases h with h | ⟨h1, h2⟩
        · by_cases hxy : x < y
          · exact Or.inl (Or.inl hxy)
          · by_cases hyz : y < z
            · exact Or.inr (Or.inl hyz)
            · omega
        · subst h1
          rcases Nat.lt_trichotomy x y with hlt | heq | hgt
          · exact Or.inl (Or.inl hlt)
          · subst heq
            rcases ih ys zs h2 with h3 | h3
            · exact Or.inl (Or.inr ⟨rfl, h3⟩)
            · exact Or.inr (Or.inr ⟨rfl, h3⟩)
          · exact Or.inr (Or.inl hgt)

theorem codeUnitCompare_le_zero (x y : String) :
    codeUnitCompare x y ≤ 0 ↔ jsStrLt y x = false := by
  unfold codeUnitCompare
  by_cases h1 : jsStrLt x y = true
  · have h2 : jsStrLt y x = false := lexLt_asymm _ _ h1
    simp [h1, h2]
  · by_cases h2 : jsStrLt y x = true
    · simp [h1, h2]
    · simp [h1, h2]

/-- The comparison by code units is a collation. -/
theorem codeUnitCompare_isCollation : IsCollation codeUnitCompare := by
  constructor
  · intro x y
    rw [codeUnitCompare_le_zero, codeUnitCompare_le_zero]
    by_cases h : jsStrLt y x = true
    · exact Or.inr (lexLt_asymm _ _ h)
    · exact Or.inl (by simpa using h)
  · intro x y z hxy hyz
    rw [codeUnitCompare_le_zero] at hxy hyz ⊢
    by_contra hzx
    have hzx2 : jsStrLt z x = true := by simpa using hzx
    rcases lexLt_cotrans _ (codeUnits y) _ hzx2 with h | h
    · exact absurd h (by simpa [jsStrLt] using hyz)
    · exact absurd h (by simpa [jsStrLt] using hxy)

theorem fetchHistory_sorted (localeCompare : String → String → Int)
    (hcollation : IsCollation localeCompare) (userId : String) (docs : List StoredDoc) :
    (fetchHistory localeCompare userId docs).Pairwise (dateDescending localeCompare) := by
  haveI : IsTotal DailyRecord (dateDescending localeCompare) :=
    ⟨fun a b => hcollation.1 b.dateString a.dateString⟩
  haveI : IsTrans DailyRecord (dateDescending localeCompare) :=
    ⟨fun a b c hab hbc => hcollation.2 c.dateString b.dateString a.dateString hbc hab⟩
  exact List.sorted_insertionSort (dateDescending localeCompare) _

/-- C18: for every locale comparison, the list that `fetchHistory` builds is sorted by
`dateString` in descending order (no record is followed by one with a greater date), and
the exported text is the header line followed by the lines of the records in that same
order: line number i is the line of record number i of the history. -/
theorem history_descending_rows_in_order (localeCompare : String → String → Int)
    (hcollation : IsCollation localeCompare) (userId : String) (docs : List StoredDoc) :
    (fetchHistory localeCompare userId docs).Pairwise
        (fun a b => localeCompare b.dateString a.dateString ≤ 0)
      ∧ (∀ i j : Nat, ∀ a b : DailyRecord, i < j →
          (fetchHistory localeCompare userId docs)[i]? = some a →
          (fetchHistory localeCompare userId docs)[j]? = some b →
          localeCompare b.dateString a.dateString ≤ 0)
      ∧ (∀ (i : Nat) (item : DailyRecord),
          (fetchHistory localeCompare userId docs)[i]? = some item →
          ((fetchHistory localeCompare userId docs).map csvLine)[i]? = some (csvLine item))
      ∧ csvContent (fetchHistory localeCompare userId docs)
          = jsJoin (String.mk [lineFeed]) ((fetchHistory localeCompare userId docs).map csvLine)
      ∧ (fetchHistory localeCompare userId docs ≠ [] →
          exportToCSV (fetchHistory localeCompare userId docs)
            = some (jsJoin "," csvHeaders ++ String.mk [lineFeed]
                ++ csvContent (fetchHistory localeCompare userId docs))) := by
  have hsorted := fetchHistory_sorted localeCompare hcollation userId docs
  refine ⟨hsorted, ?_, ?_, rfl, ?_⟩
  · intro i j a b hij ha hb
    rw [List.pairwise_iff_getElem] at hsorted
    obtain ⟨hi, rfl⟩ := List.getElem?_eq_some_iff.mp ha
    obtain ⟨hj, rfl⟩ := List.getElem?_eq_some_iff.mp hb
    exact hsorted i j hi hj hij
  · intro i item hitem
    rw [List.getElem?_map, hitem, Option.map_some']
  · intro hne
    obtain ⟨item, rest, he⟩ := List.exists_cons_of_ne_nil hne
    rw [he]
    exact exportToCSV_cons item rest

/-- C18 at a collection of three documents, with the comparison by code units: the
history of `sup-1` is the record of 10-27 followed by the record of 10-26, and so are the
lines. -/
theorem history_descending_rows_in_order_witness :
    (fetchHistory codeUnitCompare "sup-1" sampleDocs).map DailyRecord.dateString
        = ["2025-10-27", "2025-10-26"]
      ∧ (fetchHistory codeUnitCompare "sup-1" sampleDocs).Pairwise
          (fun a b => codeUnitCompare b.dateString a.dateString ≤ 0)
      ∧ ((fetchHistory codeUnitCompare "sup-1" sampleDocs).map csvLine).map
            (fun line => String.mk (line.data.take 10))
          = ["2025-10-27", "2025-10-26"] :=
  ⟨by decide,
    (history_descending_rows_in_order codeUnitCompare codeUnitCompare_isCollation "sup-1"
      sampleDocs).1,
    by decide⟩

/-! ## Compliance per goal (C19) -/

theorem complianceStep_counts (goalId : String) (acc : Nat × Nat) (item : DailyRecord) :
    complianceStep goalId acc item
      = (acc.1 + (if goalIsTrue goalId item then 1 else 0),
         acc.2 + (if goalPresent goalId item then 1 else 0)) := by
  unfold complianceStep goalIsTrue goalPresent
  cases item.fixedGoalsStatus with
  | none => simp
  | some goals =>
    cases hv : objGet goals goalId with
    | none => simp [hv]
    | some v =>
      by_cases ht : v = JSVal.bool true
      · simp [hv, JSVal.isTrue, ht]
      · simp [hv, JSVal.isTrue, ht]

theorem foldl_complianceStep (goalId : String) (h : List DailyRecord) (acc : Nat × Nat) :
    h.foldl (complianceStep goalId) acc
      = (acc.1 + h.countP (goalIsTrue goalId), acc.2 + h.countP (goalPresent goalId)) := by
  induction h generalizing acc with
  | nil => simp
  | cons item rest ih =>
    rw [List.foldl_cons, ih, complianceStep_counts, List.countP_cons, List.countP_cons]
    simp only [Prod.mk.injEq]
    constructor <;> omega

/-- The counters of the loop are the number of records that hold `true` for the goal and
the number of records that hold a value for the goal. -/
theorem complianceCounts_eq (goalId : String) (h : List DailyRecord) :
    complianceCounts goalId h = (h.countP (goalIsTrue goalId), h.countP (goalPresent goalId)) := by
  unfold complianceCounts
  rw [foldl_complianceStep]
  simp

theorem goalPresent_of_goalIsTrue (goalId : String) (item : DailyRecord)
    (h : goalIsTrue goalId item = true) : goalPresent goalId item = true := by
  unfold goalIsTrue at h
  unfold goalPresent
  cases hg : item.fixedGoalsStatus with
  | none => simp [hg] at h
  | some goals =>
    simp only [hg, beq_iff_eq] at h
    simp [h]

/-- C19: for every goal id and every history, the compliance percent is 100 times the
number of records whose value for the goal is `true`, divided by the number of records
that hold a value for the goal; it is 0 when no record holds one; a record without a
value for the goal changes neither count; the percent lies between 0 and 100. -/
theorem compliancePercent_spec (goalId : String) (h : List DailyRecord) :
    (h.countP (goalPresent goalId) ≠ 0 →
        compliancePercent goalId h
          = 100 * (h.countP (goalIsTrue goalId) : ℚ) / (h.countP (goalPresent goalId) : ℚ))
      ∧ (h.countP (goalPresent goalId) = 0 → compliancePercent goalId h = 0)
      ∧ (∀ item : DailyRecord, goalPresent goalId item = false →
          compliancePercent goalId (item :: h) = compliancePercent goalId h
            ∧ compliancePercent goalId (h ++ [item]) = compliancePercent goalId h)
      ∧ 0 ≤ compliancePercent goalId h ∧ compliancePercent goalId h ≤ 100 := by
  have hle : h.countP (goalIsTrue goalId) ≤ h.countP (goalPresent goalId) :=
    List.countP_mono_left (fun item _ => goalPresent_of_goalIsTrue goalId item)
  have hdef : ∀ l : List DailyRecord, compliancePercent goalId l
      = if l.countP (goalPresent goalId) > 0 then
          ((l.countP (goalIsTrue goalId) : ℚ) / (l.countP (goalPresent goalId) : ℚ)) * 100
        else 0 := by
    intro l
    simp only [compliancePercent, complianceCounts_eq]
  refine ⟨?_, ?_, ?_, ?_, ?_⟩
  · intro hpos
    rw [hdef, if_pos (Nat.pos_of_ne_zero hpos)]
    ring
  · intro hzero
    rw [hdef, hzero]
    simp
  · intro item hitem
    have hnt : goalIsTrue goalId item = false := by
      cases ht : goalIsTrue goalId item with
      | false => rfl
      | true =>
        have := goalPresent_of_goalIsTrue goalId item ht
        rw [hitem] at this
        exact absurd this (by simp)
    constructor
    · rw [hdef, hdef, List.countP_cons, List.countP_cons]
      simp [hitem, hnt]
    · rw [hdef, hdef, List.countP_append, List.countP_append]
      simp [hitem, hnt]
  · rw [hdef]
    split
    · positivity
    · exact le_refl 0
  · rw [hdef]
    split
    · rename_i hpos
      have hp : (0 : ℚ) < (h.countP (goalPresent goalId) : ℚ) := by exact_mod_cast hpos
      have hq : (h.countP (goalIsTrue goalId) : ℚ) ≤ (h.countP (goalPresent goalId) : ℚ) := by
        exact_mod_cast hle
      rw [div_mul_eq_mul_div, div_le_iff₀ hp]
      linarith
    · norm_num

/-- C19 at a history of three records: the goal `llegada_casa` is done in one record, not
done in another and without a value in the third, which gives 50; a goal id without any
value gives 0. -/
theorem compliancePercent_spec_witness :
    [fullDay "2025-10-27", sixPointDay "2025-10-26",
        ({ dateString := "2025-10-25" } : DailyRecord)].countP (goalPresent "llegada_casa") = 2
      ∧ [fullDay "2025-10-27", sixPointDay "2025-10-26",
          ({ dateString := "2025-10-25" } : DailyRecord)].countP (goalIsTrue "llegada_casa") = 1
      ∧ compliancePercent "llegada_casa"
          [fullDay "2025-10-27", sixPointDay "2025-10-26", { dateString := "2025-10-25" }]
        = 100 * ((1 : Nat) : ℚ) / ((2 : Nat) : ℚ)
      ∧ compliancePercent "meta_anterior"
          [fullDay "2025-10-27", sixPointDay "2025-10-26", { dateString := "2025-10-25" }] = 0 := by
  have h1 : [fullDay "2025-10-27", sixPointDay "2025-10-26",
      ({ dateString := "2025-10-25" } : DailyRecord)].countP (goalPresent "llegada_casa") = 2 := by
    decide
  have h2 : [fullDay "2025-10-27", sixPointDay "2025-10-26",
      ({ dateString := "2025-10-25" } : DailyRecord)].countP (goalIsTrue "llegada_casa") = 1 := by
    decide
  refine ⟨h1, h2, ?_, ?_⟩
  · have h := (compliancePercent_spec "llegada_casa"
      [fullDay "2025-10-27", sixPointDay "2025-10-26", { dateString := "2025-10-25" }]).1
      (by rw [h1]; decide)
    rw [h1, h2] at h
    exact h
  · exact (compliancePercent_spec "meta_anterior"
      [fullDay "2025-10-27", sixPointDay "2025-10-26", { dateString := "2025-10-25" }]).2.1
      (by decide)

/-! ## Calendar badges (C20) -/

theorem objGet_calendar_foldl (totalItems : Nat) (now : Int) (l : List DailyRecord)
    (acc : List (String × CalendarCell)) (key : String) (data : CalendarCell)
    (h : objGet (l.foldl
      (fun acc item => objSet acc item.dateString (calendarCell totalItems now item)) acc) key
        = some data) :
    (∃ item ∈ l, item.dateString = key ∧ data = calendarCell totalItems now item)
      ∨ objGet acc key = some data := by
  induction l generalizing acc with
  | nil => exact Or.inr h
  | cons r rest ih =>
    simp only [List.foldl_cons] at h
    rcases ih _ h with ⟨item, hm, hk, hd⟩ | h1
    · exact Or.inl ⟨item, List.mem_cons_of_mem _ hm, hk, hd⟩
    · rw [objGet_objSet] at h1
      by_cases hk : r.dateString = key
      · rw [if_pos hk] at h1
        exact Or.inl ⟨r, List.mem_cons_self _ _, hk, (Option.some.inj h1).symm⟩
      · rw [if_neg hk] at h1
        exact Or.inr h1

/-- Every value of the calendar's map is the cell of a record of the history with that
date. -/
theorem calendarHistoryMap_entry (totalItems : Nat) (now : Int) (h : List DailyRecord)
    (key : String) (data : CalendarCell)
    (hget : objGet (calendarHistoryMap totalItems now h) key = some data) :
    ∃ item ∈ h, item.dateString = key ∧ data = calendarCell totalItems now item := by
  rcases objGet_calendar_foldl totalItems now h [] key data hget with h1 | h1
  · exact h1
  · simp [objGet] at h1

theorem badges_of_cell (now : Int) (item : DailyRecord) :
    (showRiskBadge (calendarCell totalProgressItems now item) = true ↔
        item.emotionalStatus = some "ALTO" ∨ item.emotionalStatus = some "CRITICO"
          ∨ item.hasRelapsed = true)
      ∧ (showRehabBadge (calendarCell totalProgressItems now item) = true ↔
          item.hasCommunicatedWithRehab = true)
      ∧ (showSuccessBadge (calendarCell totalProgressItems now item) = true ↔
          calendarCompleted item = 9) := by
  refine ⟨?_, Iff.rfl, ?_⟩
  · simp only [showRiskBadge, calendarCell, Bool.or_eq_true, beq_iff_eq, or_assoc]
  · simp only [showSuccessBadge, calendarCell, decide_eq_true_eq, totalProgressItems_eq,
      calendarPercentage_eq_hundred_iff]

theorem future_cell_color :
    (calendarCell totalProgressItems sampleNow (relapsedFullDay "2025-10-28")).color
      = colorFuture := by
  have hfut : jsStrLe (relapsedFullDay "2025-10-28").dateString (getTodayDateString sampleNow)
      = false := by decide
  simp [calendarCell, colorClass, hfut]

/-- C20: every cell that the calendar shows for a date is the cell of a record of the
history with that date, and for that record, whatever the instant and so whatever its
colour: the risk badge is shown iff `emotionalStatus` is ALTO or CRITICO or the record is
relapsed; the outreach badge is shown iff `hasCommunicatedWithRehab`; the success badge is
shown iff completed = 9. -/
theorem badges_spec (now : Int) (h : List DailyRecord) (key : String) (data : CalendarCell)
    (hshown : objGet (calendarHistoryMap totalProgressItems now h) key = some data) :
    ∃ item ∈ h, item.dateString = key ∧ data = calendarCell totalProgressItems now item
      ∧ (showRiskBadge data = true ↔
          item.emotionalStatus = some "ALTO" ∨ item.emotionalStatus = some "CRITICO"
            ∨ item.hasRelapsed = true)
      ∧ (showRehabBadge data = true ↔ item.hasCommunicatedWithRehab = true)
      ∧ (showSuccessBadge data = true ↔ calendarCompleted item = 9)
      ∧ ∀ other : Int,
          showRiskBadge (calendarCell totalProgressItems other item) = showRiskBadge data
            ∧ showRehabBadge (calendarCell totalProgressItems other item) = showRehabBadge data
            ∧ showSuccessBadge (calendarCell totalProgressItems other item)
                = showSuccessBadge data := by
  obtain ⟨item, hm, hk, hd⟩ := calendarHistoryMap_entry _ now h key data hshown
  have hb := badges_of_cell now item
  refine ⟨item, hm, hk, hd, ?_, ?_, ?_, ?_⟩
  · rw [hd]; exact hb.1
  · rw [hd]; exact hb.2.1
  · rw [hd]; exact hb.2.2
  · intro other
    rw [hd]
    simp only [showRiskBadge, showRehabBadge, showSuccessBadge, calendarCell, and_self]

/-- C20 at a history of a relapsed 9/9 day of tomorrow (future colour) and a day of
yesterday with five goals done: the first shows the risk and success badges, the second
shows none. -/
theorem badges_spec_witness :
    (∃ data, objGet (calendarHistoryMap totalProgressItems sampleNow
          [relapsedFullDay "2025-10-28", sixPointDay "2025-10-26"]) "2025-10-28" = some data
        ∧ data.color = colorFuture ∧ showRiskBadge data = true ∧ showRehabBadge data = false
        ∧ showSuccessBadge data = true)
      ∧ ∃ item ∈ [relapsedFullDay "2025-10-28", sixPointDay "2025-10-26"],
          item.dateString = "2025-10-26"
            ∧ calendarCell totalProgressItems sampleNow (sixPointDay "2025-10-26")
                = calendarCell totalProgressItems sampleNow item
            ∧ (showRiskBadge (calendarCell totalProgressItems sampleNow (sixPointDay "2025-10-26"))
                  = true ↔
                item.emotionalStatus = some "ALTO" ∨ item.emotionalStatus = some "CRITICO"
                  ∨ item.hasRelapsed = true) := by
  have hget : objGet (calendarHistoryMap totalProgressItems sampleNow
      [relapsedFullDay "2025-10-28", sixPointDay "2025-10-26"]) "2025-10-26"
        = some (calendarCell totalProgressItems sampleNow (sixPointDay "2025-10-26")) := by
    simp [calendarHistoryMap, objSet, objGet, sixPointDay, relapsedFullDay]
  have hget2 : objGet (calendarHistoryMap totalProgressItems sampleNow
      [relapsedFullDay "2025-10-28", sixPointDay "2025-10-26"]) "2025-10-28"
        = some (calendarCell totalProgressItems sampleNow (relapsedFullDay "2025-10-28")) := by
    simp [calendarHistoryMap, objSet, objGet, sixPointDay, relapsedFullDay]
  refine ⟨⟨_, hget2, ?_, ?_, ?_, ?_⟩, ?_⟩
  · exact (future_cell_color)
  · exact (badges_of_cell sampleNow (relapsedFullDay "2025-10-28")).1.mpr (Or.inr (Or.inr rfl))
  · rfl
  · exact (badges_of_cell sampleNow (relapsedFullDay "2025-10-28")).2.2.mpr (by decide)
  · obtain ⟨item, hm, hk, hd, hrisk, -⟩ := badges_spec sampleNow
      [relapsedFullDay "2025-10-28", sixPointDay "2025-10-26"] "2025-10-26" _ hget
    exact ⟨item, hm, hk, hd, hrisk⟩

/-! ## The store's merge and the snapshot -/

theorem objGet_mergeField_ne (serverTime : Int) (doc : Fields) (field : String)
    (value : PatchValue) (key : String) (h : field ≠ key) :
    objGet (mergeField serverTime doc field value) key = objGet doc key := by
  unfold mergeField
  split <;> rw [objGet_objSet, if_neg h]

theorem objGet_setDocMerge_frame (serverTime : Int) (patch : List (String × PatchValue))
    (key : String) (h : key ∉ objectKeys patch) : ∀ doc : Fields,
    objGet (patch.foldl (fun acc kv => mergeField serverTime acc kv.1 kv.2) doc) key
      = objGet doc key := by
  induction patch with
  | nil => intro doc; rfl
  | cons kv rest ih =>
    intro doc
    simp only [objectKeys, List.map_cons, List.mem_cons, not_or] at h
    rw [List.foldl_cons, ih (by simpa [objectKeys] using h.2),
      objGet_mergeField_ne _ _ _ _ _ (fun e => h.1 e.symm)]

theorem objGet_setDocMerge_other (serverTime : Int) (doc : Option Fields) (s : AppState)
    (u field : String) (value : PatchValue) (key : String)
    (h : key ∉ [field, "userId", "timestamp", "dateString"]) :
    objGet (setDocMerge serverTime doc (mergeWrite s u field value).patch) key
      = objGet (doc.getD []) key :=
  objGet_setDocMerge_frame serverTime _ key (by simpa [objectKeys, mergeWrite] using h) _

theorem objGet_setDocMerge_val (serverTime : Int) (doc : Option Fields) (s : AppState)
    (u field : String) (v : JSVal)
    (h : field ∉ ["userId", "timestamp", "dateString"]) :
    objGet (setDocMerge serverTime doc (mergeWrite s u field (PatchValue.val v)).patch) field
      = some (PatchValue.val v) := by
  have hpatch : (mergeWrite s u field (PatchValue.val v)).patch
      = (field, PatchValue.val v) :: [("userId", PatchValue.val (JSVal.str u)),
          ("timestamp", PatchValue.serverTimestamp),
          ("dateString", PatchValue.val (JSVal.str s.selectedDate))] := rfl
  unfold setDocMerge
  rw [hpatch, List.foldl_cons,
    objGet_setDocMerge_frame serverTime _ field (by simpa [objectKeys] using h)]
  simp only [mergeField, storedValue, objGet_objSet, if_true]

theorem handleSetEmotionalStatus_open (now : Int) (writeOk : Bool) (statusValue : String)
    (s : AppState) (u : String) (hsession : sessionUser s = some u)
    (hopen : isControlDisabled now s = false) :
    handleSetEmotionalStatus now writeOk statusValue s
      = ⟨afterWrite writeOk "No se pudo actualizar el estado emocional/riesgo." s,
          [mergeWrite s u "emotionalStatus" (PatchValue.val
            (if s.day.emotionalStatus = some statusValue then JSVal.null
              else JSVal.str statusValue))]⟩ := by
  unfold isControlDisabled at hopen
  simp only [handleSetEmotionalStatus, hsession, hopen, Bool.false_eq_true, if_false]

/-! ## Selecting a risk value (C21) -/

/-- C21, as stated, fails: with a signed-in user, a day that is not locked and a cleared
date picker (no gate is active), selecting the current value ALTO, or another value,
issues no write; so does a selection on a locked day. -/
theorem risk_selection_without_write :
    isControlDisabled sampleNow (noDateState { emotionalStatus := some "ALTO" }) = false
      ∧ (handleSetEmotionalStatus sampleNow true "ALTO"
          (noDateState { emotionalStatus := some "ALTO" })).writes = []
      ∧ (handleSetEmotionalStatus sampleNow true "BAJO"
          (noDateState { emotionalStatus := some "ALTO" })).writes = []
      ∧ (handleSetEmotionalStatus sampleNow true "ALTO"
          (signedInState "2025-10-27" { emotionalStatus := some "ALTO", isLocked := true })).writes
          = [] := by
  decide

/-- Past the guard of `handleSetEmotionalStatus`: the value written, and the state after
the same value was selected twice from the unset state. -/
theorem risk_toggle_open (now : Int) (writeOk : Bool) (statusValue : String) (s : AppState)
    (u : String) (hsession : sessionUser s = some u)
    (hopen : isControlDisabled now s = false) :
    (s.day.emotionalStatus = some statusValue →
        (handleSetEmotionalStatus now writeOk statusValue s).writes
          = [mergeWrite s u "emotionalStatus" (PatchValue.val JSVal.null)])
      ∧ (s.day.emotionalStatus ≠ some statusValue →
        (handleSetEmotionalStatus now writeOk statusValue s).writes
          = [mergeWrite s u "emotionalStatus" (PatchValue.val (JSVal.str statusValue))])
      ∧ ∀ (now2 t1 t2 : Int) (doc : Option Fields),
          s.day.emotionalStatus = none → snapshotDay s.day doc = s.day →
          isFutureDate now2 s = false →
          (selectRiskTwice now now2 t1 t2 statusValue s doc).1.day.emotionalStatus = none
            ∧ (statusValue ≠ "" →
                objGet (((selectRiskTwice now now2 t1 t2 statusValue s doc).2).getD [])
                  "emotionalStatus" = some (PatchValue.val JSVal.null)) := by
  refine ⟨?_, ?_, ?_⟩
  · intro h
    rw [handleSetEmotionalStatus_open now writeOk statusValue s u hsession hopen, if_pos h]
  · intro h
    rw [handleSetEmotionalStatus_open now writeOk statusValue s u hsession hopen, if_neg h]
  · intro now2 t1 t2 doc hunset hsync hfuture
    have hlock : s.day.isLocked = false := by
      unfold isControlDisabled at hopen
      exact (Bool.or_eq_false_iff.mp hopen).1
    have hnot : ("emotionalStatus" : String) ∉ ["userId", "timestamp", "dateString"] := by decide
    have hlk : ("isLocked" : String) ∉ ["emotionalStatus", "userId", "timestamp", "dateString"] := by
      decide
    -- the stored document carries no lock
    have hdocLock : fieldTruthy (objGet (doc.getD []) "isLocked") = false := by
      cases doc with
      | none => rfl
      | some data =>
        have := congrArg DayState.isLocked hsync
        simp only [snapshotDay] at this
        rw [Option.getD_some, this, hlock]
    -- first round
    have h1 := handleSetEmotionalStatus_open now true statusValue s u hsession hopen
    rw [hunset, if_neg (by simp), afterWrite, if_pos rfl] at h1
    obtain ⟨doc1, hdoc1⟩ : ∃ d, d = setDocMerge t1 doc
        (mergeWrite s u "emotionalStatus" (PatchValue.val (JSVal.str statusValue))).patch :=
      ⟨_, rfl⟩
    have hfirst : deliver t1 doc (handleSetEmotionalStatus now true statusValue s)
        = ({ s with day := snapshotDay s.day (some doc1) }, some doc1) := by
      rw [h1, hdoc1]
      rfl
    have hget1 : objGet doc1 "emotionalStatus" = some (PatchValue.val (JSVal.str statusValue)) := by
      rw [hdoc1]
      exact objGet_setDocMerge_val t1 doc s u "emotionalStatus" _ hnot
    have hlock1 : fieldTruthy (objGet doc1 "isLocked") = false := by
      rw [hdoc1, objGet_setDocMerge_other t1 doc s u "emotionalStatus" _ "isLocked" hlk]
      exact hdocLock
    obtain ⟨s1, hs1⟩ : ∃ x : AppState, x = { s with day := snapshotDay s.day (some doc1) } :=
      ⟨_, rfl⟩
    have hsession1 : sessionUser s1 = some u := by
      rw [hs1]
      exact hsession
    have hopen1 : isControlDisabled now2 s1 = false := by
      rw [hs1]
      simp only [isControlDisabled, isFutureDate, snapshotDay, hlock1, Bool.false_or]
      exact hfuture
    have hstatus1 : s1.day.emotionalStatus
        = if statusValue = "" then none else some statusValue := by
      rw [hs1]
      simp only [snapshotDay, hget1]
    have h2 := handleSetEmotionalStatus_open now2 true statusValue s1 u hsession1 hopen1
    rw [afterWrite, if_pos rfl] at h2
    unfold selectRiskTwice
    simp only [hfirst]
    rw [← hs1, h2]
    have hget2 := objGet_setDocMerge_val t2 (some doc1) s1 u "emotionalStatus"
      (if s1.day.emotionalStatus = some statusValue then JSVal.null else JSVal.str statusValue)
      hnot
    simp only [deliver, List.foldl_cons, List.foldl_nil, snapshotDay, hget2, Option.getD_some]
    by_cases hv : statusValue = ""
    · rw [hstatus1, if_pos hv]
      simp [hv]
    · rw [hstatus1, if_neg hv]
      simp

/-- C21, amended: without a database handle, a signed-in user or a selected date, and on a
day that is locked or in the future, selecting a risk value writes nothing and leaves the
state as it is.  Otherwise, selecting the value that is the current `emotionalStatus`
issues one merge write with `emotionalStatus: null`, and selecting any other value issues
one merge write with that value; from an unset state that mirrors the stored document,
selecting one value twice, each write delivered before the next selection, ends in the
unset state, with `null` stored when the value is not the empty string. -/
theorem risk_toggle_spec (now : Int) (writeOk : Bool) (statusValue : String) (s : AppState) :
    ((sessionUser s = none ∨ isControlDisabled now s = true) →
        handleSetEmotionalStatus now writeOk statusValue s = ⟨s, []⟩)
      ∧ ∀ u : String, sessionUser s = some u → isControlDisabled now s = false →
        (s.day.emotionalStatus = some statusValue →
          (handleSetEmotionalStatus now writeOk statusValue s).writes
            = [mergeWrite s u "emotionalStatus" (PatchValue.val JSVal.null)])
        ∧ (s.day.emotionalStatus ≠ some statusValue →
          (handleSetEmotionalStatus now writeOk statusValue s).writes
            = [mergeWrite s u "emotionalStatus" (PatchValue.val (JSVal.str statusValue))])
        ∧ ∀ (now2 t1 t2 : Int) (doc : Option Fields),
            s.day.emotionalStatus = none → snapshotDay s.day doc = s.day →
            isFutureDate now2 s = false →
            (selectRiskTwice now now2 t1 t2 statusValue s doc).1.day.emotionalStatus = none
              ∧ (statusValue ≠ "" →
                  objGet (((selectRiskTwice now now2 t1 t2 statusValue s doc).2).getD [])
                    "emotionalStatus" = some (PatchValue.val JSVal.null)) := by
  refine ⟨?_, fun u hsession hopen => risk_toggle_open now writeOk statusValue s u hsession hopen⟩
  intro hgate
  unfold handleSetEmotionalStatus
  cases hsession : sessionUser s with
  | none => rfl
  | some u =>
    rcases hgate with h | h
    · rw [hsession] at h
      exact absurd h (by simp)
    · have hg : (s.day.isLocked || isFutureDate now s) = true := h
      simp only [hg, if_true]

/-- C21, amended, at the signed-in user on today's date, with no document stored yet:
selecting ALTO from the unset state writes ALTO, and selecting it twice ends unset; on a
locked day the selection writes nothing. -/
theorem risk_toggle_spec_witness :
    sessionUser (signedInState "2025-10-27" {}) = some "sup-1"
      ∧ isControlDisabled sampleNow (signedInState "2025-10-27" {}) = false
      ∧ (handleSetEmotionalStatus sampleNow true "ALTO" (signedInState "2025-10-27" {})).writes
          = [mergeWrite (signedInState "2025-10-27" {}) "sup-1" "emotionalStatus"
              (PatchValue.val (JSVal.str "ALTO"))]
      ∧ (selectRiskTwice sampleNow sampleNow 1 2 "ALTO" (signedInState "2025-10-27" {})
          none).1.day.emotionalStatus = none
      ∧ isControlDisabled sampleNow (signedInState "2025-10-27" { isLocked := true }) = true
      ∧ handleSetEmotionalStatus sampleNow true "ALTO"
          (signedInState "2025-10-27" { isLocked := true })
        = ⟨signedInState "2025-10-27" { isLocked := true }, []⟩ :=
  ⟨by decide, by decide,
    ((risk_toggle_spec sampleNow true "ALTO" (signedInState "2025-10-27" {})).2 "sup-1"
      (by decide) (by decide)).2.1 (by decide),
    (((risk_toggle_spec sampleNow true "ALTO" (signedInState "2025-10-27" {})).2 "sup-1"
      (by decide) (by decide)).2.2 sampleNow 1 2 none rfl rfl (by decide)).1,
    by decide,
    (risk_toggle_spec sampleNow true "ALTO"
      (signedInState "2025-10-27" { isLocked := true })).1 (Or.inr (by decide))⟩

/-! ## One merge write per content handler (C22) -/

theorem objGet_eq_none_of_not_mem {α : Type} (obj : List (String × α)) (key : String)
    (h : key ∉ objectKeys obj) : objGet obj key = none := by
  cases hget : objGet obj key with
  | none => rfl
  | some v => exact absurd (objGet_mem_keys obj key v hget) h

theorem objectKeys_objSet {α : Type} (obj : List (String × α)) (k : String) (v : α) :
    objectKeys (objSet obj k v)
      = if k ∈ objectKeys obj then objectKeys obj else objectKeys obj ++ [k] := by
  induction obj with
  | nil => simp [objSet, objectKeys]
  | cons p rest ih =>
    obtain ⟨k0, v0⟩ := p
    simp only [objSet]
    by_cases h0 : k0 = k
    · subst h0
      simp [objectKeys]
    · have hk : k ≠ k0 := fun e => h0 e.symm
      simp only [objectKeys] at ih
      simp only [if_neg h0, objectKeys, List.map_cons, List.mem_cons, hk, false_or, ih]
      split <;> simp

theorem objectKeys_objSet_nodup {α : Type} (obj : List (String × α)) (k : String) (v : α)
    (h : (objectKeys obj).Nodup) : (objectKeys (objSet obj k v)).Nodup := by
  rw [objectKeys_objSet]
  split
  · exact h
  · rename_i hk
    exact List.Nodup.append h (List.nodup_singleton k) (by simpa using hk)

/-- Lookups in a map after the entries of a second map with distinct keys have been set
in it one by one: an entry of the second map if it has the key, otherwise the old one. -/
theorem objGet_foldl_objSet {α : Type} (m : List (String × α)) (hm : (objectKeys m).Nodup)
    (key : String) : ∀ base : List (String × α),
    objGet (m.foldl (fun acc kv => objSet acc kv.1 kv.2) base) key
      = match objGet m key with
        | some v => some v
        | none => objGet base key := by
  induction m with
  | nil => intro base; rfl
  | cons p rest ih =>
    intro base
    obtain ⟨k0, v0⟩ := p
    simp only [objectKeys, List.map_cons, List.nodup_cons] at hm
    rw [List.foldl_cons, ih (by simpa [objectKeys] using hm.2), objGet_objSet]
    simp only [objGet]
    by_cases h0 : k0 = key
    · subst h0
      rw [objGet_eq_none_of_not_mem rest k0 (by simpa [objectKeys] using hm.1)]
      simp
    · simp only [if_neg h0]

theorem objGet_setDocMerge_goals (serverTime : Int) (data : Fields) (s : AppState)
    (u : String) (m m0 : List (String × JSVal))
    (h0 : objGet data "fixedGoalsStatus" = some (PatchValue.goals m0)) :
    objGet (setDocMerge serverTime (some data)
        (mergeWrite s u "fixedGoalsStatus" (PatchValue.goals m)).patch) "fixedGoalsStatus"
      = some (PatchValue.goals (m.foldl (fun acc kv => objSet acc kv.1 kv.2) m0)) := by
  have hpatch : (mergeWrite s u "fixedGoalsStatus" (PatchValue.goals m)).patch
      = ("fixedGoalsStatus", PatchValue.goals m) :: [("userId", PatchValue.val (JSVal.str u)),
          ("timestamp", PatchValue.serverTimestamp),
          ("dateString", PatchValue.val (JSVal.str s.selectedDate))] := rfl
  unfold setDocMerge
  rw [hpatch, List.foldl_cons,
    objGet_setDocMerge_frame serverTime _ "fixedGoalsStatus" (by simp [objectKeys])]
  simp only [Option.getD_some, mergeField, h0, objGet_objSet, if_true]

/-- C22, as stated, fails: with no gate active, no handler issues a write before a user is
signed in, nor with a signed-in user and a cleared date picker. -/
theorem content_handlers_without_session :
    isControlDisabled sampleNow (signedOutState "2025-10-27" {}) = false
      ∧ (handleDailyCheckIn sampleNow true (signedOutState "2025-10-27" {})).writes = []
      ∧ (handleToggleFixedGoal sampleNow true "salida_casa"
          (signedOutState "2025-10-27" {})).writes = []
      ∧ (handleToggleRelapse sampleNow true (signedOutState "2025-10-27" {})).writes = []
      ∧ isControlDisabled sampleNow (noDateState {}) = false
      ∧ (handleDailyCheckIn sampleNow true (noDateState {})).writes = []
      ∧ (handleToggleRehabCommunication sampleNow true (noDateState {})).writes = []
      ∧ (handleUpdateNotes sampleNow true "nota" (noDateState {})).writes = [] := by
  decide

/-- Past the guard of the six content handlers: the write of each, what the write leaves
in a stored document, and the goal map of the goal toggle. -/
theorem content_handlers_open (now : Int) (writeOk : Bool)
    (goalId statusValue newNotes : String) (s : AppState) (u : String)
    (hsession : sessionUser s = some u) (hopen : isControlDisabled now s = false) :
    (handleDailyCheckIn now writeOk s).writes
        = [mergeWrite s u "checkedIn" (PatchValue.val (JSVal.bool (!s.day.hasCheckedIn)))]
      ∧ (handleToggleFixedGoal now writeOk goalId s).writes
        = [mergeWrite s u "fixedGoalsStatus" (PatchValue.goals
            (objSet s.day.fixedGoalsStatus goalId (JSVal.bool (!stateGoalTruthy s.day goalId))))]
      ∧ (handleSetEmotionalStatus now writeOk statusValue s).writes
        = [mergeWrite s u "emotionalStatus" (PatchValue.val
            (if s.day.emotionalStatus = some statusValue then JSVal.null
              else JSVal.str statusValue))]
      ∧ (handleToggleRelapse now writeOk s).writes
        = [mergeWrite s u "hasRelapsed" (PatchValue.val (JSVal.bool (!s.day.hasRelapsed)))]
      ∧ (handleToggleRehabCommunication now writeOk s).writes
        = [mergeWrite s u "hasCommunicatedWithRehab"
            (PatchValue.val (JSVal.bool (!s.day.hasCommunicatedWithRehab)))]
      ∧ (handleUpdateNotes now writeOk newNotes s).writes
        = [mergeWrite s u "notes" (PatchValue.val (JSVal.str newNotes))]
      ∧ (∀ (field : String) (value : PatchValue),
          (mergeWrite s u field value).docId = dailyStatusDocId u s.selectedDate
            ∧ (mergeWrite s u field value).merge = true
            ∧ objectKeys (mergeWrite s u field value).patch
                = [field, "userId", "timestamp", "dateString"])
      ∧ (∀ (field : String) (value : PatchValue) (serverTime : Int) (doc : Option Fields)
          (key : String), key ∉ [field, "userId", "timestamp", "dateString"] →
          objGet (setDocMerge serverTime doc (mergeWrite s u field value).patch) key
            = objGet (doc.getD []) key)
      ∧ (∀ g : String, g ≠ goalId →
          objGet (objSet s.day.fixedGoalsStatus goalId
              (JSVal.bool (!stateGoalTruthy s.day goalId))) g
            = objGet s.day.fixedGoalsStatus g)
      ∧ objGet (objSet s.day.fixedGoalsStatus goalId
            (JSVal.bool (!stateGoalTruthy s.day goalId))) goalId
          = some (JSVal.bool (!stateGoalTruthy s.day goalId))
      ∧ ∀ (serverTime : Int) (data : Fields) (m0 : List (String × JSVal)),
          (objectKeys s.day.fixedGoalsStatus).Nodup →
          objGet data "fixedGoalsStatus" = some (PatchValue.goals m0) →
          ∃ m1, objGet (setDocMerge serverTime (some data)
                (mergeWrite s u "fixedGoalsStatus" (PatchValue.goals
                  (objSet s.day.fixedGoalsStatus goalId
                    (JSVal.bool (!stateGoalTruthy s.day goalId))))).patch) "fixedGoalsStatus"
              = some (PatchValue.goals m1)
            ∧ objGet m1 goalId = some (JSVal.bool (!stateGoalTruthy s.day goalId))
            ∧ ∀ g : String, g ≠ goalId → objGet s.day.fixedGoalsStatus g = objGet m0 g →
                objGet m1 g = objGet m0 g := by
  have hgate : (s.day.isLocked || isFutureDate now s) = false := hopen
  refine ⟨?_, ?_, ?_, ?_, ?_, ?_, ?_, ?_, ?_, ?_, ?_⟩
  · simp only [handleDailyCheckIn, hsession, hgate, Bool.false_eq_true, if_false]
  · simp only [handleToggleFixedGoal, hsession, hgate, Bool.false_eq_true, if_false,
      stateGoalTruthy]
  · rw [handleSetEmotionalStatus_open now writeOk statusValue s u hsession hopen]
  · simp only [handleToggleRelapse, hsession, hgate, Bool.false_eq_true, if_false]
  · simp only [handleToggleRehabCommunication, hsession, hgate, Bool.false_eq_true, if_false]
  · simp only [handleUpdateNotes, hsession, hgate, Bool.false_eq_true, if_false]
  · intro field value
    exact ⟨rfl, rfl, rfl⟩
  · intro field value serverTime doc key hkey
    exact objGet_setDocMerge_other serverTime doc s u field value key hkey
  · intro g hg
    rw [objGet_objSet, if_neg (fun e => hg e.symm)]
  · rw [objGet_objSet, if_pos rfl]
  · intro serverTime data m0 hnodup h0
    refine ⟨_, objGet_setDocMerge_goals serverTime data s u _ m0 h0, ?_, ?_⟩
    · rw [objGet_foldl_objSet _ (objectKeys_objSet_nodup _ _ _ hnodup), objGet_objSet,
        if_pos rfl]
    · intro g hg hagree
      rw [objGet_foldl_objSet _ (objectKeys_objSet_nodup _ _ _ hnodup), objGet_objSet,
        if_neg (fun e => hg e.symm), hagree]
      cases objGet m0 g <;> rfl

/-- C22, amended: without a database handle, a signed-in user or a selected date, no
content handler issues a write.  With them, on a day that is neither locked nor in the
future, each of the six content handlers issues exactly one write: a merge write to the
document `userId-selectedDate` whose fields are the one changed content field, `userId`,
`timestamp` and `dateString`.  Merged into any stored document, such a write leaves every
field other than these four as it was.  The goal toggle writes the goal map of the state
with the toggled entry set to the negation of its truthiness and every other entry as it
was; merged into a stored goal map, it sets the toggled entry, and every other entry on
which state and store agree stays. -/
theorem content_handlers_write_one_field (now : Int) (writeOk : Bool)
    (goalId statusValue newNotes : String) (s : AppState) :
    (sessionUser s = none →
        handleDailyCheckIn now writeOk s = ⟨s, []⟩
          ∧ handleToggleFixedGoal now writeOk goalId s = ⟨s, []⟩
          ∧ handleSetEmotionalStatus now writeOk statusValue s = ⟨s, []⟩
          ∧ handleToggleRelapse now writeOk s = ⟨s, []⟩
          ∧ handleToggleRehabCommunication now writeOk s = ⟨s, []⟩
          ∧ handleUpdateNotes now writeOk newNotes s = ⟨s, []⟩)
      ∧ ∀ u : String, sessionUser s = some u → isControlDisabled now s = false →
        (handleDailyCheckIn now writeOk s).writes
            = [mergeWrite s u "checkedIn" (PatchValue.val (JSVal.bool (!s.day.hasCheckedIn)))]
          ∧ (handleToggleFixedGoal now writeOk goalId s).writes
            = [mergeWrite s u "fixedGoalsStatus" (PatchValue.goals
                (objSet s.day.fixedGoalsStatus goalId (JSVal.bool (!stateGoalTruthy s.day goalId))))]
          ∧ (handleSetEmotionalStatus now writeOk statusValue s).writes
            = [mergeWrite s u "emotionalStatus" (PatchValue.val
                (if s.day.emotionalStatus = some statusValue then JSVal.null
                  else JSVal.str statusValue))]
          ∧ (handleToggleRelapse now writeOk s).writes
            = [mergeWrite s u "hasRelapsed" (PatchValue.val (JSVal.bool (!s.day.hasRelapsed)))]
          ∧ (handleToggleRehabCommunication now writeOk s).writes
            = [mergeWrite s u "hasCommunicatedWithRehab"
                (PatchValue.val (JSVal.bool (!s.day.hasCommunicatedWithRehab)))]
          ∧ (handleUpdateNotes now writeOk newNotes s).writes
            = [mergeWrite s u "notes" (PatchValue.val (JSVal.str newNotes))]
          ∧ (∀ (field : String) (value : PatchValue),
              (mergeWrite s u field value).docId = dailyStatusDocId u s.selectedDate
                ∧ (mergeWrite s u field value).merge = true
                ∧ objectKeys (mergeWrite s u field value).patch
                    = [field, "userId", "timestamp", "dateString"])
          ∧ (∀ (field : String) (value : PatchValue) (serverTime : Int) (doc : Option Fields)
              (key : String), key ∉ [field, "userId", "timestamp", "dateString"] →
              objGet (setDocMerge serverTime doc (mergeWrite s u field value).patch) key
                = objGet (doc.getD []) key)
          ∧ (∀ g : String, g ≠ goalId →
              objGet (objSet s.day.fixedGoalsStatus goalId
                  (JSVal.bool (!stateGoalTruthy s.day goalId))) g
                = objGet s.day.fixedGoalsStatus g)
          ∧ objGet (objSet s.day.fixedGoalsStatus goalId
                (JSVal.bool (!stateGoalTruthy s.day goalId))) goalId
              = some (JSVal.bool (!stateGoalTruthy s.day goalId))
          ∧ ∀ (serverTime : Int) (data : Fields) (m0 : List (String × JSVal)),
              (objectKeys s.day.fixedGoalsStatus).Nodup →
              objGet data "fixedGoalsStatus" = some (PatchValue.goals m0) →
              ∃ m1, objGet (setDocMerge serverTime (some data)
                    (mergeWrite s u "fixedGoalsStatus" (PatchValue.goals
                      (objSet s.day.fixedGoalsStatus goalId
                        (JSVal.bool (!stateGoalTruthy s.day goalId))))).patch) "fixedGoalsStatus"
                  = some (PatchValue.goals m1)
                ∧ objGet m1 goalId = some (JSVal.bool (!stateGoalTruthy s.day goalId))
                ∧ ∀ g : String, g ≠ goalId → objGet s.day.fixedGoalsStatus g = objGet m0 g →
                    objGet m1 g = objGet m0 g := by
  refine ⟨?_, fun u hsession hopen =>
    content_handlers_open now writeOk goalId statusValue newNotes s u hsession hopen⟩
  intro hnone
  refine ⟨?_, ?_, ?_, ?_, ?_, ?_⟩
  · simp only [handleDailyCheckIn, hnone]
  · simp only [handleToggleFixedGoal, hnone]
  · simp only [handleSetEmotionalStatus, hnone]
  · simp only [handleToggleRelapse, hnone]
  · simp only [handleToggleRehabCommunication, hnone]
  · simp only [handleUpdateNotes, hnone]

/-- C22, amended, at the signed-in user on today's date with `salida_casa` done: toggling
`entrada_trabajo` writes both goals, to the document `sup-1-2025-10-27`, and a stored
note stays. -/
theorem content_handlers_write_one_field_witness :
    sessionUser (signedInState "2025-10-27"
        { fixedGoalsStatus := [("salida_casa", JSVal.bool true)] }) = some "sup-1"
      ∧ isControlDisabled sampleNow (signedInState "2025-10-27"
        { fixedGoalsStatus := [("salida_casa", JSVal.bool true)] }) = false
      ∧ (handleToggleFixedGoal sampleNow true "entrada_trabajo" (signedInState "2025-10-27"
          { fixedGoalsStatus := [("salida_casa", JSVal.bool true)] })).writes
        = [{ collection := "/artifacts/default-app-id/public/data/daily_status",
             docId := "sup-1-2025-10-27",
             patch := [("fixedGoalsStatus", PatchValue.goals
                 [("salida_casa", JSVal.bool true), ("entrada_trabajo", JSVal.bool true)]),
               ("userId", PatchValue.val (JSVal.str "sup-1")),
               ("timestamp", PatchValue.serverTimestamp),
               ("dateString", PatchValue.val (JSVal.str "2025-10-27"))],
             merge := true }]
      ∧ objGet (setDocMerge 5 (some [("notes", PatchValue.val (JSVal.str "nota"))])
            (mergeWrite (signedInState "2025-10-27"
              { fixedGoalsStatus := [("salida_casa", JSVal.bool true)] }) "sup-1" "checkedIn"
              (PatchValue.val (JSVal.bool true))).patch) "notes"
          = some (PatchValue.val (JSVal.str "nota")) :=
  ⟨by decide, by decide,
    ((content_handlers_write_one_field sampleNow true "entrada_trabajo" "ALTO" "nota"
      (signedInState "2025-10-27" { fixedGoalsStatus := [("salida_casa", JSVal.bool true)] })).2
      "sup-1" (by decide) (by decide)).2.1,
    ((content_handlers_write_one_field sampleNow true "entrada_trabajo" "ALTO" "nota"
      (signedInState "2025-10-27" { fixedGoalsStatus := [("salida_casa", JSVal.bool true)] })).2
      "sup-1" (by decide) (by decide)).2.2.2.2.2.2.2.1 "checkedIn"
      (PatchValue.val (JSVal.bool true)) 5 (some [("notes", PatchValue.val (JSVal.str "nota"))])
      "notes" (by decide)⟩

/-! ## Which documents the history lists (C23) -/

theorem startsWithChars_append (a b : List Char) : startsWithChars (a ++ b) a = true := by
  induction a with
  | nil => cases b <;> rfl
  | cons c rest ih => simp [startsWithChars, ih]

theorem jsStartsWith_docId (userId dateString : String) :
    jsStartsWith (dailyStatusDocId userId dateString) (userId ++ "-") = true := by
  simp only [jsStartsWith, dailyStatusDocId, String.data_append]
  exact startsWithChars_append _ _

/-- C23, as stated, fails: every id of the sample collection starts with `sup-`, the
prefix of the user `sup`, and the history listed for `sup` is empty. -/
theorem history_is_not_by_document_id :
    (∀ doc ∈ sampleDocs, jsStartsWith doc.id ("sup" ++ "-") = true)
      ∧ (∀ doc ∈ sampleDocs, ∃ owner, owner ≠ "sup" ∧ WrittenFor owner doc)
      ∧ fetchHistory codeUnitCompare "sup" sampleDocs = [] := by
  refine ⟨by decide, ?_, by decide⟩
  intro doc hdoc
  exact ⟨doc.data.userId, by revert doc; decide, by revert doc; decide⟩

/-- C23, amended: the history listed for a user holds exactly the documents of the
collection whose stored `userId` field is the user's id (each one once, as the item built
from it), whatever their ids are.  The id of every listed document that the application
wrote starts with the prefix `userId-`; a document of the collection that the application
wrote for another user is not listed, also when its id starts with that prefix. -/
theorem history_lists_by_owner_field (localeCompare : String → String → Int)
    (userId : String) (docs : List StoredDoc) :
    (fetchHistory localeCompare userId docs).Perm
        ((docs.filter (fun doc => doc.data.userId = userId)).map (fetchedItem userId))
      ∧ (∀ doc ∈ docs, WrittenFor userId doc → jsStartsWith doc.id (userId ++ "-") = true)
      ∧ ∀ other : String, other ≠ userId →
          ∀ doc ∈ docs, WrittenFor other doc →
            fetchedItem userId doc ∉ fetchHistory localeCompare userId docs := by
  have hperm : (fetchHistory localeCompare userId docs).Perm
      ((docs.filter (fun doc => doc.data.userId = userId)).map (fetchedItem userId)) := by
    unfold fetchHistory
    refine (List.perm_insertionSort _ _).trans ?_
    rw [List.filter_map]
    exact List.Perm.of_eq rfl
  refine ⟨hperm, ?_, ?_⟩
  · intro doc _ hw
    rw [hw.2]
    exact jsStartsWith_docId _ _
  · intro other hother doc _ hw hmem
    have hmem2 := hperm.mem_iff.mp hmem
    obtain ⟨d, hd, he⟩ := List.mem_map.mp hmem2
    have hu : d.data.userId = userId := by simpa using (List.mem_filter.mp hd).2
    have h1 : (fetchedItem userId d).userId = (fetchedItem userId doc).userId := by rw [he]
    have h2 : d.data.userId = doc.data.userId := h1
    exact hother (by rw [← hw.1, ← h2, hu])

/-- C23, amended, at the sample collection and the user `sup-1`: two documents are listed,
the document of `sup-2` is not. -/
theorem history_lists_by_owner_field_witness :
    (fetchHistory codeUnitCompare "sup-1" sampleDocs).length = 2
      ∧ WrittenFor "sup-2"
          { id := "sup-2-2025-10-27", data := { fullDay "2025-10-27" with userId := "sup-2" } }
      ∧ fetchedItem "sup-1"
            { id := "sup-2-2025-10-27", data := { fullDay "2025-10-27" with userId := "sup-2" } }
          ∉ fetchHistory codeUnitCompare "sup-1" sampleDocs :=
  ⟨by decide, by decide,
    (history_lists_by_owner_field codeUnitCompare "sup-1" sampleDocs).2.2 "sup-2" (by decide)
      { id := "sup-2-2025-10-27", data := { fullDay "2025-10-27" with userId := "sup-2" } }
      (by decide) (by decide)⟩

/-! ## The date of today (C25) -/

/-- In every zone, `getTodayDateString` is the date of the local clock exactly at the
instants at which the local day is the UTC day. -/
theorem getTodayDateString_eq_local_iff (tz : TimeZone) (now : Int) :
    getTodayDateString now = localDateString tz now ↔ Day now = Day (LocalTime tz now) := by
  unfold getTodayDateString localDateString
  constructor
  · exact isoDate_injective _ _
  · intro h
    rw [h]

/-- C25 at a failing input: at 2025-10-28T01:30:00Z a clock three hours behind UTC shows
22:30 of 2025-10-27, and `getTodayDateString` returns 2025-10-28, the UTC date; in a zone
without offset the two dates are the same. -/
theorem today_is_the_utc_date :
    getTodayDateString lateEvening = "2025-10-28"
      ∧ localDateString (TimeZone.fixed (-10800000)) lateEvening = "2025-10-27"
      ∧ getTodayDateString lateEvening ≠ localDateString (TimeZone.fixed (-10800000)) lateEvening
      ∧ getTodayDateString lateEvening = localDateString (TimeZone.fixed 0) lateEvening := by
  decide

/-! ## Whose documents the clean-up deletes (C26) -/

/-- C26 at a failing input: the sample collection holds documents written for `sup-1`
and `sup-2` and none for `sup`; the clean-up run by the user `sup` deletes them all, the
clean-up run by `sup-1` leaves the document of `sup-2`. -/
theorem clean_up_deletes_other_users_documents :
    (∀ doc ∈ sampleDocs, WrittenFor "sup-1" doc ∨ WrittenFor "sup-2" doc)
      ∧ (∀ doc ∈ sampleDocs, ¬ WrittenFor "sup" doc)
      ∧ clearSampleData true (some "sup") sampleDocs = []
      ∧ clearSampleData true (some "sup-1") sampleDocs
          = [{ id := "sup-2-2025-10-27",
               data := { fullDay "2025-10-27" with userId := "sup-2" } }] := by
  decide

/-! ## The date read back from the document id (C29) -/

theorem removeFirstChars_append (pat rest : List Char) (hpat : pat ≠ []) :
    removeFirstChars pat (pat ++ rest) = rest := by
  cases pat with
  | nil => exact absurd rfl hpat
  | cons c cs =>
    have h := startsWithChars_append (c :: cs) rest
    rw [List.cons_append] at h ⊢
    rw [removeFirstChars, if_pos h]
    simp

/-- C29: for every user id and every date string, also with hyphens or the text of the
user id inside them, `fetchHistory` reads back the date from the document id that
`getDailyStatusDocRef` builds: removing the first occurrence of `userId-` from
`userId-dateString` gives `dateString`, and the item built from such a document has that
`dateString`, whatever fields are stored. -/
theorem doc_key_roundtrip (userId dateString : String) :
    removeFirst (dailyStatusDocId userId dateString) (userId ++ "-") = dateString
      ∧ ∀ data : DailyRecord,
          (fetchedItem userId ⟨dailyStatusDocId userId dateString, data⟩).dateString
            = dateString := by
  have h : removeFirst (dailyStatusDocId userId dateString) (userId ++ "-") = dateString := by
    simp only [removeFirst, dailyStatusDocId, String.data_append]
    rw [removeFirstChars_append _ _ (by simp)]
  exact ⟨h, fun _ => h⟩

/-! ## Days without a record in the calendar (C24) -/

theorem objGet_calendarHistoryMap_none (totalItems : Nat) (now : Int) (h : List DailyRecord)
    (key : String) (hnone : ∀ item ∈ h, item.dateString ≠ key) :
    objGet (calendarHistoryMap totalItems now h) key = none := by
  cases hget : objGet (calendarHistoryMap totalItems now h) key with
  | none => rfl
  | some data =>
    obtain ⟨item, hm, hk, -⟩ := calendarHistoryMap_entry totalItems now h key data hget
    exact absurd hk (hnone item hm)

theorem colorClass_zero_points (now : Int) (date : String)
    (hpast : jsStrLe date (getTodayDateString now) = true) :
    colorClass totalProgressItems now { dateString := date } = colorCriticalFailure := by
  have h0 : calendarCompleted { dateString := date } = 0 := rfl
  rw [colorClass_of_past _ _ _ hpast, totalProgressItems_eq,
    if_neg (by simp), if_neg (by rw [calendarPercentage_eq_hundred_iff, h0]; decide),
    if_neg (by rw [h0]; decide)]

/-- C24, as stated, fails: on 2025-10-27, with a critical-failure record for 10-25 as the
only record, the calendar of October 2025 (zone without offset) gives the day 26, which
has no record, the class `bg-gray-100`; the day 25 gets the critical-failure class
`bg-gray-400 text-white`; the day 28, a future day without a record, gets `bg-gray-100`
like the day 26. -/
theorem unrecorded_day_is_not_critical_failure :
    getTodayDateString sampleNow = "2025-10-27"
      ∧ (calendarDay (TimeZone.fixed 0) sampleNow
          (calendarHistoryMap totalProgressItems sampleNow [{ dateString := "2025-10-25" }])
          2025 9 26).dateStr = some "2025-10-26"
      ∧ cellColorClass (calendarDay (TimeZone.fixed 0) sampleNow
          (calendarHistoryMap totalProgressItems sampleNow [{ dateString := "2025-10-25" }])
          2025 9 26) = "bg-gray-100"
      ∧ cellColorClass (calendarDay (TimeZone.fixed 0) sampleNow
          (calendarHistoryMap totalProgressItems sampleNow [{ dateString := "2025-10-25" }])
          2025 9 25) = "bg-gray-400 text-white"
      ∧ cellColorClass (calendarDay (TimeZone.fixed 0) sampleNow
          (calendarHistoryMap totalProgressItems sampleNow [{ dateString := "2025-10-25" }])
          2025 9 28) = "bg-gray-100" := by
  have hmap : calendarHistoryMap totalProgressItems sampleNow [{ dateString := "2025-10-25" }]
      = [("2025-10-25", calendarCell totalProgressItems sampleNow { dateString := "2025-10-25" })] :=
    rfl
  have h25 : getDateString (localMidnight (TimeZone.fixed 0) 2025 9 25) = "2025-10-25" := by
    decide
  have h26 : getDateString (localMidnight (TimeZone.fixed 0) 2025 9 26) = "2025-10-26" := by
    decide
  have h28 : getDateString (localMidnight (TimeZone.fixed 0) 2025 9 28) = "2025-10-28" := by
    decide
  have hc := colorClass_zero_points sampleNow "2025-10-25" (by decide)
  refine ⟨by decide, ?_, ?_, ?_, ?_⟩
  · simp only [calendarDay, h26]
  · simp only [cellColorClass, calendarDay, h26, hmap, objGet, if_true]
    rfl
  · simp only [cellColorClass, calendarDay, h25, hmap, objGet, if_true, calendarCell, hc]
    rfl
  · simp only [cellColorClass, calendarDay, h28, hmap, objGet, if_true]
    rfl

/-- In every zone: a cell of the displayed month whose `dateStr` is the date of no record
gets the class `bg-gray-100`. -/
theorem unrecorded_key_class (tz : TimeZone) (now : Int) (historyData : List DailyRecord)
    (year month i : Int)
    (hnone : ∀ item ∈ historyData,
      item.dateString ≠ getDateString (localMidnight tz year month i)) :
    cellColorClass (calendarDay tz now (calendarHistoryMap totalProgressItems now historyData)
        year month i) = colorUnrecorded := by
  simp only [cellColorClass, calendarDay, if_true,
    objGet_calendarHistoryMap_none _ now historyData _ hnone]

/-- In a zone at or west of UTC the local midnight of a day falls on the same UTC day, so
the `dateStr` of the cell of a day is the date of that day. -/
theorem getDateString_localMidnight_west (tz : TimeZone)
    (hwest : ∀ tl : Int, -msPerDay < tz.offsetAtLocal tl ∧ tz.offsetAtLocal tl ≤ 0)
    (year month i : Int) :
    getDateString (localMidnight tz year month i) = isoDate (MakeDay year month i) := by
  unfold getDateString localMidnight
  congr 1
  have h := hwest (MakeDay year month i * msPerDay)
  obtain ⟨n, hn⟩ : ∃ n, n = MakeDay year month i := ⟨_, rfl⟩
  rw [← hn] at h ⊢
  simp only [UTC, Day, msPerDay] at h ⊢
  omega

/-- East of UTC the cell of a day looks up the date before: in Europe/Madrid the cell of
26 October 2025 has the `dateStr` 2025-10-25, and with a critical-failure record for
10-25 as the only record it shows that record's class, while the cell of the day 25 finds
no record. -/
theorem calendar_cell_key_east_of_utc :
    (calendarDay europeMadridAutumn2025 sampleNow
        (calendarHistoryMap totalProgressItems sampleNow [{ dateString := "2025-10-25" }])
        2025 9 26).dateStr = some "2025-10-25"
      ∧ cellColorClass (calendarDay europeMadridAutumn2025 sampleNow
          (calendarHistoryMap totalProgressItems sampleNow [{ dateString := "2025-10-25" }])
          2025 9 26) = "bg-gray-400 text-white"
      ∧ cellColorClass (calendarDay europeMadridAutumn2025 sampleNow
          (calendarHistoryMap totalProgressItems sampleNow [{ dateString := "2025-10-25" }])
          2025 9 25) = "bg-gray-100" := by
  have hmap : calendarHistoryMap totalProgressItems sampleNow [{ dateString := "2025-10-25" }]
      = [("2025-10-25", calendarCell totalProgressItems sampleNow { dateString := "2025-10-25" })] :=
    rfl
  have h25 : getDateString (localMidnight europeMadridAutumn2025 2025 9 25) = "2025-10-24" := by
    decide
  have h26 : getDateString (localMidnight europeMadridAutumn2025 2025 9 26) = "2025-10-25" := by
    decide
  have hc := colorClass_zero_points sampleNow "2025-10-25" (by decide)
  refine ⟨?_, ?_, ?_⟩
  · simp only [calendarDay, h26]
  · simp only [cellColorClass, calendarDay, h26, hmap, objGet, if_true, calendarCell, hc]
    rfl
  · simp only [cellColorClass, calendarDay, h25, hmap, objGet, if_true]
    rfl

/-- C24, amended: in a zone at or west of UTC (an offset of zero or less, above minus one
day), where the cell of a day looks up the date of that day, a day of the displayed month
for which the history has no record gets the class `bg-gray-100`, whether the day is on
or before today or after; this class is not the class of a critical-failure record, nor
the class that a record of a future day gets, which has the same background with two more
classes. -/
theorem unrecorded_day_class (tz : TimeZone) (now : Int) (historyData : List DailyRecord)
    (year month i : Int)
    (hwest : ∀ tl : Int, -msPerDay < tz.offsetAtLocal tl ∧ tz.offsetAtLocal tl ≤ 0)
    (hnone : ∀ item ∈ historyData, item.dateString ≠ isoDate (MakeDay year month i)) :
    (calendarDay tz now (calendarHistoryMap totalProgressItems now historyData)
        year month i).dateStr = some (isoDate (MakeDay year month i))
      ∧ cellColorClass (calendarDay tz now
          (calendarHistoryMap totalProgressItems now historyData) year month i)
          = colorUnrecorded
      ∧ colorUnrecorded = "bg-gray-100"
      ∧ colorUnrecorded ≠ colorCriticalFailure
      ∧ colorUnrecorded ≠ colorFuture
      ∧ colorFuture = colorUnrecorded ++ " text-gray-400 border border-gray-200" := by
  have hkey := getDateString_localMidnight_west tz hwest year month i
  refine ⟨?_, ?_, rfl, by decide, by decide, by decide⟩
  · simp only [calendarDay, hkey]
  · exact unrecorded_key_class tz now historyData year month i
      (fun item hitem => by rw [hkey]; exact hnone item hitem)

/-- C24, amended, in October 2025 seen three hours behind UTC on 2025-10-27, with one
record, for 10-25: the days 26 (past) and 28 (future) have no record and get
`bg-gray-100`. -/
theorem unrecorded_day_class_witness :
    (∀ tl : Int, -msPerDay < (TimeZone.fixed (-10800000)).offsetAtLocal tl
        ∧ (TimeZone.fixed (-10800000)).offsetAtLocal tl ≤ 0)
      ∧ isoDate (MakeDay 2025 9 26) = "2025-10-26"
      ∧ (∀ item ∈ [({ dateString := "2025-10-25" } : DailyRecord)],
          item.dateString ≠ isoDate (MakeDay 2025 9 26))
      ∧ jsStrLe (isoDate (MakeDay 2025 9 26)) (getTodayDateString sampleNow) = true
      ∧ cellColorClass (calendarDay (TimeZone.fixed (-10800000)) sampleNow
          (calendarHistoryMap totalProgressItems sampleNow [{ dateString := "2025-10-25" }])
          2025 9 26) = "bg-gray-100"
      ∧ jsStrLe (isoDate (MakeDay 2025 9 28)) (getTodayDateString sampleNow) = false
      ∧ cellColorClass (calendarDay (TimeZone.fixed (-10800000)) sampleNow
          (calendarHistoryMap totalProgressItems sampleNow [{ dateString := "2025-10-25" }])
          2025 9 28) = "bg-gray-100" :=
  ⟨fun _ => ⟨(by decide : -msPerDay < (-10800000 : Int)),
      (by decide : (-10800000 : Int) ≤ 0)⟩,
    by decide, by decide, by decide,
    (unrecorded_day_class (TimeZone.fixed (-10800000)) sampleNow
      [{ dateString := "2025-10-25" }] 2025 9 26
      (fun _ => ⟨(by decide : -msPerDay < (-10800000 : Int)),
        (by decide : (-10800000 : Int) ≤ 0)⟩) (by decide)).2.1,
    by decide,
    (unrecorded_day_class (TimeZone.fixed (-10800000)) sampleNow
      [{ dateString := "2025-10-25" }] 2025 9 28
      (fun _ => ⟨(by decide : -msPerDay < (-10800000 : Int)),
        (by decide : (-10800000 : Int) ≤ 0)⟩) (by decide)).2.1⟩

/-! ## The four completed counts (C30) -/

/-- Counting over a list without repetition: two predicates that differ at most at one
element `k` of the list, where the second is false. -/
theorem countP_split_at (ids : List String) (hids : ids.Nodup) (k : String) (hk : k ∈ ids)
    (p q : String → Bool) (hpq : ∀ g, g ≠ k → p g = q g) (hq : q k = false) :
    ids.countP p = (if p k then 1 else 0) + ids.countP q := by
  induction ids with
  | nil => simp at hk
  | cons a t ih =>
    rw [List.nodup_cons] at hids
    by_cases ha : a = k
    · subst ha
      have ht : t.countP p = t.countP q :=
        List.countP_congr (fun g hg => by
          rw [hpq g (fun e => hids.1 (e ▸ hg))])
      rw [List.countP_cons, List.countP_cons, ht, hq]
      simp only [Bool.false_eq_true, if_false]
      omega
    · have hkt : k ∈ t := by
        rcases List.mem_cons.mp hk with h | h
        · exact absurd h.symm ha
        · exact h
      rw [List.countP_cons, List.countP_cons, ih hids.2 hkt, hpq a ha]
      omega

/-- Reading every id of a list without repetition in a map with distinct keys, all among
the ids, meets every entry of the map exactly once. -/
theorem countP_objGet (f : Option JSVal → Bool) (hf : f none = false) (ids : List String)
    (hids : ids.Nodup) : ∀ goals : List (String × JSVal),
    (objectKeys goals).Nodup → (∀ k ∈ objectKeys goals, k ∈ ids) →
    ids.countP (fun g => f (objGet goals g)) = goals.countP (fun kv => f (some kv.2)) := by
  intro goals
  induction goals with
  | nil =>
    intro _ _
    simp [objGet, hf]
  | cons p rest ih =>
    intro hnd hsub
    obtain ⟨k, v⟩ := p
    simp only [objectKeys, List.map_cons, List.nodup_cons, List.mem_cons, forall_eq_or_imp]
      at hnd hsub
    have hrest := ih (by simpa [objectKeys] using hnd.2) (by simpa [objectKeys] using hsub.2)
    have hsplit := countP_split_at ids hids k hsub.1
      (fun g => f (objGet ((k, v) :: rest) g)) (fun g => f (objGet rest g))
      (fun g hg => by simp only [objGet, if_neg (fun e : k = g => hg e.symm)])
      (by
        show f (objGet rest k) = false
        rw [objGet_eq_none_of_not_mem rest k (by simpa [objectKeys] using hnd.1), hf])
    rw [hsplit, hrest, List.countP_cons]
    simp only [objGet, if_true]
    omega

theorem goalIds_nodup : goalIds.Nodup := by decide

theorem csvGoalColumns_eq (item : DailyRecord) :
    csvGoalColumns item = goalIds.map (fun g => siNo (goalTruthy item g)) := rfl

theorem goalTruthy_eq (item : DailyRecord) (g : String) :
    goalTruthy item g = optionTruthy (objGet (item.fixedGoalsStatus.getD []) g) := by
  unfold goalTruthy
  cases item.fixedGoalsStatus with
  | none => rfl
  | some goals =>
    simp only [Option.getD_some]
    cases objGet goals g <;> rfl

theorem siNo_eq_si (b : Bool) : (siNo b == "SI") = b := by
  cases b <;> decide

theorem filter_truthy_of_bool (values : List JSVal)
    (hbool : ∀ v ∈ values, ∃ b, v = JSVal.bool b) :
    values.filter JSVal.truthy = values.filter JSVal.isTrue := by
  apply List.filter_congr
  intro v hv
  obtain ⟨b, rfl⟩ := hbool v hv
  cases b <;> rfl

/-- C30: for every record whose goal values are booleans, the completed count of the
calendar, the one of `calculateStreak` and the one of the list of the latest records
(which counts truthy values) are equal; when moreover the keys of the goal map are
distinct ids of the catalog, the count read from the CSV row (1 for a check-in `SI` plus
the number of `SI` in the goal columns) is that number too. -/
theorem completed_counts_agree (item : DailyRecord)
    (hbool : ∀ v ∈ objectValues (item.fixedGoalsStatus.getD []), ∃ b, v = JSVal.bool b) :
    calendarCompleted item = totalCompleted item
      ∧ recentTotalCompleted item = totalCompleted item
      ∧ (CatalogKeyed (item.fixedGoalsStatus.getD []) →
          csvCompleted item = totalCompleted item) := by
  refine ⟨rfl, ?_, ?_⟩
  · unfold recentTotalCompleted recentFixedCompleted totalCompleted
    rw [filter_truthy_of_bool _ hbool]
    omega
  · intro hkeys
    have hcols : (csvGoalColumns item).count "SI"
        = ((objectValues (item.fixedGoalsStatus.getD [])).filter JSVal.isTrue).length := by
      rw [csvGoalColumns_eq, List.count, List.countP_map]
      have hfun : ((fun x => x == "SI") ∘ fun g => siNo (goalTruthy item g))
          = fun g => optionTruthy (objGet (item.fixedGoalsStatus.getD []) g) := by
        funext g
        simp only [Function.comp, siNo_eq_si, goalTruthy_eq]
      rw [hfun, countP_objGet optionTruthy rfl goalIds goalIds_nodup _ hkeys.1 hkeys.2,
        ← filter_truthy_of_bool _ hbool, objectValues, List.filter_map, List.length_map,
        List.countP_eq_length_filter]
      rfl
    have hcheck : (if (csvRow item)[1]? = some "SI" then 1 else 0)
        = if item.checkedIn then 1 else 0 := by
      have h1 : (csvRow item)[1]? = some (siNo item.checkedIn) := rfl
      rw [h1]
      cases item.checkedIn <;> decide
    unfold csvCompleted totalCompleted
    rw [hcols, hcheck]

/-- C30 at a record with check-in and five of the eight goals done: every count is 6. -/
theorem completed_counts_agree_witness :
    (∀ v ∈ objectValues ((sixPointDay "2025-10-26").fixedGoalsStatus.getD []),
        ∃ b, v = JSVal.bool b)
      ∧ CatalogKeyed ((sixPointDay "2025-10-26").fixedGoalsStatus.getD [])
      ∧ calendarCompleted (sixPointDay "2025-10-26") = 6
      ∧ totalCompleted (sixPointDay "2025-10-26") = 6
      ∧ recentTotalCompleted (sixPointDay "2025-10-26") = totalCompleted (sixPointDay "2025-10-26")
      ∧ csvCompleted (sixPointDay "2025-10-26") = totalCompleted (sixPointDay "2025-10-26") := by
  have hb : ∀ v ∈ objectValues ((sixPointDay "2025-10-26").fixedGoalsStatus.getD []),
      ∃ b, v = JSVal.bool b := by
    intro v hv
    simp only [sixPointDay, Option.getD_some, objectValues, List.map_cons, List.map_nil,
      List.mem_cons, List.mem_nil_iff, or_false] at hv
    rcases hv with h | h | h | h | h | h | h | h <;> exact ⟨_, h⟩
  have hk : CatalogKeyed ((sixPointDay "2025-10-26").fixedGoalsStatus.getD []) := by
    constructor <;> decide
  exact ⟨hb, hk, by decide, by decide,
    (completed_counts_agree (sixPointDay "2025-10-26") hb).2.1,
    (completed_counts_agree (sixPointDay "2025-10-26") hb).2.2 hk⟩

/-! ## The order of ISO dates (C27) -/

/-- Within an era, a later day has a later year, or the same year and a later day of the
year. -/
theorem yearOfEra_mono (d1 d2 : Int) (h0 : 0 ≤ d1) (h12 : d1 ≤ d2) (h2 : d2 < 146097) :
    (yearOfEra d1).1 < (yearOfEra d2).1
      ∨ ((yearOfEra d1).1 = (yearOfEra d2).1 ∧ (yearOfEra d1).2 ≤ (yearOfEra d2).2) := by
  simp only [yearOfEra]
  omega

/-- A later day number has a later calendar date: the year, then the month, then the day
of the month decide. -/
theorem civilFromDays_mono (a b : Int) (h : a ≤ b) :
    (civilFromDays a).1 < (civilFromDays b).1
      ∨ ((civilFromDays a).1 = (civilFromDays b).1
        ∧ ((civilFromDays a).2.1 < (civilFromDays b).2.1
          ∨ ((civilFromDays a).2.1 = (civilFromDays b).2.1
            ∧ (civilFromDays a).2.2 ≤ (civilFromDays b).2.2))) := by
  have hsa := yearOfEra_spec ((a + 719468) % 146097) (Int.emod_nonneg _ (by norm_num))
    (Int.emod_lt_of_pos _ (by norm_num))
  have hsb := yearOfEra_spec ((b + 719468) % 146097) (Int.emod_nonneg _ (by norm_num))
    (Int.emod_lt_of_pos _ (by norm_num))
  have hmono : (a + 719468) / 146097 = (b + 719468) / 146097 →
      (yearOfEra ((a + 719468) % 146097)).1 < (yearOfEra ((b + 719468) % 146097)).1
        ∨ ((yearOfEra ((a + 719468) % 146097)).1 = (yearOfEra ((b + 719468) % 146097)).1
          ∧ (yearOfEra ((a + 719468) % 146097)).2 ≤ (yearOfEra ((b + 719468) % 146097)).2) :=
    fun he => yearOfEra_mono _ _ (Int.emod_nonneg _ (by norm_num)) (by omega)
      (Int.emod_lt_of_pos _ (by norm_num))
  have hera : (a + 719468) / 146097 ≤ (b + 719468) / 146097 := by omega
  simp only [civilFromDays]
  obtain ⟨ya, hya⟩ : ∃ y, y = (yearOfEra ((a + 719468) % 146097)).1 := ⟨_, rfl⟩
  obtain ⟨da, hda⟩ : ∃ d, d = (yearOfEra ((a + 719468) % 146097)).2 := ⟨_, rfl⟩
  obtain ⟨yb, hyb⟩ : ∃ y, y = (yearOfEra ((b + 719468) % 146097)).1 := ⟨_, rfl⟩
  obtain ⟨db, hdb⟩ : ∃ d, d = (yearOfEra ((b + 719468) % 146097)).2 := ⟨_, rfl⟩
  obtain ⟨ea, hea⟩ : ∃ e, e = (a + 719468) / 146097 := ⟨_, rfl⟩
  obtain ⟨eb, heb⟩ : ∃ e, e = (b + 719468) / 146097 := ⟨_, rfl⟩
  rw [← hya, ← hda, ← hyb, ← hdb, ← hea, ← heb] at hmono
  rw [← hya, ← hda] at hsa
  rw [← hyb, ← hdb] at hsb
  rw [← hea, ← heb] at hera
  rw [← hya, ← hda, ← hyb, ← hdb, ← hea, ← heb]
  clear hya hda hyb hdb hea heb
  obtain ⟨a1, a2, a3, a4, -⟩ := hsa
  obtain ⟨b1, b2, b3, b4, -⟩ := hsb
  split_ifs <;> omega


theorem utf16Units_digitChar (k : Int) : utf16Units (digitChar k) = [48 + (k % 10).toNat] := by
  unfold utf16Units
  rw [digitChar_toNat, if_pos (by omega)]

theorem codeUnits_append (a b : String) : codeUnits (a ++ b) = codeUnits a ++ codeUnits b := by
  simp [codeUnits]

theorem codeUnits_isoYear (y : Int) (hy : 0 ≤ y ∧ y ≤ 9999) :
    codeUnits (isoYear y)
      = [48 + (y / 1000 % 10).toNat, 48 + (y / 100 % 10).toNat, 48 + (y / 10 % 10).toNat,
          48 + (y % 10).toNat] := by
  simp only [codeUnits, isoYear, if_pos hy, String.toList, List.map_cons, List.map_nil,
    utf16Units_digitChar, List.flatten_cons, List.flatten_nil, List.cons_append,
    List.nil_append]

theorem codeUnits_pad2 (m : Int) :
    codeUnits (pad2 m) = [48 + (m / 10 % 10).toNat, 48 + (m % 10).toNat] := by
  simp only [codeUnits, pad2, String.toList, List.map_cons, List.map_nil,
    utf16Units_digitChar, List.flatten_cons, List.flatten_nil, List.cons_append,
    List.nil_append]

theorem codeUnits_hyphen : codeUnits "-" = [45] := by decide

/-- Comparing two sequences that start with segments of one length: the segments decide,
and when they are equal, the rests. -/
theorem lexLt_append (p1 : List Nat) : ∀ (p2 s1 s2 : List Nat), p1.length = p2.length →
    lexLt (p1 ++ s1) (p2 ++ s2) = (lexLt p1 p2 || (decide (p1 = p2) && lexLt s1 s2)) := by
  induction p1 with
  | nil =>
    intro p2 s1 s2 hlen
    have : p2 = [] := List.length_eq_zero.mp hlen.symm
    subst this
    simp [lexLt]
  | cons a t ih =>
    intro p2 s1 s2 hlen
    cases p2 with
    | nil => simp at hlen
    | cons b u =>
      simp only [List.length_cons, Nat.add_right_cancel_iff] at hlen
      rw [List.cons_append, List.cons_append, lexLt, lexLt, ih u s1 s2 hlen]
      by_cases hab : a = b
      · subst hab
        simp
      · have hb : (a == b) = false := by simpa using hab
        simp [hab, hb]

theorem four_digits (y : Int) (hy : 0 ≤ y ∧ y ≤ 9999) :
    ∃ a b c e : Nat, (y / 1000 % 10).toNat = a ∧ (y / 100 % 10).toNat = b
      ∧ (y / 10 % 10).toNat = c ∧ (y % 10).toNat = e
      ∧ a ≤ 9 ∧ b ≤ 9 ∧ c ≤ 9 ∧ e ≤ 9 ∧ y = 1000 * a + 100 * b + 10 * c + e :=
  ⟨_, _, _, _, rfl, rfl, rfl, rfl, by omega, by omega, by omega, by omega, by omega⟩

theorem two_digits (m : Int) (hm : 0 ≤ m ∧ m ≤ 99) :
    ∃ a b : Nat, (m / 10 % 10).toNat = a ∧ (m % 10).toNat = b ∧ a ≤ 9 ∧ b ≤ 9
      ∧ m = 10 * a + b :=
  ⟨_, _, rfl, rfl, by omega, by omega, by omega⟩

/-- Years of four digits compare as strings the way they compare as numbers. -/
theorem isoYear_lt (y1 y2 : Int) (hy1 : 0 ≤ y1 ∧ y1 ≤ 9999) (hy2 : 0 ≤ y2 ∧ y2 ≤ 9999) :
    (lexLt (codeUnits (isoYear y1)) (codeUnits (isoYear y2)) = true ↔ y1 < y2)
      ∧ (codeUnits (isoYear y1) = codeUnits (isoYear y2) ↔ y1 = y2) := by
  rw [codeUnits_isoYear y1 hy1, codeUnits_isoYear y2 hy2]
  obtain ⟨a1, b1, c1, e1, ha1, hb1, hc1, he1, -, hb1', hc1', he1', hy1'⟩ := four_digits y1 hy1
  obtain ⟨a2, b2, c2, e2, ha2, hb2, hc2, he2, -, hb2', hc2', he2', hy2'⟩ := four_digits y2 hy2
  rw [ha1, hb1, hc1, he1, ha2, hb2, hc2, he2, hy1', hy2']
  simp only [lexLt, Bool.or_eq_true, Bool.and_eq_true, decide_eq_true_eq, beq_iff_eq,
    Bool.false_eq_true, and_false, or_false, List.cons.injEq, and_true]
  constructor <;> omega

/-- Months and days of two digits compare as strings the way they compare as numbers. -/
theorem pad2_lt (m1 m2 : Int) (hm1 : 0 ≤ m1 ∧ m1 ≤ 99) (hm2 : 0 ≤ m2 ∧ m2 ≤ 99) :
    (lexLt (codeUnits (pad2 m1)) (codeUnits (pad2 m2)) = true ↔ m1 < m2)
      ∧ (codeUnits (pad2 m1) = codeUnits (pad2 m2) ↔ m1 = m2) := by
  rw [codeUnits_pad2, codeUnits_pad2]
  obtain ⟨a1, b1, ha1, hb1, -, hb1', hm1'⟩ := two_digits m1 hm1
  obtain ⟨a2, b2, ha2, hb2, -, hb2', hm2'⟩ := two_digits m2 hm2
  rw [ha1, hb1, ha2, hb2, hm1', hm2']
  simp only [lexLt, Bool.or_eq_true, Bool.and_eq_true, decide_eq_true_eq, beq_iff_eq,
    Bool.false_eq_true, and_false, or_false, List.cons.injEq, and_true]
  constructor <;> omega

theorem codeUnits_isoYear_length (y : Int) (hy : 0 ≤ y ∧ y ≤ 9999) :
    (codeUnits (isoYear y)).length = 4 := by
  rw [codeUnits_isoYear y hy]
  rfl

theorem codeUnits_pad2_length (m : Int) : (codeUnits (pad2 m)).length = 2 := by
  rw [codeUnits_pad2]
  rfl

/-- Two dates in the format of `toISOString` with years of four digits compare as strings
the way their years, then their months, then their days compare as numbers. -/
theorem canonical_lt (y1 m1 d1 y2 m2 d2 : Int) (hy1 : 0 ≤ y1 ∧ y1 ≤ 9999)
    (hy2 : 0 ≤ y2 ∧ y2 ≤ 9999) (hm1 : 0 ≤ m1 ∧ m1 ≤ 99) (hm2 : 0 ≤ m2 ∧ m2 ≤ 99)
    (hd1 : 0 ≤ d1 ∧ d1 ≤ 99) (hd2 : 0 ≤ d2 ∧ d2 ≤ 99) :
    jsStrLt (isoYear y1 ++ "-" ++ pad2 m1 ++ "-" ++ pad2 d1)
        (isoYear y2 ++ "-" ++ pad2 m2 ++ "-" ++ pad2 d2) = true
      ↔ y1 < y2 ∨ (y1 = y2 ∧ (m1 < m2 ∨ (m1 = m2 ∧ d1 < d2))) := by
  have hY := isoYear_lt y1 y2 hy1 hy2
  have hM := pad2_lt m1 m2 hm1 hm2
  have hD := pad2_lt d1 d2 hd1 hd2
  have hnil : lexLt [] [] = false := rfl
  unfold jsStrLt
  simp only [codeUnits_append, codeUnits_hyphen, List.append_assoc]
  rw [lexLt_append _ _ _ _ (by rw [codeUnits_isoYear_length y1 hy1, codeUnits_isoYear_length y2 hy2]),
    lexLt_append [45] [45] _ _ rfl,
    lexLt_append _ _ _ _ (by rw [codeUnits_pad2_length, codeUnits_pad2_length]),
    lexLt_append [45] [45] _ _ rfl]
  have hD2 : lexLt (codeUnits (pad2 d1)) (codeUnits (pad2 d2)) = true ↔ d1 < d2 := hD.1
  simp only [Bool.or_eq_true, Bool.and_eq_true, decide_eq_true_eq, hY.1, hY.2, hM.1, hM.2, hD2,
    lexLt_irrefl, Bool.false_eq_true, false_or, true_and]


/-- The ISO dates of two days with years of four digits compare as strings the way the
days compare. -/
theorem isoDate_lt_iff (a b : Int)
    (ha : 0 ≤ (civilFromDays a).1 ∧ (civilFromDays a).1 ≤ 9999)
    (hb : 0 ≤ (civilFromDays b).1 ∧ (civilFromDays b).1 ≤ 9999) :
    jsStrLt (isoDate a) (isoDate b) = true ↔ a < b := by
  have ra := civilFromDays_range a
  have rb := civilFromDays_range b
  simp only [isoDate]
  rw [canonical_lt _ _ _ _ _ _ ha hb (by omega) (by omega) (by omega) (by omega)]
  constructor
  · intro h
    by_contra hn
    have hm := civilFromDays_mono b a (by omega)
    omega
  · intro h
    have hm := civilFromDays_mono a b (by omega)
    have hne : ¬ ((civilFromDays a).1 = (civilFromDays b).1
        ∧ (civilFromDays a).2.1 = (civilFromDays b).2.1
        ∧ (civilFromDays a).2.2 = (civilFromDays b).2.2) := by
      rintro ⟨h1, h2, h3⟩
      have := civilFromDays_injective a b (Prod.ext h1 (Prod.ext h2 h3))
      omega
    omega

theorem colorClass_eq_future_iff (totalItems : Nat) (now : Int) (item : DailyRecord) :
    colorClass totalItems now item = colorFuture
      ↔ jsStrLe item.dateString (getTodayDateString now) = false := by
  unfold colorClass
  cases hle : jsStrLe item.dateString (getTodayDateString now) with
  | false => simp
  | true =>
    simp only [if_true, Bool.true_eq_false, iff_false]
    split_ifs <;> decide

/-- C27: for two calendar days with years of four digits, written `YYYY-MM-DD`, the string
comparison `selected > today` is true exactly when the selected day is after today, and
`selected <= today` exactly when it is not.  So `isFutureDate` is true exactly for the
days after today, `calculateStreak` keeps exactly the records dated on or before today,
and the calendar gives the future colour exactly to the records dated after today.  On
all strings of that format (year of four digits, month and day of two), the comparison is
the comparison of the years, then the months, then the days. -/
theorem future_gate_chronological (selected today : Int)
    (hs : 0 ≤ (civilFromDays selected).1 ∧ (civilFromDays selected).1 ≤ 9999)
    (ht : 0 ≤ (civilFromDays today).1 ∧ (civilFromDays today).1 ≤ 9999) :
    (jsStrGt (isoDate selected) (isoDate today) = true ↔ today < selected)
      ∧ (jsStrLe (isoDate selected) (isoDate today) = true ↔ selected ≤ today)
      ∧ (∀ (now : Int) (s : AppState), Day now = today → s.selectedDate = isoDate selected →
          (isFutureDate now s = true ↔ today < selected))
      ∧ (∀ (now : Int) (h : List DailyRecord) (r : DailyRecord), Day now = today →
          r.dateString = isoDate selected →
          (r ∈ pastRecords now h ↔ r ∈ h ∧ selected ≤ today))
      ∧ (∀ (now : Int) (totalItems : Nat) (r : DailyRecord), Day now = today →
          r.dateString = isoDate selected →
          (colorClass totalItems now r = colorFuture ↔ today < selected))
      ∧ ∀ y1 m1 d1 y2 m2 d2 : Int, 0 ≤ y1 ∧ y1 ≤ 9999 → 0 ≤ y2 ∧ y2 ≤ 9999 →
          0 ≤ m1 ∧ m1 ≤ 99 → 0 ≤ m2 ∧ m2 ≤ 99 → 0 ≤ d1 ∧ d1 ≤ 99 → 0 ≤ d2 ∧ d2 ≤ 99 →
          (jsStrGt (isoYear y1 ++ "-" ++ pad2 m1 ++ "-" ++ pad2 d1)
              (isoYear y2 ++ "-" ++ pad2 m2 ++ "-" ++ pad2 d2) = true
            ↔ y2 < y1 ∨ (y2 = y1 ∧ (m2 < m1 ∨ (m2 = m1 ∧ d2 < d1)))) := by
  have hgt : jsStrGt (isoDate selected) (isoDate today) = true ↔ today < selected :=
    isoDate_lt_iff today selected ht hs
  have hle : jsStrLe (isoDate selected) (isoDate today) = true ↔ selected ≤ today := by
    unfold jsStrLe
    rw [Bool.not_eq_true', ← Bool.not_eq_true, isoDate_lt_iff today selected ht hs]
    omega
  refine ⟨hgt, hle, ?_, ?_, ?_, ?_⟩
  · intro now s hnow hsel
    unfold isFutureDate getDateString
    rw [hnow, hsel]
    exact hgt
  · intro now h r hnow hdate
    unfold pastRecords getDateString
    rw [List.mem_filter, hnow, hdate, hle]
  · intro now totalItems r hnow hdate
    rw [colorClass_eq_future_iff]
    unfold getTodayDateString
    rw [hnow, hdate, ← Bool.not_eq_true, hle]
    omega
  · intro y1 m1 d1 y2 m2 d2 hy1 hy2 hm1 hm2 hd1 hd2
    exact canonical_lt y2 m2 d2 y1 m1 d1 hy2 hy1 hm2 hm1 hd2 hd1

/-- C27 on 2025-10-27 (day number 20388): the day 2025-10-28 is a future date for the
gate, the day 2025-10-27 is not. -/
theorem future_gate_chronological_witness :
    isoDate 20389 = "2025-10-28" ∧ Day sampleNow = 20388 ∧ isoDate 20388 = "2025-10-27"
      ∧ (0 ≤ (civilFromDays 20389).1 ∧ (civilFromDays 20389).1 ≤ 9999)
      ∧ (0 ≤ (civilFromDays 20388).1 ∧ (civilFromDays 20388).1 ≤ 9999)
      ∧ (jsStrGt (isoDate 20389) (isoDate 20388) = true ↔ (20388 : Int) < 20389)
      ∧ (isFutureDate sampleNow (signedInState (isoDate 20389) {}) = true
          ↔ (20388 : Int) < 20389)
      ∧ (jsStrLe (isoDate 20388) (isoDate 20388) = true ↔ (20388 : Int) ≤ 20388) :=
  ⟨by decide, by decide, by decide, by decide, by decide,
    (future_gate_chronological 20389 20388 (by decide) (by decide)).1,
    (future_gate_chronological 20389 20388 (by decide) (by decide)).2.2.1 sampleNow
      (signedInState (isoDate 20389) {}) (by decide) rfl,
    (future_gate_chronological 20388 20388 (by decide) (by decide)).2.1⟩

/-! ## The end of the streak walk (C28) -/

theorem filter_range_succ (p : Nat → Bool) (m : Nat) :
    ((List.range (m + 1)).filter p).length
      = (if p 0 then 1 else 0) + ((List.range m).filter (fun i => p (i + 1))).length := by
  have hcomp : (p ∘ Nat.succ) = fun i => p (i + 1) := rfl
  rw [List.range_succ_eq_map, List.filter_cons, List.filter_map, hcomp]
  split
  · rw [List.length_cons, List.length_map]
    omega
  · rw [List.length_map]
    omega

/-- In every zone: the number that the loop returns is the streak it started with plus the
number of days with an entry among the days it went through before it stopped. -/
theorem streakLoop_result (tz : TimeZone) (now : Int) (historyMap : List (String × DailyRecord))
    (fuel : Nat) : ∀ (cur : Int) (streak k : Nat),
    streakLoop tz now historyMap fuel cur streak = some k →
    ∃ m : Nat, (∀ i : Nat, i < m → continuesAt now historyMap ((previousDay tz)^[i] cur))
      ∧ ¬ continuesAt now historyMap ((previousDay tz)^[m] cur)
      ∧ k = streak + ((List.range m).filter
          (fun i => (objGet historyMap (isoDate ((previousDay tz)^[i] cur))).isSome)).length := by
  induction fuel with
  | zero =>
    intro cur streak k h
    simp [streakLoop] at h
  | succ fuel ih =>
    intro cur streak k h
    have h9 : FIXED_DAILY_GOALS.length + 1 = 9 := rfl
    by_cases hc : continuesAt now historyMap cur
    · rw [streakLoop_succ] at h
      rcases hc with ⟨hn, ht⟩ | ⟨item, hs, hc9⟩
      · rw [hn] at h
        simp only [] at h
        rw [if_pos ht] at h
        obtain ⟨m, hgo, hstop, hk⟩ := ih _ _ _ h
        refine ⟨m + 1, ?_, ?_, ?_⟩
        · intro i hi
          cases i with
          | zero => exact Or.inl ⟨hn, ht⟩
          | succ i =>
            rw [Function.iterate_succ_apply]
            exact hgo i (by omega)
        · rw [Function.iterate_succ_apply]
          exact hstop
        · rw [filter_range_succ]
          simp only [Function.iterate_zero, id_eq, hn, Option.isSome_none, Bool.false_eq_true,
            if_false, Function.iterate_succ_apply, Nat.zero_add]
          exact hk
      · rw [hs] at h
        simp only [] at h
        rw [h9, if_neg (by simpa using hc9)] at h
        obtain ⟨m, hgo, hstop, hk⟩ := ih _ _ _ h
        refine ⟨m + 1, ?_, ?_, ?_⟩
        · intro i hi
          cases i with
          | zero => exact Or.inr ⟨item, hs, hc9⟩
          | succ i =>
            rw [Function.iterate_succ_apply]
            exact hgo i (by omega)
        · rw [Function.iterate_succ_apply]
          exact hstop
        · rw [filter_range_succ]
          simp only [Function.iterate_zero, id_eq, hs, Option.isSome_some, if_true,
            Function.iterate_succ_apply]
          omega
    · rw [streakLoop_of_not_continues _ _ _ _ _ _ hc] at h
      refine ⟨0, fun i hi => absurd hi (Nat.not_lt_zero i), hc, ?_⟩
      simp only [List.range_zero, List.filter_nil, List.length_nil, Nat.add_zero]
      exact (Option.some.inj h).symm

/-- A run that stops goes through pairwise distinct dates. -/
theorem walk_dates_nodup (tz : TimeZone) (now : Int) (historyMap : List (String × DailyRecord))
    (cur : Int) (m : Nat)
    (hgo : ∀ i : Nat, i < m → continuesAt now historyMap ((previousDay tz)^[i] cur))
    (hstop : ¬ continuesAt now historyMap ((previousDay tz)^[m] cur)) :
    ((List.range m).map (fun i => isoDate ((previousDay tz)^[i] cur))).Nodup := by
  have hper : ∀ i d : Nat, (previousDay tz)^[i] cur = (previousDay tz)^[i + d] cur →
      ∀ t : Nat, (previousDay tz)^[i + t] cur = (previousDay tz)^[i + d + t] cur := by
    intro i d he t
    rw [Nat.add_comm i t, Nat.add_comm (i + d) t, Function.iterate_add_apply,
      Function.iterate_add_apply, he]
  have key : ∀ i j : Nat, i < j → j < m →
      (previousDay tz)^[i] cur ≠ (previousDay tz)^[j] cur := by
    intro i j hij hjm he
    obtain ⟨d, rfl⟩ : ∃ d, j = i + d := ⟨j - i, by omega⟩
    have hall : ∀ n : Nat, i ≤ n → continuesAt now historyMap ((previousDay tz)^[n] cur) := by
      intro n
      induction n using Nat.strong_induction_on with
      | _ n ihn =>
        intro hin
        by_cases hn : n < i + d
        · exact hgo n (by omega)
        · have e := hper i d he (n - (i + d))
          have e1 : i + d + (n - (i + d)) = n := by omega
          rw [e1] at e
          rw [← e]
          exact ihn (i + (n - (i + d))) (by omega) (by omega)
    exact hstop (hall m (by omega))
  refine List.Nodup.map_on ?_ (List.nodup_range m)
  intro i hi j hj he
  have he2 := isoDate_injective _ _ he
  rcases Nat.lt_trichotomy i j with hlt | heq | hgt
  · exact absurd he2 (key i j hlt (List.mem_range.mp hj))
  · exact heq
  · exact absurd he2.symm (key j i hgt (List.mem_range.mp hi))

/-- In every zone: a loop that returns, started with streak 0, returns at most the number
of entries of the map. -/
theorem streakLoop_le_length (tz : TimeZone) (now : Int)
    (historyMap : List (String × DailyRecord)) (fuel : Nat) (cur : Int) (k : Nat)
    (h : streakLoop tz now historyMap fuel cur 0 = some k) : k ≤ historyMap.length := by
  obtain ⟨m, hgo, hstop, hk⟩ := streakLoop_result tz now historyMap fuel cur 0 k h
  have hnd := walk_dates_nodup tz now historyMap cur m hgo hstop
  have hsub : (List.filter
      (fun i => (objGet historyMap (isoDate ((previousDay tz)^[i] cur))).isSome)
      (List.range m)).Sublist (List.range m) := List.filter_sublist _
  have hnd2 := hnd.sublist (hsub.map (fun i => isoDate ((previousDay tz)^[i] cur)))
  have hkeys : (List.filter
      (fun i => (objGet historyMap (isoDate ((previousDay tz)^[i] cur))).isSome)
      (List.range m)).map (fun i => isoDate ((previousDay tz)^[i] cur))
        ⊆ objectKeys historyMap := by
    intro key hkey
    obtain ⟨i, hi, rfl⟩ := List.mem_map.mp hkey
    have hsome := (List.mem_filter.mp hi).2
    obtain ⟨item, hitem⟩ := Option.isSome_iff_exists.mp hsome
    exact objGet_mem_keys _ _ _ hitem
  have hle := (hnd2.subperm hkeys).length_le
  simp only [List.length_map, objectKeys] at hle
  omega

/-- In every zone: when `calculateStreak` returns a number, the number is at most the
number of records dated on or before today. -/
theorem calculateStreak_le_past (tz : TimeZone) (now : Int) (h : List DailyRecord) (k : Nat)
    (hk : calculateStreak tz now h = some k) : k ≤ (pastRecords now h).length := by
  unfold calculateStreak at hk
  by_cases h0 : h.length = 0
  · rw [if_pos h0] at hk
    have := Option.some.inj hk
    omega
  · rw [if_neg h0] at hk
    simp only [] at hk
    by_cases hd : (sortedDays now h).length = 0
    · rw [if_pos hd] at hk
      have := Option.some.inj hk
      omega
    · rw [if_neg hd] at hk
      have h1 := streakLoop_le_length tz now _ _ _ k hk
      have h2 : (streakHistoryMap (sortedDays now h)).length ≤ (sortedDays now h).length := by
        have := foldl_objSet_length (sortedDays now h) []
        simpa [streakHistoryMap] using this
      have h3 : (sortedDays now h).length = (pastRecords now h).length := by
        simp only [sortedDays, List.length_insertionSort]
      omega

/-- In a zone whose offsets never differ by a day or more, the step of the streak walk
goes to an earlier day. -/
theorem previousDay_lt (tz : TimeZone)
    (hoff : ∀ t tl : Int, tz.offsetAtUTC t - tz.offsetAtLocal tl < msPerDay) (cur : Int) :
    previousDay tz cur < cur := by
  unfold previousDay
  rw [setDate_previous]
  have h := hoff (cur * msPerDay) (LocalTime tz (cur * msPerDay) - msPerDay)
  simp only [UTC, LocalTime, Day, msPerDay] at h ⊢
  omega

/-- A loop that goes on for `m` days and then meets a day at which it does not go on
returns, given more than `m` iterations. -/
theorem streakLoop_of_stop (tz : TimeZone) (now : Int) (historyMap : List (String × DailyRecord))
    (m : Nat) : ∀ (cur : Int) (streak fuel : Nat),
    (∀ i : Nat, i < m → continuesAt now historyMap ((previousDay tz)^[i] cur)) →
    ¬ continuesAt now historyMap ((previousDay tz)^[m] cur) → m < fuel →
    ∃ k, streakLoop tz now historyMap fuel cur streak = some k := by
  induction m with
  | zero =>
    intro cur streak fuel _ hstop hfuel
    obtain ⟨f, rfl⟩ : ∃ f, fuel = f + 1 := ⟨fuel - 1, by omega⟩
    exact ⟨streak, streakLoop_of_not_continues _ _ _ _ _ _ hstop⟩
  | succ m ih =>
    intro cur streak fuel hgo hstop hfuel
    obtain ⟨f, rfl⟩ : ∃ f, fuel = f + 1 := ⟨fuel - 1, by omega⟩
    obtain ⟨s, hs⟩ := streakLoop_of_continues tz now historyMap f cur streak (hgo 0 (by omega))
    rw [hs]
    apply ih
    · intro i hi
      have := hgo (i + 1) (by omega)
      rwa [Function.iterate_succ_apply] at this
    · rwa [Function.iterate_succ_apply] at hstop
    · omega

/-- When every step goes to an earlier day, the loop meets a day at which it does not go
on within one day more than the map has entries. -/
theorem exists_stop_of_decreasing (tz : TimeZone) (hdec : ∀ n : Int, previousDay tz n < n)
    (now : Int) (historyMap : List (String × DailyRecord)) (cur : Int) :
    ∃ m : Nat, m ≤ historyMap.length + 1
      ∧ (∀ i : Nat, i < m → continuesAt now historyMap ((previousDay tz)^[i] cur))
      ∧ ¬ continuesAt now historyMap ((previousDay tz)^[m] cur) := by
  classical
  have hanti : ∀ i j : Nat, i < j → (previousDay tz)^[j] cur < (previousDay tz)^[i] cur := by
    intro i j hij
    induction j with
    | zero => exact absurd hij (Nat.not_lt_zero i)
    | succ j ihj =>
      rw [Function.iterate_succ_apply']
      have hstep := hdec ((previousDay tz)^[j] cur)
      rcases Nat.lt_succ_iff_lt_or_eq.mp hij with hlt | heq
      · exact lt_trans hstep (ihj hlt)
      · rw [heq]
        exact hstep
  have hex : ∃ m : Nat, ¬ continuesAt now historyMap ((previousDay tz)^[m] cur) := by
    by_contra hall
    have hall2 : ∀ i : Nat, continuesAt now historyMap ((previousDay tz)^[i] cur) := fun i => by
      by_contra hi
      exact hall ⟨i, hi⟩
    have hnd : ((List.range (historyMap.length + 2)).map
        (fun i => isoDate ((previousDay tz)^[i] cur))).Nodup := by
      refine List.Nodup.map_on ?_ (List.nodup_range _)
      intro i _ j _ he
      have he2 := isoDate_injective _ _ he
      rcases Nat.lt_trichotomy i j with hlt | heq | hgt
      · exact absurd he2 (ne_of_gt (hanti i j hlt))
      · exact heq
      · exact absurd he2 (ne_of_lt (hanti j i hgt))
    have hsub : (List.range (historyMap.length + 2)).map
        (fun i => isoDate ((previousDay tz)^[i] cur))
          ⊆ getDateString now :: objectKeys historyMap := by
      intro key hkey
      obtain ⟨i, -, rfl⟩ := List.mem_map.mp hkey
      rcases hall2 i with ⟨-, ht⟩ | ⟨item, hs, -⟩
      · rw [ht]
        exact List.mem_cons_self _ _
      · exact List.mem_cons_of_mem _ (objGet_mem_keys _ _ _ hs)
    have hle := (hnd.subperm hsub).length_le
    rw [List.length_map, List.length_range, List.length_cons, objectKeys, List.length_map]
      at hle
    exact absurd hle (by omega)
  refine ⟨Nat.find hex, ?_, ?_, Nat.find_spec hex⟩
  · exact stop_index_le tz now historyMap cur (Nat.find hex)
      (fun i hi => by
        by_contra hk
        exact Nat.find_min hex hi hk)
      (Nat.find_spec hex)
  · intro i hi
    by_contra hk
    exact Nat.find_min hex hi hk

/-- In every zone whose offsets never differ by a day or more, the walk of
`calculateStreak` ends for every history, and the number it returns is at most the number
of records dated on or before today. -/
theorem calculateStreak_terminates (tz : TimeZone)
    (hoff : ∀ t tl : Int, tz.offsetAtUTC t - tz.offsetAtLocal tl < msPerDay)
    (now : Int) (h : List DailyRecord) :
    ∃ k : Nat, calculateStreak tz now h = some k ∧ k ≤ (pastRecords now h).length := by
  have hex : ∃ k : Nat, calculateStreak tz now h = some k := by
    by_cases hne : (sortedDays now h).length = 0
    · refine ⟨0, ?_⟩
      unfold calculateStreak
      by_cases h0 : h.length = 0
      · rw [if_pos h0]
      · rw [if_neg h0]
        simp only []
        rw [if_pos hne]
    · obtain ⟨m, hm, hgo, hstop⟩ := exists_stop_of_decreasing tz (previousDay_lt tz hoff) now
        (streakHistoryMap (sortedDays now h)) (Day now)
      obtain ⟨k, hk⟩ := streakLoop_of_stop tz now _ m (Day now) 0 (m + 1) hgo hstop (by omega)
      exact ⟨k, calculateStreak_of_loop tz now h (m + 1) k hne hk⟩
  obtain ⟨k, hk⟩ := hex
  exact ⟨k, hk, calculateStreak_le_past tz now h k hk⟩

/-- A loop that comes to a day at which it goes on and from which the step leads to the
same day never returns. -/
theorem streakLoop_stuck (tz : TimeZone) (now : Int) (historyMap : List (String × DailyRecord))
    (cur : Int) (hsame : previousDay tz cur = cur) (hc : continuesAt now historyMap cur)
    (fuel : Nat) : ∀ streak : Nat, streakLoop tz now historyMap fuel cur streak = none := by
  induction fuel with
  | zero => intro streak; rfl
  | succ fuel ih =>
    intro streak
    obtain ⟨s, hs⟩ := streakLoop_of_continues tz now historyMap fuel cur streak hc
    rw [hs, hsame]
    exact ih s

/-- The step of the streak walk in Pacific/Apia from 2011-12-31 (day number 15339) on: it
stays on 2011-12-31 and goes to the day before from every later day. -/
theorem previousDay_apia (n : Int) (hn : 15339 ≤ n) :
    previousDay pacificApia2011 n = if n = 15339 then 15339 else n - 1 := by
  unfold previousDay
  rw [setDate_previous]
  simp only [UTC, LocalTime, pacificApia2011, Day, msPerDay]
  split_ifs <;> omega

/-- A loop that goes on at every day it comes to never returns. -/
theorem streakLoop_never_returns (tz : TimeZone) (now : Int)
    (historyMap : List (String × DailyRecord)) (fuel : Nat) : ∀ (cur : Int) (streak : Nat),
    (∀ i : Nat, continuesAt now historyMap ((previousDay tz)^[i] cur)) →
    streakLoop tz now historyMap fuel cur streak = none := by
  induction fuel with
  | zero => intro cur streak _; rfl
  | succ fuel ih =>
    intro cur streak hall
    obtain ⟨s, hs⟩ := streakLoop_of_continues tz now historyMap fuel cur streak (hall 0)
    rw [hs]
    apply ih
    intro i
    have := hall (i + 1)
    rwa [Function.iterate_succ_apply] at this

/-- In Pacific/Apia, at every instant from 2011-12-31 on: when every day from 2011-12-31
to today has a 9/9 record (dates pairwise distinct), the walk of `calculateStreak` never
ends. -/
theorem calculateStreak_apia_never_ends (now : Int) (h : List DailyRecord)
    (hd : (h.map DailyRecord.dateString).Nodup) (hnow : 15339 ≤ Day now)
    (hfull : ∀ d : Int, 15339 ≤ d → d ≤ Day now → fullOn (pastRecords now h) d) :
    calculateStreak pacificApia2011 now h = none := by
  have hinv : ∀ i : Nat, 15339 ≤ (previousDay pacificApia2011)^[i] (Day now)
      ∧ (previousDay pacificApia2011)^[i] (Day now) ≤ Day now := by
    intro i
    induction i with
    | zero => exact ⟨hnow, le_refl _⟩
    | succ i ih =>
      rw [Function.iterate_succ_apply', previousDay_apia _ ih.1]
      obtain ⟨x, hx⟩ : ∃ x, x = (previousDay pacificApia2011)^[i] (Day now) := ⟨_, rfl⟩
      rw [← hx] at ih ⊢
      split_ifs <;> omega
  have hgo : ∀ i : Nat, continuesAt now (streakHistoryMap (sortedDays now h))
      ((previousDay pacificApia2011)^[i] (Day now)) := fun i =>
    Or.inr ((fullOn_iff_objGet now h hd _).mpr (hfull _ (hinv i).1 (hinv i).2))
  obtain ⟨r, hr, -, -⟩ := hfull (Day now) hnow (le_refl _)
  have hsorted : r ∈ sortedDays now h := (mem_sortedDays now h r).mpr hr
  have hmem : r ∈ h := (List.mem_filter.mp hr).1
  unfold calculateStreak
  rw [if_neg (by intro e; rw [List.length_eq_zero.mp e] at hmem; simp at hmem)]
  simp only []
  rw [if_neg (by intro e; rw [List.length_eq_zero.mp e] at hsorted; simp at hsorted)]
  exact streakLoop_never_returns pacificApia2011 now _ _ _ _ hgo

/-- C28 at a failing input: in Pacific/Apia, with the clock at 2011-12-31T12:00:00Z and a
9/9 record for 2011-12-31, the day before 2011-12-31 is computed as 2011-12-31 again (the
local 30 December was skipped), so the loop stays on that day and counts it again, for
every number of iterations; a zone that is always at UTC+14 returns 1. -/
theorem streak_walk_never_ends :
    getDateString apiaNow = "2011-12-31"
      ∧ Day apiaNow = 15339
      ∧ getPreviousDateString pacificApia2011 (Day apiaNow * msPerDay) = "2011-12-31"
      ∧ previousDay pacificApia2011 (Day apiaNow) = Day apiaNow
      ∧ (pastRecords apiaNow [fullDay "2011-12-31"]).length = 1
      ∧ calculateStreak pacificApia2011 apiaNow [fullDay "2011-12-31"] = none
      ∧ (∀ fuel streak : Nat, streakLoop pacificApia2011 apiaNow
            (streakHistoryMap (sortedDays apiaNow [fullDay "2011-12-31"])) fuel (Day apiaNow)
            streak = none)
      ∧ calculateStreak (TimeZone.fixed 50400000) apiaNow [fullDay "2011-12-31"] = some 1 := by
  refine ⟨by decide, by decide, by decide, by decide, by decide, by decide, ?_, by decide⟩
  intro fuel streak
  exact streakLoop_stuck pacificApia2011 apiaNow _ (Day apiaNow) (by decide)
    (Or.inr ⟨fullDay "2011-12-31", by decide, by decide⟩) fuel streak

end Cetraq
